import Mathlib

/-
Shallow embedding of the Go 1.17.13 runtime hash-map engine
(src/src/runtime/map.go) and proofs about the frozen claims.

Modelling conventions:
* Keys, values and hash words are Nat.  Machine words are modelled with
  explicit masking where the source relies on wrap-around (tophash keeps
  the top byte of a 64-bit word, noverflow is kept below 2^16, fastrand
  below 2^32).
* A bucket (Go struct bmap) is a Bmap: three slot arrays indexed 0..7.
  An overflow chain is a List Bmap whose head is the primary bucket.
  The compiled layout (keys after tophash, trailing overflow pointer)
  is memory layout only; the logical content is the three arrays plus
  the chain structure.
* The type descriptor maptype is a record of the hash and equality
  functions plus the behavioural flags the code consults.  A hash
  function that can panic is modelled as returning Option: none is a
  panic of the hasher.
* throw and panic are modelled as the error side of Except; for the
  mutating operations the error also carries the table state at the
  moment of the throw, since a Go panic leaves the partially mutated
  table behind.
* fastrand is modelled as an oracle stream fr with cursor fri carried
  in the hmap state; each draw reads fr fri and advances the cursor.
* The preallocated-overflow-bucket pool of makeBucketArray
  (extra.nextOverflow) is not modelled: a preallocated overflow bucket
  and a freshly allocated one are both all-zero, so newoverflow is
  observably the same either way.  The dirtyalloc reuse path of
  makeBucketArray is likewise memory reuse only.
* mapassign in the source loops via goto again; the loop re-runs only
  after a hashGrow.  On unreachable adversarial states that loop need
  not terminate, so the model gives it explicit fuel and a fuelOut
  error; every theorem about mapassign is conditioned on (or computes)
  an ok result, and the fuel is generous enough for all states the
  claims touch.
-/

set_option autoImplicit false

namespace GoMap

/-- Errors: Go panics and throws that the map code can raise. -/
inductive GoErr where
  | nilMapAssign
  | concurrentWrite
  | concurrentReadWrite
  | concurrentIterWrite
  | badMapState
  | badEvacuatedN
  | oldoverflowNotNil
  | hashPanic
  | fuelOut
deriving DecidableEq

/-- Maximum number of key/elem pairs a bucket can hold: 1 shl bucketCntBits. -/
def bucketCntBits : Nat := 3

def bucketCnt : Nat := 1 <<< bucketCntBits

/-- Maximum average load of a bucket: loadFactorNum / loadFactorDen. -/
def loadFactorNum : Nat := 13

def loadFactorDen : Nat := 2

/-- Possible tophash values: sentinel tags below minTopHash. -/
def emptyRest : Nat := 0

def emptyOne : Nat := 1

def evacuatedX : Nat := 2

def evacuatedY : Nat := 3

def evacuatedEmpty : Nat := 4

def minTopHash : Nat := 5

/-- Sentinel bucket id for iterator checks: 1 shl (8*PtrSize) - 1 on a 64-bit word. -/
def noCheck : Nat := (1 <<< 64) - 1

/-- bucketShift returns 1 shl b, with the shift amount masked to the word size
(sys.PtrSize*8 - 1 = 63) exactly as the source does. -/
def bucketShift (b : Nat) : Nat := 1 <<< (b % 64)

/-- bucketMask returns bucketShift b - 1. -/
def bucketMask (b : Nat) : Nat := bucketShift b - 1

/-- tophash computes the top 8 bits of a 64-bit hash word, bumped above the
sentinel range when below minTopHash. -/
def tophash (hash : Nat) : Nat :=
  let top := (hash >>> 56) % 256
  if top < minTopHash then top + minTopHash else top

/-- isEmpty reports whether the given tophash array entry is empty. -/
def isEmpty (x : Nat) : Bool := x ≤ emptyOne

/-- Bmap is the logical content of one Go bucket (struct bmap after
compilation): 8 tophash tags, 8 keys, 8 elems, indexed by slot 0..7. -/
structure Bmap where
  tops : Nat → Nat
  keys : Nat → Nat
  elems : Nat → Nat

/-- A freshly allocated, zeroed bucket. -/
def emptyBmap : Bmap := ⟨fun _ => 0, fun _ => 0, fun _ => 0⟩

/-- A bucket together with its overflow chain; the head is the primary
bucket, the tail the successive overflow buckets. -/
abbrev Chain := List Bmap

/-- The bucket array: one chain per primary bucket index. -/
abbrev BucketArr := List Chain

/-- evacuated reports whether a bucket has been evacuated: its slot-0 tag
is one of evacuatedX, evacuatedY, evacuatedEmpty. -/
def evacuated (ch : Chain) : Bool :=
  match ch with
  | [] => false
  | c :: _ => decide (emptyOne < c.tops 0 ∧ c.tops 0 < minTopHash)

/-- The hmap flag bits, kept as a record of the four flag bits. -/
structure Flags where
  iterator : Bool
  oldIterator : Bool
  hashWriting : Bool
  sameSizeGrow : Bool
deriving DecidableEq

def Flags.empty : Flags := ⟨false, false, false, false⟩

/-- flags xor hashWriting. -/
def Flags.xorWriting (f : Flags) : Flags := { f with hashWriting := !f.hashWriting }

/-- flags andnot hashWriting. -/
def Flags.clearWriting (f : Flags) : Flags := { f with hashWriting := false }

/-- flags or sameSizeGrow. -/
def Flags.setSameSize (f : Flags) : Flags := { f with sameSizeGrow := true }

/-- flags andnot sameSizeGrow. -/
def Flags.clearSameSize (f : Flags) : Flags := { f with sameSizeGrow := false }

/-- flags andnot (iterator or oldIterator). -/
def Flags.clearIterOld (f : Flags) : Flags := { f with iterator := false, oldIterator := false }

/-- mapextra: the overflow-bucket registries that keep overflow buckets
alive for the garbage collector.  Only their presence and length are
observable, so each registry is modelled as an optional element count.
The nextOverflow preallocation pool is not modelled (see header). -/
structure Mapextra where
  overflow : Option Nat
  oldoverflow : Option Nat
deriving DecidableEq

/-- The map type descriptor: the parts of maptype the map code consults.
indirectkey and indirectelem decide whether delete clears the stored key
slot; the allocation indirection itself is transparent in the model. -/
structure Maptype where
  hasher : Nat → Nat → Option Nat
  keyEqual : Nat → Nat → Bool
  reflexivekey : Bool
  needkeyupdate : Bool
  hashMightPanic : Bool
  indirectkey : Bool
  indirectelem : Bool
  keyPtrdata : Bool
  elemPtrdata : Bool
  bucketPtrdata : Bool

/-- The Go map header hmap, plus the fastrand oracle stream fr/fri. -/
structure Hmap where
  count : Nat
  flags : Flags
  B : Nat
  noverflow : Nat
  hash0 : Nat
  buckets : Option BucketArr
  oldbuckets : Option BucketArr
  nevacuate : Nat
  extra : Option Mapextra
  fr : Nat → Nat
  fri : Nat

/-- Draw one fastrand value (a uint32) from the oracle stream. -/
def fastrandStep (h : Hmap) : Nat × Hmap :=
  ((h.fr h.fri) % 4294967296, { h with fri := h.fri + 1 })

/-- growing reports whether the map is in the middle of a grow. -/
def Hmap.growing (h : Hmap) : Bool := h.oldbuckets.isSome

/-- sameSizeGrow reports whether the current grow keeps the bucket count. -/
def Hmap.sameSizeGrow (h : Hmap) : Bool := h.flags.sameSizeGrow

/-- noldbuckets is the number of buckets before the current grow.  The
source decrements a uint8; the model uses Nat subtraction, which agrees
whenever B is at least 1 for a doubling grow (true in every well-formed
growing state). -/
def Hmap.noldbuckets (h : Hmap) : Nat :=
  bucketShift (if h.sameSizeGrow then h.B else h.B - 1)

/-- oldbucketmask is noldbuckets - 1. -/
def Hmap.oldbucketmask (h : Hmap) : Nat := h.noldbuckets - 1

/-- The current bucket array (empty when unallocated). -/
def curBuckets (h : Hmap) : BucketArr := h.buckets.getD []

/-- The old bucket array (empty when not growing). -/
def oldBuckets (h : Hmap) : BucketArr := h.oldbuckets.getD []

/-- The chain at index j of the current bucket array. -/
def curChainAt (h : Hmap) (j : Nat) : Chain := (curBuckets h).getD j []

/-- The chain at index j of the old bucket array. -/
def oldChainAt (h : Hmap) (j : Nat) : Chain := (oldBuckets h).getD j []

/-- Replace the chain at index j of the current bucket array. -/
def setCurChain (h : Hmap) (j : Nat) (ch : Chain) : Hmap :=
  { h with buckets := h.buckets.map fun bs => bs.set j ch }

/-- Replace the chain at index j of the old bucket array. -/
def setOldChain (h : Hmap) (j : Nat) (ch : Chain) : Hmap :=
  { h with oldbuckets := h.oldbuckets.map fun obs => obs.set j ch }

/-- listModify applies f at index n, leaving the list unchanged when out
of range. -/
def listModify {α : Type} (f : α → α) : Nat → List α → List α
  | _, [] => []
  | 0, a :: as => f a :: as
  | n + 1, a :: as => a :: listModify f n as

/-- Write tag v into slot i of a bucket. -/
def Bmap.setTop (c : Bmap) (i v : Nat) : Bmap :=
  { c with tops := fun j => if j = i then v else c.tops j }

/-- Write key v into slot i of a bucket. -/
def Bmap.setKey (c : Bmap) (i v : Nat) : Bmap :=
  { c with keys := fun j => if j = i then v else c.keys j }

/-- Write elem v into slot i of a bucket. -/
def Bmap.setElem (c : Bmap) (i v : Nat) : Bmap :=
  { c with elems := fun j => if j = i then v else c.elems j }

/-- Modify cell c of the chain at current-array index j. -/
def modifyCurCell (h : Hmap) (j c : Nat) (f : Bmap → Bmap) : Hmap :=
  setCurChain h j (listModify f c (curChainAt h j))

/-- Write tag v into slot i of cell c of old-array chain j. -/
def setOldTop (h : Hmap) (j c i v : Nat) : Hmap :=
  setOldChain h j (listModify (fun cell => cell.setTop i v) c (oldChainAt h j))

/-- overLoadFactor reports whether count elements placed in 2^B buckets
exceed the load factor.  Note the source divides before multiplying:
loadFactorNum * (bucketShift B / loadFactorDen). -/
def overLoadFactor (count : Nat) (B : Nat) : Bool :=
  decide (bucketCnt < count) &&
    decide ((loadFactorNum * (bucketShift B / loadFactorDen)) % (1 <<< 64) < count)

/-- tooManyOverflowBuckets reports whether noverflow buckets is (nearly) as
many as 2^B primary buckets. -/
def tooManyOverflowBuckets (noverflow : Nat) (B : Nat) : Bool :=
  let B2 := if B > 15 then 15 else B
  decide ((1 <<< (B2 % 16)) ≤ noverflow)

/-- incrnoverflow increments the overflow-bucket count, probabilistically
when B is at least 16 (the count is a uint16, kept below 2^16). -/
def Hmap.incrnoverflow (h : Hmap) : Hmap :=
  if h.B < 16 then { h with noverflow := (h.noverflow + 1) % 65536 }
  else
    let mask := ((1 <<< (h.B - 15)) + 4294967296 - 1) % 4294967296
    let r := fastrandStep h
    if r.1 &&& mask = 0 then
      { r.2 with noverflow := (r.2.noverflow + 1) % 65536 }
    else r.2

/-- createOverflow makes sure the overflow registry exists. -/
def Hmap.createOverflow (h : Hmap) : Hmap :=
  let e := h.extra.getD ⟨none, none⟩
  let e2 := if e.overflow = none then { e with overflow := some 0 } else e
  { h with extra := some e2 }

/-- newoverflow hangs a fresh overflow bucket off cell c of current chain
j, bumps the overflow count and, for pointer-free bucket types, records
it in the overflow registry.  Setting the overflow pointer of cell c
discards any later cells of the chain, exactly like b.setoverflow. -/
def newoverflow (t : Maptype) (h : Hmap) (j c : Nat) : Hmap :=
  let h1 := h.incrnoverflow
  let h2 :=
    if t.bucketPtrdata then h1
    else
      let h15 := h1.createOverflow
      { h15 with extra := h15.extra.map (fun e => { e with overflow := e.overflow.map (· + 1) }) }
  setCurChain h2 j ((curChainAt h2 j).take (c + 1) ++ [emptyBmap])

/-- makeBucketArray allocates 2^b fresh zeroed buckets (the preallocated
overflow pool is not modelled, see header). -/
def makeBucketArray (t : Maptype) (b : Nat) : BucketArr :=
  List.replicate (bucketShift b) [emptyBmap]

/-- makemap_small creates an empty map with a random seed; bucket
allocation is deferred to mapassign. -/
def makemap_small (fr : Nat → Nat) : Hmap :=
  let h : Hmap :=
    { count := 0, flags := Flags.empty, B := 0, noverflow := 0, hash0 := 0,
      buckets := none, oldbuckets := none, nevacuate := 0, extra := none,
      fr := fr, fri := 0 }
  let r := fastrandStep h
  { r.2 with hash0 := r.1 }

/-- Outcome of scanning the 8 slots of one bucket for a key. -/
inductive CellFind where
  | ffound (i : Nat)
  | fstop
  | fnext
deriving DecidableEq

/-- findSlot scans the given slot indices of one bucket in order: skip on
tag mismatch, stop the whole chain scan at an emptyRest tag, compare the
full key when the tag matches. -/
def findSlot (t : Maptype) (top key : Nat) (cell : Bmap) : List Nat → CellFind
  | [] => .fnext
  | i :: rest =>
    if cell.tops i ≠ top then
      if cell.tops i = emptyRest then .fstop
      else findSlot t top key cell rest
    else if t.keyEqual key (cell.keys i) then .ffound i
    else findSlot t top key cell rest

/-- findChain walks a bucket chain looking for the key, returning the
(cell index, slot index) of the first match in scan order.  This is the
shared search loop of mapaccess1, mapaccess2, mapaccessK and mapdelete. -/
def findChain (t : Maptype) (top key : Nat) : Chain → Option (Nat × Nat)
  | [] => none
  | cell :: rest =>
    match findSlot t top key cell (List.range 8) with
    | .ffound i => some (0, i)
    | .fstop => none
    | .fnext => (findChain t top key rest).map fun p => (p.1 + 1, p.2)

/-- Select the chain mapaccess reads for a given hash: the current bucket,
or the corresponding old bucket when a grow is in flight and the old
bucket has not been evacuated yet. -/
def accessChainFor (h : Hmap) (hash : Nat) : Chain :=
  let m := bucketMask h.B
  let b := curChainAt h (hash &&& m)
  match h.oldbuckets with
  | none => b
  | some _ =>
    let m2 := if h.sameSizeGrow then m else m >>> 1
    let oldb := oldChainAt h (hash &&& m2)
    if evacuated oldb then b else oldb

/-- mapaccess2 returns the value stored for the key and whether it was
found; the zero value (0) when absent. -/
def mapaccess2 (t : Maptype) (h? : Option Hmap) (key : Nat) : Except GoErr (Nat × Bool) :=
  match h? with
  | none =>
    if t.hashMightPanic then
      match t.hasher key 0 with
      | none => .error .hashPanic
      | some _ => .ok (0, false)
    else .ok (0, false)
  | some h =>
    if h.count = 0 then
      if t.hashMightPanic then
        match t.hasher key 0 with
        | none => .error .hashPanic
        | some _ => .ok (0, false)
      else .ok (0, false)
    else if h.flags.hashWriting then .error .concurrentReadWrite
    else
      match t.hasher key h.hash0 with
      | none => .error .hashPanic
      | some hash =>
        let b := accessChainFor h hash
        match findChain t (tophash hash) key b with
        | some (c, i) => .ok ((b.getD c emptyBmap).elems i, true)
        | none => .ok (0, false)

/-- mapaccess1 returns the value (the zero value when absent); same search
as mapaccess2. -/
def mapaccess1 (t : Maptype) (h? : Option Hmap) (key : Nat) : Except GoErr Nat :=
  (mapaccess2 t h? key).map Prod.fst

/-- mapaccessK returns the stored key and elem for the iterator; nil (none)
when the map is nil or empty or the key is gone. -/
def mapaccessK (t : Maptype) (h? : Option Hmap) (key : Nat) :
    Except GoErr (Option (Nat × Nat)) :=
  match h? with
  | none => .ok none
  | some h =>
    if h.count = 0 then .ok none
    else
      match t.hasher key h.hash0 with
      | none => .error .hashPanic
      | some hash =>
        let b := accessChainFor h hash
        match findChain t (tophash hash) key b with
        | some (c, i) =>
          .ok (some ((b.getD c emptyBmap).keys i, (b.getD c emptyBmap).elems i))
        | none => .ok none

/-- reflect_maplen returns the element count, 0 for a nil map. -/
def reflect_maplen (h? : Option Hmap) : Nat :=
  match h? with
  | none => 0
  | some h => h.count

/-- The cell at index c of a chain (zeroed bucket when out of range). -/
def cellAt (ch : Chain) (c : Nat) : Bmap := ch.getD c emptyBmap

/-- hashGrow starts a grow: doubling when the load factor was hit,
same-size otherwise.  It allocates the new empty array, swaps buckets to
oldbuckets, resets the evacuation cursor and the overflow bookkeeping.
No data moves; that happens incrementally in growWork and evacuate. -/
def hashGrow (t : Maptype) (h : Hmap) : Except (GoErr × Hmap) Hmap :=
  let bigger : Nat := if overLoadFactor (h.count + 1) h.B then 1 else 0
  let h0 := if overLoadFactor (h.count + 1) h.B then h else { h with flags := h.flags.setSameSize }
  let oldbuckets := h0.buckets
  let newbuckets := makeBucketArray t (h0.B + bigger)
  let flags :=
    if h0.flags.iterator then { h0.flags.clearIterOld with oldIterator := true }
    else h0.flags.clearIterOld
  let h1 : Hmap :=
    { h0 with B := h0.B + bigger, flags := flags, oldbuckets := oldbuckets,
              buckets := some newbuckets, nevacuate := 0, noverflow := 0 }
  match h1.extra with
  | none => .ok h1
  | some e =>
    if e.overflow ≠ none then
      if e.oldoverflow ≠ none then .error (.oldoverflowNotNil, h1)
      else .ok { h1 with extra := some { e with oldoverflow := e.overflow, overflow := none } }
    else .ok h1

/-- bucketEvacuated reports whether old bucket number bucket has been
evacuated. -/
def bucketEvacuated (t : Maptype) (h : Hmap) (bucket : Nat) : Bool :=
  evacuated (oldChainAt h bucket)

/-- advanceSkip is the loop of advanceEvacuationMark that skips over old
buckets that are already evacuated.  The source loops while nevacuate is
not equal to stop; the model counts the remaining iterations (stop minus
nevacuate at the call site) structurally so the loop terminates on all
states, which agrees whenever nevacuate starts at or below stop (true in
every well-formed state). -/
def advanceSkip (t : Maptype) (h : Hmap) : Nat → Hmap
  | 0 => h
  | rem + 1 =>
    if bucketEvacuated t h h.nevacuate then
      advanceSkip t { h with nevacuate := h.nevacuate + 1 } rem
    else h

/-- advanceEvacuationMark bumps the evacuation cursor, skips buckets that
are already evacuated (at most 1024), and on reaching the old bucket
count releases the old array, the old overflow registry and the
same-size flag. -/
def advanceEvacuationMark (h : Hmap) (t : Maptype) (newbit : Nat) : Hmap :=
  let h1 := { h with nevacuate := h.nevacuate + 1 }
  let stop := min (h1.nevacuate + 1024) newbit
  let h2 := advanceSkip t h1 (stop - h1.nevacuate)
  if h2.nevacuate = newbit then
    { h2 with oldbuckets := none,
              extra := h2.extra.map (fun e => { e with oldoverflow := none }),
              flags := h2.flags.clearSameSize }
  else h2

/-- An evacuation destination: destination bucket index j in the new
array, index c of the current destination cell within that chain, and
the running slot counter i (Go evacDst, with the k/e pointers implicit). -/
structure EvacDst where
  j : Nat
  c : Nat
  i : Nat

/-- evacUseY decides whether a live slot goes to the low (x) or high (y)
half during a grow, and which tag is stored at the destination: for a
non-reflexive (NaN-like) key under an active iterator the decision is
the low bit of the stored tag and the tag is recomputed. -/
def evacUseY (t : Maptype) (h : Hmap) (k2 top newbit : Nat) : Except GoErr (Nat × Nat) :=
  if h.sameSizeGrow then .ok (0, top)
  else
    match t.hasher k2 h.hash0 with
    | none => .error .hashPanic
    | some hash =>
      if h.flags.iterator && !t.reflexivekey && !(t.keyEqual k2 k2) then
        .ok (top &&& 1, tophash hash)
      else
        .ok (if hash &&& newbit ≠ 0 then 1 else 0, top)

/-- evacWriteDst copies one live slot (tag top2, key k2, elem e2) to the
next free slot of destination dst, hanging a fresh destination overflow
bucket off it first when it is full, and advances the destination. -/
def evacWriteDst (t : Maptype) (h : Hmap) (dst : EvacDst) (top2 k2 e2 : Nat) : Hmap × EvacDst :=
  let s :=
    if dst.i = bucketCnt then
      (newoverflow t h dst.j dst.c, { dst with c := dst.c + 1, i := 0 })
    else (h, dst)
  let h3 := modifyCurCell s.1 dst.j s.2.c (fun dcell =>
    ((dcell.setTop (s.2.i &&& (bucketCnt - 1)) top2).setKey
      (s.2.i &&& (bucketCnt - 1)) k2).setElem
      (s.2.i &&& (bucketCnt - 1)) e2)
  (h3, { s.2 with i := s.2.i + 1 })

/-- evacuateSlots processes the given slot indices of old cell ci of old
bucket oldbucket: empty slots are marked evacuatedEmpty, live slots are
marked evacuatedX or evacuatedY and copied to the next free slot of the
chosen destination, allocating a destination overflow bucket when full. -/
def evacuateSlots (t : Maptype) (oldbucket newbit ci : Nat) (h : Hmap) (x y : EvacDst) :
    List Nat → Except (GoErr × Hmap) (Hmap × EvacDst × EvacDst)
  | [] => .ok (h, x, y)
  | i :: rest =>
    let cell := cellAt (oldChainAt h oldbucket) ci
    let top := cell.tops i
    if isEmpty top then
      evacuateSlots t oldbucket newbit ci (setOldTop h oldbucket ci i evacuatedEmpty) x y rest
    else if top < minTopHash then .error (.badMapState, h)
    else
      match evacUseY t h (cell.keys i) top newbit with
      | .error e => .error (e, h)
      | .ok (useY, top2) =>
        if ¬(evacuatedX + 1 = evacuatedY ∧ evacuatedX ^^^ 1 = evacuatedY) then
          .error (.badEvacuatedN, h)
        else
          let h2 := setOldTop h oldbucket ci i (evacuatedX + useY)
          if useY = 1 then
            let r := evacWriteDst t h2 y top2 (cell.keys i) (cell.elems i)
            evacuateSlots t oldbucket newbit ci r.1 x r.2 rest
          else
            let r := evacWriteDst t h2 x top2 (cell.keys i) (cell.elems i)
            evacuateSlots t oldbucket newbit ci r.1 r.2 y rest

/-- evacuateCells walks rem cells of the old chain starting at cell ci,
processing all 8 slots of each. -/
def evacuateCells (t : Maptype) (oldbucket newbit : Nat) (h : Hmap) (x y : EvacDst) (ci : Nat) :
    Nat → Except (GoErr × Hmap) Hmap
  | 0 => .ok h
  | rem + 1 =>
    match evacuateSlots t oldbucket newbit ci h x y (List.range 8) with
    | .error e => .error e
    | .ok (h2, x2, y2) => evacuateCells t oldbucket newbit h2 x2 y2 (ci + 1) rem

/-- clearOldDataAt clears the key/elem storage (and the overflow pointer)
of the primary cell of old bucket j, keeping the tophash array with its
evacuation marks, as the memclr at the end of evacuate does. -/
def clearOldDataAt (h : Hmap) (j : Nat) : Hmap :=
  match oldChainAt h j with
  | [] => h
  | c0 :: _ => setOldChain h j [⟨c0.tops, fun _ => 0, fun _ => 0⟩]

/-- evacuate moves all live entries of old bucket oldbucket and its
overflow chain into the new array (low/high destinations for a doubling
grow), marks every source slot with its evacuation state, and advances
the evacuation mark when oldbucket is the cursor. -/
def evacuate (t : Maptype) (h : Hmap) (oldbucket : Nat) : Except (GoErr × Hmap) Hmap :=
  let b := oldChainAt h oldbucket
  let newbit := h.noldbuckets
  let work : Except (GoErr × Hmap) Hmap :=
    if evacuated b then .ok h
    else
      let x : EvacDst := ⟨oldbucket, 0, 0⟩
      let y : EvacDst := ⟨oldbucket + newbit, 0, 0⟩
      match evacuateCells t oldbucket newbit h x y 0 b.length with
      | .error e => .error e
      | .ok h2 =>
        .ok (if !h2.flags.oldIterator && t.bucketPtrdata then clearOldDataAt h2 oldbucket else h2)
  match work with
  | .error e => .error e
  | .ok h2 =>
    .ok (if oldbucket = h2.nevacuate then advanceEvacuationMark h2 t newbit else h2)

/-- growWork evacuates the old bucket about to be used and, if the grow is
still in flight, one more old bucket at the evacuation cursor. -/
def growWork (t : Maptype) (h : Hmap) (bucket : Nat) : Except (GoErr × Hmap) Hmap :=
  match evacuate t h (bucket &&& h.oldbucketmask) with
  | .error e => .error e
  | .ok h2 => if h2.growing then evacuate t h2 h2.nevacuate else .ok h2

/-- Outcome of the mapassign scan of one bucket: a matching slot, a stop
at an emptyRest tag, or continue to the overflow bucket; cstop and cnext
carry the first empty slot seen so far (Go inserti). -/
inductive CellScan where
  | cfound (i : Nat)
  | cstop (ins : Option Nat)
  | cnext (ins : Option Nat)

/-- mapassignSlots scans the given slot indices of one cell for the key;
ins records the first empty slot seen so far (nothing is recorded once
it is set, exactly as inserti is only recorded while nil). -/
def mapassignSlots (t : Maptype) (top key : Nat) (cell : Bmap) (ins : Option Nat) :
    List Nat → CellScan
  | [] => .cnext ins
  | i :: rest =>
    if cell.tops i ≠ top then
      let ins2 := if isEmpty (cell.tops i) && ins.isNone then some i else ins
      if cell.tops i = emptyRest then .cstop ins2
      else mapassignSlots t top key cell ins2 rest
    else if t.keyEqual key (cell.keys i) then .cfound i
    else mapassignSlots t top key cell ins rest

/-- Result of the whole mapassign bucketloop: the position of an existing
matching key, or no match together with the first empty slot seen. -/
inductive AssignScan where
  | found (c i : Nat)
  | noMatch (ins : Option (Nat × Nat))

/-- mapassignScan walks the bucket chain like the mapassign bucketloop:
positions are relative to the head of the chain, and the first empty
slot of an earlier bucket takes precedence over anything later, exactly
as the single inserti pointer does in the source. -/
def mapassignScan (t : Maptype) (top key : Nat) : Chain → AssignScan
  | [] => .noMatch none
  | cell :: rest =>
    match mapassignSlots t top key cell none (List.range 8) with
    | .cfound i => .found 0 i
    | .cstop insL => .noMatch (insL.map fun i => (0, i))
    | .cnext insL =>
      match insL with
      | some i =>
        match mapassignScan t top key rest with
        | .found c j => .found (c + 1) j
        | .noMatch _ => .noMatch (some (0, i))
      | none =>
        match mapassignScan t top key rest with
        | .found c j => .found (c + 1) j
        | .noMatch ins2 => .noMatch (ins2.map fun p => (p.1 + 1, p.2))

/-- mapassignDone is the done label of mapassign: re-check the write flag,
clear it, and store the value through the returned slot (the store the
caller performs after mapassign returns). -/
def mapassignDone (t : Maptype) (key val : Nat) (h : Hmap) (bucket c i : Nat) :
    Except (GoErr × Option Hmap) Hmap :=
  if !h.flags.hashWriting then .error (.concurrentWrite, some h)
  else
    let h2 := { h with flags := h.flags.clearWriting }
    .ok (modifyCurCell h2 bucket c (fun cell => cell.setElem i val))

/-- mapassignLoop is the again loop of mapassign, with explicit fuel (the
loop re-runs only after a hashGrow; see the header note). -/
def mapassignLoop (t : Maptype) (key val hash : Nat) : Nat → Hmap → Except (GoErr × Option Hmap) Hmap
  | 0, h => .error (.fuelOut, some h)
  | fuel + 1, h =>
    let bucket := hash &&& bucketMask h.B
    let res : Except (GoErr × Hmap) Hmap := if h.growing then growWork t h bucket else .ok h
    match res with
    | .error (e, he) => .error (e, some he)
    | .ok h1 =>
      let b := curChainAt h1 bucket
      let top := tophash hash
      match mapassignScan t top key b with
      | .found c i =>
        let h2 :=
          if t.needkeyupdate then modifyCurCell h1 bucket c (fun cell => cell.setKey i key)
          else h1
        mapassignDone t key val h2 bucket c i
      | .noMatch ins =>
        if !h1.growing &&
            (overLoadFactor (h1.count + 1) h1.B || tooManyOverflowBuckets h1.noverflow h1.B) then
          match hashGrow t h1 with
          | .error (e, he) => .error (e, some he)
          | .ok h2 => mapassignLoop t key val hash fuel h2
        else
          match ins with
          | some (c, i) =>
            let h2 := modifyCurCell h1 bucket c (fun cell => (cell.setKey i key).setTop i top)
            let h3 := { h2 with count := h2.count + 1 }
            mapassignDone t key val h3 bucket c i
          | none =>
            let cLast := b.length - 1
            let h2 := newoverflow t h1 bucket cLast
            let cNew := (curChainAt h2 bucket).length - 1
            let h3 := modifyCurCell h2 bucket cNew (fun cell => (cell.setKey 0 key).setTop 0 top)
            let h4 := { h3 with count := h3.count + 1 }
            mapassignDone t key val h4 bucket cNew 0

/-- mapassign inserts or updates the key and stores val through the
returned slot.  A nil map panics; the hash function runs before the
write flag is set, so a hasher panic leaves the table untouched. -/
def mapassign (t : Maptype) (h? : Option Hmap) (key val : Nat) :
    Except (GoErr × Option Hmap) Hmap :=
  match h? with
  | none => .error (.nilMapAssign, none)
  | some h =>
    if h.flags.hashWriting then .error (.concurrentWrite, some h)
    else
      match t.hasher key h.hash0 with
      | none => .error (.hashPanic, some h)
      | some hash =>
        let h1 := { h with flags := h.flags.xorWriting }
        let h2 := if h1.buckets.isNone then { h1 with buckets := some [[emptyBmap]] } else h1
        mapassignLoop t key val hash (h2.count + h2.B + 66) h2

/-- deleteCompactGo is the backward compaction loop of mapdelete: it
turns the trailing run of emptyOne tags ending at (c, i) into emptyRest
tags, walking backwards across the chain until a non-empty slot or the
front.  The loop walks back one slot per step, so 8*c + i + 1 steps of
structural countdown always suffice. -/
def deleteCompactGo (ch : Chain) (c i : Nat) : Nat → Chain
  | 0 => ch
  | rem + 1 =>
    let ch2 := listModify (fun cell => cell.setTop i emptyRest) c ch
    if i = 0 then
      if c = 0 then ch2
      else
        if (cellAt ch2 (c - 1)).tops (bucketCnt - 1) ≠ emptyOne then ch2
        else deleteCompactGo ch2 (c - 1) (bucketCnt - 1) rem
    else
      if (cellAt ch2 c).tops (i - 1) ≠ emptyOne then ch2
      else deleteCompactGo ch2 c (i - 1) rem

/-- deleteCompact runs the backward compaction from slot (c, i). -/
def deleteCompact (ch : Chain) (c i : Nat) : Chain :=
  deleteCompactGo ch c i (8 * c + i + 1)

/-- mapdeleteAt clears the matched slot (c, i) of the chain at bucket:
the key storage is cleared only for indirect or pointer-carrying keys,
the elem always; the tag becomes emptyOne and, when the rest of the
chain is empty, the backward compaction turns the trailing empties into
emptyRest.  The count drops and the seed is reset when it hits zero. -/
def mapdeleteAt (t : Maptype) (h : Hmap) (bucket c i : Nat) : Hmap :=
  let ch := curChainAt h bucket
  let ch1 := listModify (fun cell =>
      let cell1 := if t.indirectkey || t.keyPtrdata then cell.setKey i 0 else cell
      (cell1.setElem i 0).setTop i emptyOne) c ch
  let compact :=
    if i = bucketCnt - 1 then
      !(decide (c + 1 < ch1.length) && (cellAt ch1 (c + 1)).tops 0 ≠ emptyRest)
    else
      !((cellAt ch1 c).tops (i + 1) ≠ emptyRest)
  let ch2 := if compact then deleteCompact ch1 c i else ch1
  let h1 : Hmap := setCurChain h bucket ch2
  let h2 : Hmap := { h1 with count := h1.count - 1 }
  if h2.count = 0 then
    let r := fastrandStep h2
    { r.2 with hash0 := r.1 }
  else h2

/-- mapdelete removes the key from the map if present.  Nil or empty maps
return immediately (after probing a panicky hasher); the hash runs
before the write flag is set. -/
def mapdelete (t : Maptype) (h? : Option Hmap) (key : Nat) :
    Except (GoErr × Option Hmap) (Option Hmap) :=
  match h? with
  | none =>
    if t.hashMightPanic then
      match t.hasher key 0 with
      | none => .error (.hashPanic, none)
      | some _ => .ok none
    else .ok none
  | some h =>
    if h.count = 0 then
      if t.hashMightPanic then
        match t.hasher key 0 with
        | none => .error (.hashPanic, some h)
        | some _ => .ok (some h)
      else .ok (some h)
    else if h.flags.hashWriting then .error (.concurrentWrite, some h)
    else
      match t.hasher key h.hash0 with
      | none => .error (.hashPanic, some h)
      | some hash =>
        let h1 := { h with flags := h.flags.xorWriting }
        let bucket := hash &&& bucketMask h1.B
        let res : Except (GoErr × Hmap) Hmap :=
          if h1.growing then growWork t h1 bucket else .ok h1
        match res with
        | .error (e, he) => .error (e, some he)
        | .ok h2 =>
          let b := curChainAt h2 bucket
          let top := tophash hash
          let h3 :=
            match findChain t top key b with
            | none => h2
            | some (c, i) => mapdeleteAt t h2 bucket c i
          if !h3.flags.hashWriting then .error (.concurrentWrite, some h3)
          else .ok (some { h3 with flags := h3.flags.clearWriting })

instance {e a : Type} [DecidableEq e] [DecidableEq a] : DecidableEq (Except e a) := fun x y =>
  match x, y with
  | .error u, .error v =>
    if h : u = v then .isTrue (by rw [h]) else .isFalse (fun he => h (Except.error.inj he))
  | .ok u, .ok v =>
    if h : u = v then .isTrue (by rw [h]) else .isFalse (fun he => h (Except.ok.inj he))
  | .error _, .ok _ => .isFalse (fun he => Except.noConfusion he)
  | .ok _, .error _ => .isFalse (fun he => Except.noConfusion he)

/-- errCode extracts the error of a mutating call, if any. -/
def errCode {a : Type} (r : Except (GoErr × Hmap) a) : Option GoErr :=
  match r with
  | .error (e, _) => some e
  | .ok _ => none

/-- A concrete map type over Nat keys and elems: the identity hash and
standard equality, nothing indirect, nothing that panics. -/
def tNat : Maptype :=
  { hasher := fun k _ => some k, keyEqual := fun a b => a == b,
    reflexivekey := true, needkeyupdate := false, hashMightPanic := false,
    indirectkey := false, indirectelem := false, keyPtrdata := false,
    elemPtrdata := false, bucketPtrdata := false }

/-- A constant fastrand oracle for concrete runs. -/
def frZero : Nat → Nat := fun _ => 0

/-- A freshly created empty table (make(map[k]v)). -/
def hEmpty : Hmap := makemap_small frZero

/-- putSeq inserts the keys 0..n-1 in order, key k with value 10*k. -/
def putSeq : Nat → Option Hmap → Option Hmap
  | 0, h => h
  | n + 1, h => (mapassign tNat (putSeq n h) n (10 * n)).toOption

/-- The table after inserting n distinct keys into a fresh table. -/
def c4h (n : Nat) : Option Hmap := putSeq n (some hEmpty)

/-- A map type with a NaN-like key: key 0 is never equal to itself, as
for a float key that is NaN. -/
def tNaN : Maptype :=
  { tNat with reflexivekey := false, keyEqual := fun a b => a == b && a != 0 }

/-- The table after Put(0, 7) with the NaN-like key 0. -/
def c1nanRes : Option Hmap := (mapassign tNaN (some hEmpty) 0 7).toOption

/-- A map type whose hash function always panics (an always-invalid key),
with the hashMightPanic flag the compiler would set for it. -/
def tFail : Maptype :=
  { tNat with hasher := fun _ _ => none, hashMightPanic := true }

/-- A non-empty table used to exercise the hasher-panic paths. -/
def hOne : Hmap := (c4h 1).getD hEmpty

/-- An old bucket whose slot 1 carries the corrupt tag 3 behind the live
slot 0, so evacuation must hit the bad-map-state check. -/
def badCell : Bmap :=
  { tops := fun i => if i = 0 then 7 else if i = 1 then 3 else 0,
    keys := fun _ => 0, elems := fun _ => 0 }

/-- Flags with only the same-size-grow bit set. -/
def flagsSameSize : Flags := { Flags.empty with sameSizeGrow := true }

/-- A same-size-growing table whose old bucket 0 is the corrupt bucket. -/
def hC10 : Hmap :=
  { hEmpty with count := 1, flags := flagsSameSize,
                buckets := some [[emptyBmap]], oldbuckets := some [[badCell]] }

/-- extraOkB states that starting a grow will not trip the
oldoverflow-is-not-nil throw: there is no leftover old overflow registry
alongside a current one. -/
def extraOkB (h : Hmap) : Bool :=
  match h.extra with
  | none => true
  | some e => e.overflow.isNone || e.oldoverflow.isNone

/-- A small concrete populated table (two entries, one bucket). -/
def hTwo : Hmap := (c4h 2).getD hEmpty

/-- The table after inserting 8 distinct keys into a fresh table: full
single bucket, B still 0, the next insert overshoots the load factor. -/
def hEight : Hmap := (c4h 8).getD hEmpty

/-- A mid-resize table that has been emptied: a same-size grow over 16
buckets is in flight (cursor at 1 of 16) and count is 0, the state left
by deleting every key while the grow is underway. -/
def hGE : Hmap :=
  { hEmpty with count := 0, flags := flagsSameSize, B := 4,
                buckets := some (List.replicate 16 [emptyBmap]),
                oldbuckets := some (List.replicate 16 [emptyBmap]),
                nevacuate := 1 }

/-- The map iterator hiter.  bptr is the current bucket cell together
with the rest of its overflow chain (empty list = nil), so advancing to
the overflow bucket is taking the tail. -/
structure Hiter where
  key : Option Nat
  elem : Option Nat
  buckets : BucketArr
  bptr : Chain
  overflow : Option Nat
  oldoverflow : Option Nat
  startBucket : Nat
  offset : Nat
  wrapped : Bool
  B : Nat
  i : Nat
  bucket : Nat
  checkBucket : Nat

/-- The zero-valued iterator (key nil means the iteration is over). -/
def emptyHiter : Hiter :=
  { key := none, elem := none, buckets := [], bptr := [], overflow := none,
    oldoverflow := none, startBucket := 0, offset := 0, wrapped := false,
    B := 0, i := 0, bucket := 0, checkBucket := 0 }

/-- Total number of bucket cells in an array, for iterator fuel. -/
def totalCells (bs : BucketArr) : Nat := (bs.map List.length).sum

/-- Fuel that bounds the number of loop steps of one mapiternext call:
every step either yields, moves one slot, one cell, or one bucket. -/
def iterFuel (h : Hmap) (it : Hiter) : Nat :=
  9 * (totalCells it.buckets + totalCells (oldBuckets h) + bucketShift it.B + 2)

/-- mapiternextGo is the next loop of mapiternext: state is the bucket
cursor, the remaining chain b of the current bucket, the slot counter i
and checkBucket; it is the iterator record carrying the snapshot fields
and wrapped flag. -/
def mapiternextGo (t : Maptype) (h : Hmap) :
    Nat → Hiter → Nat → Chain → Nat → Nat → Except GoErr Hiter
  | 0, _, _, _, _, _ => .error .fuelOut
  | fuel + 1, it, bucket, b, i, checkBucket =>
    match b with
    | [] =>
      if bucket = it.startBucket ∧ it.wrapped then
        .ok { it with key := none, elem := none }
      else
        let pick : Chain × Nat :=
          if h.growing && (it.B == h.B) then
            let oldbucket := bucket &&& h.oldbucketmask
            let ob := oldChainAt h oldbucket
            if !(evacuated ob) then (ob, bucket)
            else (it.buckets.getD bucket [], noCheck)
          else (it.buckets.getD bucket [], noCheck)
        let bucket2 := bucket + 1
        let s : Nat × Hiter :=
          if bucket2 = bucketShift it.B then (0, { it with wrapped := true })
          else (bucket2, it)
        mapiternextGo t h fuel s.2 s.1 pick.1 0 pick.2
    | cell :: rest =>
      if i < bucketCnt then
        let offi := (i + it.offset) &&& (bucketCnt - 1)
        if isEmpty (cell.tops offi) || cell.tops offi = evacuatedEmpty then
          mapiternextGo t h fuel it bucket b (i + 1) checkBucket
        else
          let k := cell.keys offi
          let keep : Except GoErr Bool :=
            if checkBucket ≠ noCheck && !h.sameSizeGrow then
              if t.reflexivekey || t.keyEqual k k then
                match t.hasher k h.hash0 with
                | none => .error .hashPanic
                | some hash => .ok (hash &&& bucketMask it.B == checkBucket)
              else
                .ok (checkBucket >>> (it.B - 1) == (cell.tops offi) &&& 1)
            else .ok true
          match keep with
          | .error e => .error e
          | .ok false => mapiternextGo t h fuel it bucket b (i + 1) checkBucket
          | .ok true =>
            if (cell.tops offi ≠ evacuatedX ∧ cell.tops offi ≠ evacuatedY) ∨
                !(t.reflexivekey || t.keyEqual k k) then
              .ok { it with key := some k, elem := some (cell.elems offi),
                            bucket := bucket, bptr := b, i := i + 1,
                            checkBucket := checkBucket }
            else
              match mapaccessK t (some h) k with
              | .error e => .error e
              | .ok none => mapiternextGo t h fuel it bucket b (i + 1) checkBucket
              | .ok (some (rk, re)) =>
                .ok { it with key := some rk, elem := some re,
                              bucket := bucket, bptr := b, i := i + 1,
                              checkBucket := checkBucket }
      else
        mapiternextGo t h fuel it bucket rest 0 checkBucket

/-- mapiternext advances the iterator to the next entry (key none when
the pass is over), throwing on a concurrent write. -/
def mapiternext (t : Maptype) (h : Hmap) (it : Hiter) : Except GoErr Hiter :=
  if h.flags.hashWriting then .error .concurrentIterWrite
  else mapiternextGo t h (iterFuel h it) it it.bucket it.bptr it.i it.checkBucket

/-- mapiterinit snapshots the bucket state, picks a pseudo-random start
bucket and in-bucket offset, marks the map as iterated, and yields the
first entry.  The constant hiter size check of the source always passes
and is not modelled. -/
def mapiterinit (t : Maptype) (h? : Option Hmap) : Except GoErr (Option Hmap × Hiter) :=
  match h? with
  | none => .ok (none, emptyHiter)
  | some h =>
    if h.count = 0 then .ok (some h, emptyHiter)
    else
      let h1 := if t.bucketPtrdata then h else h.createOverflow
      let r := fastrandStep h1
      let s : Nat × Hmap :=
        if h1.B > 31 - bucketCntBits then
          let r2 := fastrandStep r.2
          (r.1 + (r2.1 <<< 31), r2.2)
        else (r.1, r.2)
      let startBucket := s.1 &&& bucketMask s.2.B
      let offset := (s.1 >>> s.2.B) &&& (bucketCnt - 1)
      let it : Hiter :=
        { key := none, elem := none, buckets := curBuckets s.2, bptr := [],
          overflow := if t.bucketPtrdata then none else s.2.extra.bind Mapextra.overflow,
          oldoverflow := if t.bucketPtrdata then none else s.2.extra.bind Mapextra.oldoverflow,
          startBucket := startBucket, offset := offset, wrapped := false,
          B := s.2.B, i := 0, bucket := startBucket, checkBucket := 0 }
      let h3 : Hmap :=
        { s.2 with flags := { s.2.flags with iterator := true, oldIterator := true } }
      match mapiternext t h3 it with
      | .error e => .error e
      | .ok it2 => .ok (some h3, it2)

/-- iterSteps drives a full iteration pass from the state mapiterinit
returned, collecting the yielded key/elem pairs until key is nil. -/
def iterSteps (t : Maptype) (h : Hmap) : Nat → Hiter → Except GoErr (List (Nat × Nat))
  | 0, _ => .error .fuelOut
  | n + 1, it =>
    match it.key with
    | none => .ok []
    | some k =>
      match mapiternext t h it with
      | .error e => .error e
      | .ok it2 =>
        match iterSteps t h n it2 with
        | .error e => .error e
        | .ok l => .ok ((k, it.elem.getD 0) :: l)

/-- A chain holds no live entry when every slot tag is below minTopHash. -/
def noLiveChain (ch : Chain) : Prop :=
  ∀ cell ∈ ch, ∀ i < bucketCnt, cell.tops i < minTopHash

/-- The flattened tag sequence of a chain, in scan order. -/
def chainTags (ch : Chain) : List Nat :=
  (ch.map fun cell => (List.range 8).map cell.tops).flatten

/-- chainOk is the early-exit invariant of a bucket chain: beyond an
emptyRest tag no live tag (at least minTopHash) occurs, neither at a
higher slot of the same bucket nor anywhere in its overflow buckets. -/
def chainOk (ch : Chain) : Prop :=
  ∀ p q, p < q → q < (chainTags ch).length →
    (chainTags ch).getD p 0 = emptyRest → (chainTags ch).getD q 0 < minTopHash

/-- Executable check of chainOk over the finitely many tag positions. -/
def chainOkB (ch : Chain) : Bool :=
  (List.range (chainTags ch).length).all fun p =>
    (List.range (chainTags ch).length).all fun q =>
      !(decide (p < q) && decide ((chainTags ch).getD p 0 = emptyRest))
        || decide ((chainTags ch).getD q 0 < minTopHash)

/-- Every tag position strictly after position p holds no live tag. -/
def deadAfter (ch : Chain) (p : Nat) : Prop :=
  ∀ r, p < r → r < (chainTags ch).length → (chainTags ch).getD r 0 < minTopHash

/-- EvacFrame lists what one evacuation micro-step leaves untouched: the
scalar header fields, the shape of both arrays, and the evacuation marks
already present in the old array. -/
def EvacFrame (h h2 : Hmap) : Prop :=
  h2.count = h.count ∧ h2.B = h.B ∧ h2.hash0 = h.hash0 ∧ h2.flags = h.flags ∧
  h2.nevacuate = h.nevacuate ∧ h2.oldbuckets.isSome = h.oldbuckets.isSome ∧
  (oldBuckets h2).length = (oldBuckets h).length ∧
  (curBuckets h2).length = (curBuckets h).length ∧
  h2.buckets.isSome = h.buckets.isSome ∧
  (∀ o2, evacuated (oldChainAt h o2) = true → evacuated (oldChainAt h2 o2) = true) ∧
  ((∀ ch ∈ oldBuckets h, ch ≠ []) → ∀ ch ∈ oldBuckets h2, ch ≠ []) ∧
  ((∀ ch ∈ curBuckets h, ch ≠ []) → ∀ ch ∈ curBuckets h2, ch ≠ [])

/-- EvacSpec collects what one evacuate call guarantees about its result:
header fields and current-array shape are preserved, the cursor moves
exactly as advanceEvacuationMark dictates, and the grow completes
precisely when the cursor reaches the old bucket count. -/
def EvacSpec (h : Hmap) (o : Nat) (h2 : Hmap) : Prop :=
  h2.count = h.count ∧ h2.B = h.B ∧ h2.hash0 = h.hash0 ∧
  h2.flags.hashWriting = h.flags.hashWriting ∧
  h2.flags.iterator = h.flags.iterator ∧
  h2.flags.oldIterator = h.flags.oldIterator ∧
  (curBuckets h2).length = (curBuckets h).length ∧
  h2.buckets.isSome = h.buckets.isSome ∧
  ((∀ ch ∈ curBuckets h, ch ≠ []) → ∀ ch ∈ curBuckets h2, ch ≠ []) ∧
  h.nevacuate ≤ h2.nevacuate ∧
  (o ≠ h.nevacuate → h2.nevacuate = h.nevacuate) ∧
  (o = h.nevacuate → h.nevacuate < h2.nevacuate) ∧
  (h.nevacuate < h.noldbuckets → h2.nevacuate ≤ h.noldbuckets) ∧
  (h2.growing = true →
    h.growing = true ∧ h2.flags = h.flags ∧
    (oldBuckets h2).length = (oldBuckets h).length ∧
    ((∀ ch ∈ oldBuckets h, ch ≠ []) → ∀ ch ∈ oldBuckets h2, ch ≠ []) ∧
    (∀ o2, evacuated (oldChainAt h o2) = true → evacuated (oldChainAt h2 o2) = true)) ∧
  (h.growing = false → h2.buckets = h.buckets ∧ h2.growing = false) ∧
  (h.growing = true → h.nevacuate < h.noldbuckets →
    (h2.growing = false ↔ h2.nevacuate = h.noldbuckets)) ∧
  (h.growing = true → h2.growing = false →
    (h2.extra = none ∨ ∃ e, h2.extra = some e ∧ e.oldoverflow = none)) ∧
  (h2.growing = false →
    h2.flags.sameSizeGrow = false ∨ (h2.flags = h.flags ∧ h.growing = false)) ∧
  (h.growing = true → h2.growing = false → h.nevacuate < h2.nevacuate)

/-- AInv is the well-formedness a Put-then-Get run relies on: both arrays
have their advertised lengths and non-empty chains, an unallocated
bucket array only occurs at B = 0 outside a grow, the same-size flag is
only set while growing, a zero count means no live slot anywhere, and
the table is far from the 64-bit mask range (B below 52, count below
2^49, as any table reachable from make within Go address space is). -/
structure AInv (h : Hmap) : Prop where
  curlen : ∀ bs, h.buckets = some bs → bs.length = bucketShift h.B
  curne : ∀ ch ∈ curBuckets h, ch ≠ []
  nilB : h.buckets = none → h.B = 0 ∧ h.oldbuckets = none
  oldlen : h.growing = true → (oldBuckets h).length = h.noldbuckets
  oldne : ∀ ch ∈ oldBuckets h, ch ≠ []
  ssg : h.growing = false → h.flags.sameSizeGrow = false
  cnt0cur : h.count = 0 → ∀ ch ∈ curBuckets h, noLiveChain ch
  cnt0old : h.count = 0 → ∀ ch ∈ oldBuckets h, noLiveChain ch
  blt : h.B < 52
  clt : h.count < 2 ^ 49

/-- What a completed Put leaves behind for the following Get: a non-zero
count, a cleared write flag, and the key stored with value val in the
chain mapaccess consults for the key's hash. -/
def AccessGoal (t : Maptype) (key val hash : Nat) (h2 : Hmap) : Prop :=
  h2.count ≠ 0 ∧ h2.flags.hashWriting = false ∧
  ∃ c i, findChain t (tophash hash) key (accessChainFor h2 hash) = some (c, i) ∧
    ((accessChainFor h2 hash).getD c emptyBmap).elems i = val

/-- Well-formedness of a table state: the bucket arrays have their
advertised lengths, every chain has its primary bucket, a doubling grow
has B at least 1, a growing table has a current array, a zero count
means no live entries anywhere, and the table is within the size range
where 64-bit mask arithmetic is exact. -/
structure WFH (h : Hmap) : Prop where
  w1len : ∀ bs, h.buckets = some bs → bs.length = bucketShift h.B
  w1ne : ∀ bs, h.buckets = some bs → ∀ ch ∈ bs, ch ≠ []
  w2 : h.buckets = none → h.B = 0
  w3len : ∀ obs, h.oldbuckets = some obs → obs.length = h.noldbuckets
  w3ne : ∀ obs, h.oldbuckets = some obs → ∀ ch ∈ obs, ch ≠ []
  w3b : h.oldbuckets.isSome = true → h.sameSizeGrow = false → 1 ≤ h.B
  w3cur : h.oldbuckets.isSome = true → h.buckets.isSome = true
  w4cur : h.count = 0 → ∀ ch ∈ curBuckets h, noLiveChain ch
  w4old : h.count = 0 → ∀ ch ∈ oldBuckets h, noLiveChain ch
  w5B : h.B < 52
  w5c : h.count < 2 ^ 49
  w6 : h.oldbuckets = none → h.flags.sameSizeGrow = false

set_option maxRecDepth 100000

theorem bucketShift_eq_pow {b : Nat} (hb : b < 64) : bucketShift b = 2 ^ b := by
  simp [bucketShift, Nat.shiftLeft_eq, Nat.mod_eq_of_lt hb]

theorem bucketShift_pos (b : Nat) : 0 < bucketShift b := by
  simp only [bucketShift, Nat.shiftLeft_eq, one_mul]
  positivity

theorem land_bucketMask {b : Nat} (hb : b < 64) (x : Nat) : x &&& bucketMask b = x % 2 ^ b := by
  rw [bucketMask, bucketShift_eq_pow hb, Nat.and_pow_two_sub_one_eq_mod]

theorem land_bucketMask_lt {b : Nat} (hb : b < 64) (x : Nat) :
    x &&& bucketMask b < bucketShift b := by
  rw [land_bucketMask hb x, bucketShift_eq_pow hb]
  exact Nat.mod_lt _ (by positivity)

theorem land_land_bucketMask {a b : Nat} (hba : b ≤ a) (ha : a < 64) (x : Nat) :
    (x &&& bucketMask a) &&& bucketMask b = x &&& bucketMask b := by
  have hb : b < 64 := lt_of_le_of_lt hba ha
  rw [land_bucketMask ha, land_bucketMask hb, land_bucketMask hb]
  exact Nat.mod_mod_of_dvd x (pow_dvd_pow 2 hba)

theorem bucketMask_shiftRight {b : Nat} (hb1 : 1 ≤ b) (hb : b < 64) :
    bucketMask b >>> 1 = bucketMask (b - 1) := by
  have h1 : b - 1 < 64 := by omega
  rw [bucketMask, bucketMask, bucketShift_eq_pow hb, bucketShift_eq_pow h1]
  have h2 : 2 ^ b = 2 * 2 ^ (b - 1) := by
    conv_lhs => rw [show b = (b - 1) + 1 by omega]
    rw [pow_succ]
    ring
  rw [Nat.shiftRight_eq_div_pow, pow_one]
  have hm : 1 ≤ 2 ^ (b - 1) := Nat.one_le_two_pow
  omega

theorem tophash_ge (hash : Nat) : minTopHash ≤ tophash hash := by
  show minTopHash ≤
    if (hash >>> 56) % 256 < minTopHash then (hash >>> 56) % 256 + minTopHash
    else (hash >>> 56) % 256
  have h5 : minTopHash = 5 := rfl
  split <;> omega

@[simp] theorem Bmap.setTop_tops (c : Bmap) (i v j : Nat) :
    (c.setTop i v).tops j = if j = i then v else c.tops j := rfl

@[simp] theorem Bmap.setTop_keys (c : Bmap) (i v : Nat) : (c.setTop i v).keys = c.keys := rfl

@[simp] theorem Bmap.setTop_elems (c : Bmap) (i v : Nat) : (c.setTop i v).elems = c.elems := rfl

@[simp] theorem Bmap.setKey_keys (c : Bmap) (i v j : Nat) :
    (c.setKey i v).keys j = if j = i then v else c.keys j := rfl

@[simp] theorem Bmap.setKey_tops (c : Bmap) (i v : Nat) : (c.setKey i v).tops = c.tops := rfl

@[simp] theorem Bmap.setKey_elems (c : Bmap) (i v : Nat) : (c.setKey i v).elems = c.elems := rfl

@[simp] theorem Bmap.setElem_elems (c : Bmap) (i v j : Nat) :
    (c.setElem i v).elems j = if j = i then v else c.elems j := rfl

@[simp] theorem Bmap.setElem_tops (c : Bmap) (i v : Nat) : (c.setElem i v).tops = c.tops := rfl

@[simp] theorem Bmap.setElem_keys (c : Bmap) (i v : Nat) : (c.setElem i v).keys = c.keys := rfl

@[simp] theorem listModify_nil {α : Type} (f : α → α) (n : Nat) : listModify f n [] = [] := by
  cases n <;> rfl

@[simp] theorem listModify_length {α : Type} (f : α → α) :
    ∀ (n : Nat) (l : List α), (listModify f n l).length = l.length := by
  intro n l
  induction l generalizing n with
  | nil => simp
  | cons a as ih => cases n <;> simp [listModify, ih]

theorem getD_listModify {α : Type} (f : α → α) (d : α) :
    ∀ (n : Nat) (l : List α) (m : Nat),
      (listModify f n l).getD m d =
        if n = m ∧ m < l.length then f (l.getD m d) else l.getD m d := by
  intro n l
  induction l generalizing n with
  | nil => intro m; simp
  | cons a as ih =>
    intro m
    cases n with
    | zero =>
      cases m with
      | zero => simp [listModify]
      | succ m2 => simp [listModify]
    | succ n2 =>
      cases m with
      | zero => simp [listModify]
      | succ m2 =>
        simp only [listModify, List.getD_cons_succ, List.length_cons, ih n2 m2]
        by_cases h : n2 = m2 ∧ m2 < as.length
        · rw [if_pos h, if_pos (by omega)]
        · rw [if_neg h, if_neg (by omega)]

theorem mem_of_mem_listModify {α : Type} (f : α → α) :
    ∀ (n : Nat) (l : List α) (a : α), a ∈ listModify f n l →
      a ∈ l ∨ ∃ b ∈ l, a = f b := by
  intro n l
  induction l generalizing n with
  | nil => intro a ha; simp at ha
  | cons c as ih =>
    intro a ha
    cases n with
    | zero =>
      rcases List.mem_cons.mp ha with h | h
      · exact Or.inr ⟨c, List.mem_cons_self c as, h⟩
      · exact Or.inl (List.mem_cons_of_mem c h)
    | succ n2 =>
      rcases List.mem_cons.mp ha with h | h
      · exact Or.inl (h ▸ List.mem_cons_self c as)
      · rcases ih n2 a h with h2 | ⟨b, hb, hab⟩
        · exact Or.inl (List.mem_cons_of_mem c h2)
        · exact Or.inr ⟨b, List.mem_cons_of_mem c hb, hab⟩

theorem getD_set_self {α : Type} (d : α) {l : List α} {j : Nat} (hj : j < l.length) (x : α) :
    (l.set j x).getD j d = x := by
  induction l generalizing j with
  | nil => simp at hj
  | cons a as ih =>
    cases j with
    | zero => rfl
    | succ j2 => simpa using ih (by simpa using hj)

theorem getD_set_ne {α : Type} (d : α) (l : List α) {j m : Nat} (hjm : j ≠ m) (x : α) :
    (l.set j x).getD m d = l.getD m d := by
  induction l generalizing j m with
  | nil => simp
  | cons a as ih =>
    cases j with
    | zero => cases m with
      | zero => omega
      | succ m2 => rfl
    | succ j2 => cases m with
      | zero => rfl
      | succ m2 => simpa using ih (by omega)

theorem cellAt_mem_or_empty (ch : Chain) (c : Nat) : cellAt ch c ∈ ch ∨ cellAt ch c = emptyBmap := by
  by_cases hc : c < ch.length
  · left
    rw [cellAt, List.getD_eq_getElem ch emptyBmap hc]
    exact List.getElem_mem hc
  · right
    rw [cellAt, List.getD_eq_default ch emptyBmap (by omega)]

@[simp] theorem setCurChain_count (h : Hmap) (j : Nat) (ch : Chain) :
    (setCurChain h j ch).count = h.count := rfl

@[simp] theorem setCurChain_B (h : Hmap) (j : Nat) (ch : Chain) :
    (setCurChain h j ch).B = h.B := rfl

@[simp] theorem setCurChain_hash0 (h : Hmap) (j : Nat) (ch : Chain) :
    (setCurChain h j ch).hash0 = h.hash0 := rfl

@[simp] theorem setCurChain_flags (h : Hmap) (j : Nat) (ch : Chain) :
    (setCurChain h j ch).flags = h.flags := rfl

@[simp] theorem setCurChain_nevacuate (h : Hmap) (j : Nat) (ch : Chain) :
    (setCurChain h j ch).nevacuate = h.nevacuate := rfl

@[simp] theorem setCurChain_oldbuckets (h : Hmap) (j : Nat) (ch : Chain) :
    (setCurChain h j ch).oldbuckets = h.oldbuckets := rfl

@[simp] theorem setCurChain_extra (h : Hmap) (j : Nat) (ch : Chain) :
    (setCurChain h j ch).extra = h.extra := rfl

@[simp] theorem setCurChain_noverflow (h : Hmap) (j : Nat) (ch : Chain) :
    (setCurChain h j ch).noverflow = h.noverflow := rfl

@[simp] theorem curBuckets_setCurChain (h : Hmap) (j : Nat) (ch : Chain) :
    curBuckets (setCurChain h j ch) = (curBuckets h).set j ch := by
  cases hb : h.buckets <;> simp [curBuckets, setCurChain, hb]

@[simp] theorem buckets_isSome_setCurChain (h : Hmap) (j : Nat) (ch : Chain) :
    (setCurChain h j ch).buckets.isSome = h.buckets.isSome := by
  cases hb : h.buckets <;> simp [setCurChain, hb]

@[simp] theorem setOldChain_count (h : Hmap) (j : Nat) (ch : Chain) :
    (setOldChain h j ch).count = h.count := rfl

@[simp] theorem setOldChain_B (h : Hmap) (j : Nat) (ch : Chain) :
    (setOldChain h j ch).B = h.B := rfl

@[simp] theorem setOldChain_hash0 (h : Hmap) (j : Nat) (ch : Chain) :
    (setOldChain h j ch).hash0 = h.hash0 := rfl

@[simp] theorem setOldChain_flags (h : Hmap) (j : Nat) (ch : Chain) :
    (setOldChain h j ch).flags = h.flags := rfl

@[simp] theorem setOldChain_nevacuate (h : Hmap) (j : Nat) (ch : Chain) :
    (setOldChain h j ch).nevacuate = h.nevacuate := rfl

@[simp] theorem setOldChain_buckets (h : Hmap) (j : Nat) (ch : Chain) :
    (setOldChain h j ch).buckets = h.buckets := rfl

@[simp] theorem setOldChain_extra (h : Hmap) (j : Nat) (ch : Chain) :
    (setOldChain h j ch).extra = h.extra := rfl

@[simp] theorem setOldChain_noverflow (h : Hmap) (j : Nat) (ch : Chain) :
    (setOldChain h j ch).noverflow = h.noverflow := rfl

@[simp] theorem oldBuckets_setOldChain (h : Hmap) (j : Nat) (ch : Chain) :
    oldBuckets (setOldChain h j ch) = (oldBuckets h).set j ch := by
  cases hb : h.oldbuckets <;> simp [oldBuckets, setOldChain, hb]

@[simp] theorem oldbuckets_isSome_setOldChain (h : Hmap) (j : Nat) (ch : Chain) :
    (setOldChain h j ch).oldbuckets.isSome = h.oldbuckets.isSome := by
  cases hb : h.oldbuckets <;> simp [setOldChain, hb]

theorem curChainAt_eq (h : Hmap) (j : Nat) : curChainAt h j = (curBuckets h).getD j [] := rfl

theorem oldChainAt_eq (h : Hmap) (j : Nat) : oldChainAt h j = (oldBuckets h).getD j [] := rfl

theorem oldChainAt_setOldChain (h : Hmap) (j : Nat) (ch : Chain) (o : Nat) :
    oldChainAt (setOldChain h j ch) o =
      if j = o ∧ o < (oldBuckets h).length then ch else oldChainAt h o := by
  rw [oldChainAt_eq, oldBuckets_setOldChain, oldChainAt_eq]
  by_cases hj : j = o
  · subst hj
    by_cases hlen : j < (oldBuckets h).length
    · rw [getD_set_self _ hlen, if_pos ⟨rfl, hlen⟩]
    · rw [List.set_eq_of_length_le (by omega), if_neg (by simp [hlen])]
  · rw [getD_set_ne _ _ hj, if_neg (by simp [hj])]

theorem curChainAt_setCurChain (h : Hmap) (j : Nat) (ch : Chain) (o : Nat) :
    curChainAt (setCurChain h j ch) o =
      if j = o ∧ o < (curBuckets h).length then ch else curChainAt h o := by
  rw [curChainAt_eq, curBuckets_setCurChain, curChainAt_eq]
  by_cases hj : j = o
  · subst hj
    by_cases hlen : j < (curBuckets h).length
    · rw [getD_set_self _ hlen, if_pos ⟨rfl, hlen⟩]
    · rw [List.set_eq_of_length_le (by omega), if_neg (by simp [hlen])]
  · rw [getD_set_ne _ _ hj, if_neg (by simp [hj])]

theorem oldChainAt_setCurChain (h : Hmap) (j : Nat) (ch : Chain) (o : Nat) :
    oldChainAt (setCurChain h j ch) o = oldChainAt h o := rfl

theorem curChainAt_setOldChain (h : Hmap) (j : Nat) (ch : Chain) (o : Nat) :
    curChainAt (setOldChain h j ch) o = curChainAt h o := rfl

theorem evacuated_setOldTop (h : Hmap) (ob ci i v : Nat) (hv2 : 2 ≤ v) (hv5 : v < 5)
    (o2 : Nat) (he : evacuated (oldChainAt h o2) = true) :
    evacuated (oldChainAt (setOldTop h ob ci i v) o2) = true := by
  rw [setOldTop, oldChainAt_setOldChain]
  split
  · next hcase =>
    obtain ⟨hj, hlen⟩ := hcase
    rw [hj]
    rcases hch : oldChainAt h o2 with _ | ⟨c0, rest⟩
    · rw [hch] at he; simp [evacuated] at he
    · cases ci with
      | zero =>
        simp only [listModify, evacuated, Bmap.setTop_tops]
        by_cases h0 : (0 : Nat) = i
        · simp only [if_pos h0, emptyOne, minTopHash, decide_eq_true_eq]
          omega
        · simp only [if_neg h0]
          rw [hch] at he
          simpa [evacuated] using he
      | succ ci2 =>
        rw [hch] at he
        simpa [listModify, evacuated] using he
  · exact he

theorem getD_mem {α : Type} (l : List α) {n : Nat} (d : α) (h : n < l.length) :
    l.getD n d ∈ l := by
  rw [List.getD_eq_getElem l d h]
  exact List.getElem_mem h

@[simp] theorem incrnoverflow_count (h : Hmap) : h.incrnoverflow.count = h.count := by
  simp only [Hmap.incrnoverflow, fastrandStep]; split_ifs <;> rfl

@[simp] theorem incrnoverflow_B (h : Hmap) : h.incrnoverflow.B = h.B := by
  simp only [Hmap.incrnoverflow, fastrandStep]; split_ifs <;> rfl

@[simp] theorem incrnoverflow_hash0 (h : Hmap) : h.incrnoverflow.hash0 = h.hash0 := by
  simp only [Hmap.incrnoverflow, fastrandStep]; split_ifs <;> rfl

@[simp] theorem incrnoverflow_flags (h : Hmap) : h.incrnoverflow.flags = h.flags := by
  simp only [Hmap.incrnoverflow, fastrandStep]; split_ifs <;> rfl

@[simp] theorem incrnoverflow_buckets (h : Hmap) : h.incrnoverflow.buckets = h.buckets := by
  simp only [Hmap.incrnoverflow, fastrandStep]; split_ifs <;> rfl

@[simp] theorem incrnoverflow_oldbuckets (h : Hmap) : h.incrnoverflow.oldbuckets = h.oldbuckets := by
  simp only [Hmap.incrnoverflow, fastrandStep]; split_ifs <;> rfl

@[simp] theorem incrnoverflow_nevacuate (h : Hmap) : h.incrnoverflow.nevacuate = h.nevacuate := by
  simp only [Hmap.incrnoverflow, fastrandStep]; split_ifs <;> rfl

@[simp] theorem createOverflow_count (h : Hmap) : h.createOverflow.count = h.count := rfl

@[simp] theorem createOverflow_B (h : Hmap) : h.createOverflow.B = h.B := rfl

@[simp] theorem createOverflow_hash0 (h : Hmap) : h.createOverflow.hash0 = h.hash0 := rfl

@[simp] theorem createOverflow_flags (h : Hmap) : h.createOverflow.flags = h.flags := rfl

@[simp] theorem createOverflow_buckets (h : Hmap) : h.createOverflow.buckets = h.buckets := rfl

@[simp] theorem createOverflow_oldbuckets (h : Hmap) :
    h.createOverflow.oldbuckets = h.oldbuckets := rfl

@[simp] theorem createOverflow_nevacuate (h : Hmap) : h.createOverflow.nevacuate = h.nevacuate := rfl

@[simp] theorem curBuckets_incrnoverflow (h : Hmap) :
    curBuckets h.incrnoverflow = curBuckets h := by
  simp [curBuckets]

@[simp] theorem oldBuckets_incrnoverflow (h : Hmap) :
    oldBuckets h.incrnoverflow = oldBuckets h := by
  simp [oldBuckets]

@[simp] theorem curBuckets_createOverflow (h : Hmap) :
    curBuckets h.createOverflow = curBuckets h := rfl

@[simp] theorem oldBuckets_createOverflow (h : Hmap) :
    oldBuckets h.createOverflow = oldBuckets h := rfl

theorem newoverflow_extraStep_frame (t : Maptype) (h : Hmap) :
    (if t.bucketPtrdata then h.incrnoverflow
     else
      let h15 := h.incrnoverflow.createOverflow
      { h15 with extra := h15.extra.map (fun e => { e with overflow := e.overflow.map (· + 1) }) }).count = h.count := by
  split_ifs <;> simp

@[simp] theorem newoverflow_count (t : Maptype) (h : Hmap) (j c : Nat) :
    (newoverflow t h j c).count = h.count := by
  unfold newoverflow; split_ifs <;> simp

@[simp] theorem newoverflow_B (t : Maptype) (h : Hmap) (j c : Nat) :
    (newoverflow t h j c).B = h.B := by
  unfold newoverflow; split_ifs <;> simp

@[simp] theorem newoverflow_hash0 (t : Maptype) (h : Hmap) (j c : Nat) :
    (newoverflow t h j c).hash0 = h.hash0 := by
  unfold newoverflow; split_ifs <;> simp

@[simp] theorem newoverflow_flags (t : Maptype) (h : Hmap) (j c : Nat) :
    (newoverflow t h j c).flags = h.flags := by
  unfold newoverflow; split_ifs <;> simp

@[simp] theorem newoverflow_oldbuckets (t : Maptype) (h : Hmap) (j c : Nat) :
    (newoverflow t h j c).oldbuckets = h.oldbuckets := by
  unfold newoverflow; split_ifs <;> simp

@[simp] theorem newoverflow_nevacuate (t : Maptype) (h : Hmap) (j c : Nat) :
    (newoverflow t h j c).nevacuate = h.nevacuate := by
  unfold newoverflow; split_ifs <;> simp

theorem listModify_ne_nil {α : Type} (f : α → α) (n : Nat) {l : List α} (h : l ≠ []) :
    listModify f n l ≠ [] := by
  intro hc
  apply h
  have hl := listModify_length f n l
  rw [hc] at hl
  exact List.length_eq_zero.mp hl.symm

theorem newoverflow_curBuckets (t : Maptype) (h : Hmap) (j c : Nat) :
    curBuckets (newoverflow t h j c) =
      (curBuckets h).set j ((curChainAt h j).take (c + 1) ++ [emptyBmap]) := by
  unfold newoverflow
  split_ifs <;> rw [curBuckets_setCurChain] <;> simp [curChainAt_eq, curBuckets]

@[simp] theorem newoverflow_buckets_isSome (t : Maptype) (h : Hmap) (j c : Nat) :
    (newoverflow t h j c).buckets.isSome = h.buckets.isSome := by
  unfold newoverflow; split_ifs <;> simp

@[simp] theorem oldBuckets_newoverflow (t : Maptype) (h : Hmap) (j c : Nat) :
    oldBuckets (newoverflow t h j c) = oldBuckets h := by
  simp only [oldBuckets, newoverflow_oldbuckets]

theorem oldChainAt_newoverflow (t : Maptype) (h : Hmap) (j c o : Nat) :
    oldChainAt (newoverflow t h j c) o = oldChainAt h o := by
  simp only [oldChainAt_eq, oldBuckets_newoverflow]

theorem EvacFrame.refl (h : Hmap) : EvacFrame h h :=
  ⟨rfl, rfl, rfl, rfl, rfl, rfl, rfl, rfl, rfl, fun _ he => he, fun hh => hh, fun hh => hh⟩

theorem EvacFrame.trans {a b c : Hmap} (h1 : EvacFrame a b) (h2 : EvacFrame b c) :
    EvacFrame a c := by
  obtain ⟨a1, a2, a3, a4, a5, a6, a7, a8, a9, a10, a11, a12⟩ := h1
  obtain ⟨b1, b2, b3, b4, b5, b6, b7, b8, b9, b10, b11, b12⟩ := h2
  exact ⟨b1.trans a1, b2.trans a2, b3.trans a3, b4.trans a4, b5.trans a5, b6.trans a6,
    b7.trans a7, b8.trans a8, b9.trans a9,
    fun o he => b10 o (a10 o he), fun hh => b11 (a11 hh), fun hh => b12 (a12 hh)⟩

theorem evacFrame_setOldTop (h : Hmap) (ob ci i v : Nat) (hv2 : 2 ≤ v) (hv5 : v < 5) :
    EvacFrame h (setOldTop h ob ci i v) := by
  refine ⟨rfl, rfl, rfl, rfl, rfl, by simp [setOldTop], by simp [setOldTop], rfl, rfl,
    fun o2 he => evacuated_setOldTop h ob ci i v hv2 hv5 o2 he, ?_, fun hh => hh⟩
  intro hne ch hch
  rw [setOldTop] at hch
  rw [oldBuckets_setOldChain] at hch
  by_cases hlen : ob < (oldBuckets h).length
  · rcases List.mem_or_eq_of_mem_set hch with hin | heq
    · exact hne ch hin
    · subst heq
      exact listModify_ne_nil _ _ (hne _ (getD_mem (oldBuckets h) ([] : Chain) hlen))
  · rw [List.set_eq_of_length_le (by omega)] at hch
    exact hne ch hch

theorem evacFrame_modifyCurCell (h : Hmap) (j c : Nat) (f : Bmap → Bmap) :
    EvacFrame h (modifyCurCell h j c f) := by
  refine ⟨rfl, rfl, rfl, rfl, rfl, by simp [modifyCurCell], rfl, by simp [modifyCurCell], ?_,
    fun o2 he => he, fun hh => hh, ?_⟩
  · simp [modifyCurCell]
  · intro hne ch hch
    rw [modifyCurCell, curBuckets_setCurChain] at hch
    by_cases hlen : j < (curBuckets h).length
    · rcases List.mem_or_eq_of_mem_set hch with hin | heq
      · exact hne ch hin
      · subst heq
        exact listModify_ne_nil _ _ (hne _ (getD_mem (curBuckets h) ([] : Chain) hlen))
    · rw [List.set_eq_of_length_le (by omega)] at hch
      exact hne ch hch

theorem evacFrame_newoverflow (t : Maptype) (h : Hmap) (j c : Nat) :
    EvacFrame h (newoverflow t h j c) := by
  refine ⟨by simp, by simp, by simp, by simp, by simp, by simp, by simp, ?_, by simp,
    ?_, ?_, ?_⟩
  · rw [newoverflow_curBuckets]; simp
  · intro o2 he
    rw [oldChainAt_newoverflow]
    exact he
  · intro hne
    rw [oldBuckets_newoverflow]
    exact hne
  · intro hne ch hch
    rw [newoverflow_curBuckets] at hch
    by_cases hlen : j < (curBuckets h).length
    · rcases List.mem_or_eq_of_mem_set hch with hin | heq
      · exact hne ch hin
      · subst heq; simp
    · rw [List.set_eq_of_length_le (by omega)] at hch
      exact hne ch hch

theorem evacFrame_evacWriteDst (t : Maptype) (h : Hmap) (dst : EvacDst) (top2 k2 e2 : Nat) :
    EvacFrame h (evacWriteDst t h dst top2 k2 e2).1 := by
  unfold evacWriteDst
  split_ifs with hfull
  · exact (evacFrame_newoverflow t h dst.j dst.c).trans
      (evacFrame_modifyCurCell _ _ _ _)
  · exact evacFrame_modifyCurCell _ _ _ _

theorem evacUseY_le (t : Maptype) (h : Hmap) (k2 top newbit useY top2 : Nat)
    (hok : evacUseY t h k2 top newbit = .ok (useY, top2)) : useY ≤ 1 := by
  unfold evacUseY at hok
  by_cases hss : h.sameSizeGrow = true
  · rw [if_pos hss] at hok
    cases hok
    omega
  · rw [if_neg hss] at hok
    rcases hh : t.hasher k2 h.hash0 with _ | hv <;> rw [hh] at hok <;> dsimp only at hok
    · exact Except.noConfusion hok
    · by_cases hna : (h.flags.iterator && !t.reflexivekey && !t.keyEqual k2 k2) = true
      · rw [if_pos hna] at hok
        cases hok
        have h1 : top &&& 1 = top % 2 := by
          simpa using Nat.and_pow_two_sub_one_eq_mod top 1
        omega
      · rw [if_neg hna] at hok
        cases hok
        split <;> omega

theorem evacuateSlots_frame (t : Maptype) (ob nb ci : Nat) :
    ∀ (l : List Nat) (h : Hmap) (x y : EvacDst) (r : Hmap × EvacDst × EvacDst),
      evacuateSlots t ob nb ci h x y l = .ok r → EvacFrame h r.1 := by
  intro l
  induction l with
  | nil =>
    intro h x y r hok
    simp only [evacuateSlots] at hok
    cases hok
    exact EvacFrame.refl h
  | cons i rest ih =>
    intro h x y r hok
    simp only [evacuateSlots] at hok
    by_cases hemp : isEmpty ((cellAt (oldChainAt h ob) ci).tops i) = true
    · rw [if_pos hemp] at hok
      exact (evacFrame_setOldTop h ob ci i evacuatedEmpty (by decide) (by decide)).trans
        (ih _ _ _ _ hok)
    · rw [if_neg hemp] at hok
      by_cases hlt : (cellAt (oldChainAt h ob) ci).tops i < minTopHash
      · rw [if_pos hlt] at hok
        exact Except.noConfusion hok
      · rw [if_neg hlt] at hok
        rcases huy : evacUseY t h ((cellAt (oldChainAt h ob) ci).keys i)
            ((cellAt (oldChainAt h ob) ci).tops i) nb with e | p
        · rw [huy] at hok
          exact Except.noConfusion hok
        · rw [huy] at hok
          obtain ⟨useY, top2⟩ := p
          dsimp only at hok
          have huse := evacUseY_le t h _ _ _ _ _ huy
          rw [if_neg (by decide)] at hok
          have hfr : EvacFrame h (setOldTop h ob ci i (evacuatedX + useY)) :=
            evacFrame_setOldTop h ob ci i (evacuatedX + useY)
              (by simp only [evacuatedX]; omega) (by simp only [evacuatedX]; omega)
          by_cases hy : useY = 1
          · rw [if_pos hy] at hok
            exact (hfr.trans (evacFrame_evacWriteDst _ _ _ _ _ _)).trans (ih _ _ _ _ hok)
          · rw [if_neg hy] at hok
            exact (hfr.trans (evacFrame_evacWriteDst _ _ _ _ _ _)).trans (ih _ _ _ _ hok)

theorem evacuateCells_frame (t : Maptype) (ob nb : Nat) :
    ∀ (rem ci : Nat) (h : Hmap) (x y : EvacDst) (h2 : Hmap),
      evacuateCells t ob nb h x y ci rem = .ok h2 → EvacFrame h h2 := by
  intro rem
  induction rem with
  | zero =>
    intro ci h x y h2 hok
    simp only [evacuateCells] at hok
    cases hok
    exact EvacFrame.refl h
  | succ n ih =>
    intro ci h x y h2 hok
    simp only [evacuateCells] at hok
    rcases hs : evacuateSlots t ob nb ci h x y (List.range 8) with e | ⟨h3, x3, y3⟩ <;>
      rw [hs] at hok <;> dsimp only at hok
    · exact Except.noConfusion hok
    · exact (evacuateSlots_frame t ob nb ci _ h x y _ hs).trans (ih _ _ _ _ _ hok)

@[simp] theorem clearOldDataAt_count (h : Hmap) (j : Nat) :
    (clearOldDataAt h j).count = h.count := by
  unfold clearOldDataAt; split <;> rfl

@[simp] theorem clearOldDataAt_B (h : Hmap) (j : Nat) : (clearOldDataAt h j).B = h.B := by
  unfold clearOldDataAt; split <;> rfl

@[simp] theorem clearOldDataAt_hash0 (h : Hmap) (j : Nat) :
    (clearOldDataAt h j).hash0 = h.hash0 := by
  unfold clearOldDataAt; split <;> rfl

@[simp] theorem clearOldDataAt_flags (h : Hmap) (j : Nat) :
    (clearOldDataAt h j).flags = h.flags := by
  unfold clearOldDataAt; split <;> rfl

@[simp] theorem clearOldDataAt_buckets (h : Hmap) (j : Nat) :
    (clearOldDataAt h j).buckets = h.buckets := by
  unfold clearOldDataAt; split <;> rfl

@[simp] theorem clearOldDataAt_nevacuate (h : Hmap) (j : Nat) :
    (clearOldDataAt h j).nevacuate = h.nevacuate := by
  unfold clearOldDataAt; split <;> rfl

@[simp] theorem clearOldDataAt_extra (h : Hmap) (j : Nat) :
    (clearOldDataAt h j).extra = h.extra := by
  unfold clearOldDataAt; split <;> rfl

theorem evacFrame_clearOldDataAt (h : Hmap) (j : Nat) : EvacFrame h (clearOldDataAt h j) := by
  unfold clearOldDataAt
  rcases hch : oldChainAt h j with _ | ⟨c0, rest⟩
  · exact EvacFrame.refl h
  · refine ⟨rfl, rfl, rfl, rfl, rfl, by simp, by simp, rfl, rfl, ?_, ?_, fun hh => hh⟩
    · intro o2 he
      rw [oldChainAt_setOldChain]
      split
      · next hcase =>
        rw [hcase.1] at hch
        have hg : List.getD (oldBuckets h) o2 [] = c0 :: rest := hch
        have he2 : evacuated (c0 :: rest) = true := by
          rw [oldChainAt_eq] at he
          rw [hg] at he
          exact he
        simpa [evacuated] using he2
      · exact he
    · intro hne ch hch2
      rw [oldBuckets_setOldChain] at hch2
      rcases List.mem_or_eq_of_mem_set hch2 with hin | heq
      · exact hne ch hin
      · subst heq; simp

theorem advanceSkip_spec (t : Maptype) :
    ∀ (rem : Nat) (h : Hmap),
      (advanceSkip t h rem).count = h.count ∧
      (advanceSkip t h rem).B = h.B ∧
      (advanceSkip t h rem).hash0 = h.hash0 ∧
      (advanceSkip t h rem).flags = h.flags ∧
      (advanceSkip t h rem).buckets = h.buckets ∧
      (advanceSkip t h rem).oldbuckets = h.oldbuckets ∧
      (advanceSkip t h rem).extra = h.extra ∧
      h.nevacuate ≤ (advanceSkip t h rem).nevacuate ∧
      (advanceSkip t h rem).nevacuate ≤ h.nevacuate + rem := by
  intro rem
  induction rem with
  | zero =>
    intro h
    exact ⟨rfl, rfl, rfl, rfl, rfl, rfl, rfl, Nat.le_refl _, Nat.le_add_right _ _⟩
  | succ n ih =>
    intro h
    by_cases hb : bucketEvacuated t h h.nevacuate = true
    · have he : advanceSkip t h (n + 1) =
          advanceSkip t { h with nevacuate := h.nevacuate + 1 } n := by
        simp only [advanceSkip, if_pos hb]
      rw [he]
      obtain ⟨a1, a2, a3, a4, a5, a6, a7, a8, a9⟩ := ih { h with nevacuate := h.nevacuate + 1 }
      have a8x : h.nevacuate + 1 ≤
          (advanceSkip t { h with nevacuate := h.nevacuate + 1 } n).nevacuate := a8
      have a9x : (advanceSkip t { h with nevacuate := h.nevacuate + 1 } n).nevacuate ≤
          h.nevacuate + 1 + n := a9
      exact ⟨a1, a2, a3, a4, a5, a6, a7, by omega, by omega⟩
    · have he : advanceSkip t h (n + 1) = h := by
        simp only [advanceSkip, if_neg hb]
      rw [he]
      exact ⟨rfl, rfl, rfl, rfl, rfl, rfl, rfl, Nat.le_refl _, Nat.le_add_right _ _⟩

theorem advanceEvacuationMark_eq (h : Hmap) (t : Maptype) (newbit : Nat) (hs : Hmap)
    (hdef : hs = advanceSkip t { h with nevacuate := h.nevacuate + 1 }
      (min (h.nevacuate + 1 + 1024) newbit - (h.nevacuate + 1))) :
    advanceEvacuationMark h t newbit =
      if hs.nevacuate = newbit
      then { hs with oldbuckets := none,
                     extra := hs.extra.map (fun e => { e with oldoverflow := none }),
                     flags := hs.flags.clearSameSize }
      else hs := by
  subst hdef
  rfl

theorem advanceEvacuationMark_spec (h : Hmap) (t : Maptype) (newbit : Nat) :
    (advanceEvacuationMark h t newbit).count = h.count ∧
    (advanceEvacuationMark h t newbit).B = h.B ∧
    (advanceEvacuationMark h t newbit).hash0 = h.hash0 ∧
    (advanceEvacuationMark h t newbit).buckets = h.buckets ∧
    (advanceEvacuationMark h t newbit).flags.hashWriting = h.flags.hashWriting ∧
    (advanceEvacuationMark h t newbit).flags.iterator = h.flags.iterator ∧
    (advanceEvacuationMark h t newbit).flags.oldIterator = h.flags.oldIterator ∧
    h.nevacuate < (advanceEvacuationMark h t newbit).nevacuate ∧
    (h.nevacuate < newbit → (advanceEvacuationMark h t newbit).nevacuate ≤ newbit) ∧
    ((advanceEvacuationMark h t newbit).nevacuate = newbit →
      (advanceEvacuationMark h t newbit).oldbuckets = none ∧
      (advanceEvacuationMark h t newbit).flags.sameSizeGrow = false ∧
      ((advanceEvacuationMark h t newbit).extra = none ∨
        ∃ e, (advanceEvacuationMark h t newbit).extra = some e ∧ e.oldoverflow = none)) ∧
    ((advanceEvacuationMark h t newbit).nevacuate ≠ newbit →
      (advanceEvacuationMark h t newbit).oldbuckets = h.oldbuckets ∧
      (advanceEvacuationMark h t newbit).flags = h.flags ∧
      (advanceEvacuationMark h t newbit).extra = h.extra) := by
  rw [advanceEvacuationMark_eq h t newbit _ rfl]
  obtain ⟨a1, a2, a3, a4, a5, a6, a7, a8, a9⟩ :=
    advanceSkip_spec t (min (h.nevacuate + 1 + 1024) newbit - (h.nevacuate + 1))
      { h with nevacuate := h.nevacuate + 1 }
  generalize hgen : advanceSkip t { h with nevacuate := h.nevacuate + 1 }
      (min (h.nevacuate + 1 + 1024) newbit - (h.nevacuate + 1)) = hs
      at a1 a2 a3 a4 a5 a6 a7 a8 a9 ⊢
  have a8x : h.nevacuate + 1 ≤ hs.nevacuate := a8
  have a9x : hs.nevacuate ≤
      h.nevacuate + 1 + (min (h.nevacuate + 1 + 1024) newbit - (h.nevacuate + 1)) := a9
  have a4x : hs.flags = h.flags := a4
  by_cases hfin : hs.nevacuate = newbit
  · rw [if_pos hfin]
    refine ⟨a1, a2, a3, a5, ?_, ?_, ?_, ?_, ?_, ?_, ?_⟩
    · show hs.flags.clearSameSize.hashWriting = h.flags.hashWriting
      rw [a4x]
      rfl
    · show hs.flags.clearSameSize.iterator = h.flags.iterator
      rw [a4x]
      rfl
    · show hs.flags.clearSameSize.oldIterator = h.flags.oldIterator
      rw [a4x]
      rfl
    · show h.nevacuate < hs.nevacuate
      omega
    · intro _
      show hs.nevacuate ≤ newbit
      omega
    · intro _
      refine ⟨rfl, rfl, ?_⟩
      rcases hex : hs.extra with _ | e
      · exact Or.inl rfl
      · exact Or.inr ⟨{ e with oldoverflow := none }, rfl, rfl⟩
    · intro hne
      exact absurd hfin hne
  · rw [if_neg hfin]
    refine ⟨a1, a2, a3, a5, congrArg Flags.hashWriting a4x, congrArg Flags.iterator a4x,
      congrArg Flags.oldIterator a4x, by omega, ?_, ?_, ?_⟩
    · intro hlt
      omega
    · intro heq
      exact absurd heq hfin
    · intro _
      exact ⟨a6, a4x, a7⟩

theorem evacuate_eq (t : Maptype) (h : Hmap) (o : Nat) :
    evacuate t h o =
      match (if evacuated (oldChainAt h o) then Except.ok h
             else
               match evacuateCells t o h.noldbuckets h ⟨o, 0, 0⟩ ⟨o + h.noldbuckets, 0, 0⟩ 0
                   (oldChainAt h o).length with
               | .error e => .error e
               | .ok hw =>
                 .ok (if !hw.flags.oldIterator && t.bucketPtrdata then clearOldDataAt hw o
                      else hw)) with
      | .error e => .error e
      | .ok hm =>
        .ok (if o = hm.nevacuate then advanceEvacuationMark hm t h.noldbuckets else hm) := rfl

theorem evacSpec_of_frame (t : Maptype) (h hm : Hmap) (o : Nat) (hfr : EvacFrame h hm)
    (hng : h.growing = false → hm = h) :
    EvacSpec h o (if o = hm.nevacuate then advanceEvacuationMark hm t h.noldbuckets else hm) := by
  obtain ⟨f1, f2, f3, f4, f5, f6, f7, f8, f9, f10, f11, f12⟩ := hfr
  have hgrow : hm.growing = h.growing := f6
  by_cases ho : o = hm.nevacuate
  · rw [if_pos ho]
    obtain ⟨m1, m2, m3, m4, m5, m6, m7, m8, m9, m10, m11⟩ :=
      advanceEvacuationMark_spec hm t h.noldbuckets
    have m8x : h.nevacuate < (advanceEvacuationMark hm t h.noldbuckets).nevacuate := by
      rw [← f5]
      exact m8
    have hcur : curBuckets (advanceEvacuationMark hm t h.noldbuckets) = curBuckets hm := by
      unfold curBuckets
      rw [m4]
    refine ⟨m1.trans f1, m2.trans f2, m3.trans f3,
      m5.trans (congrArg Flags.hashWriting f4),
      m6.trans (congrArg Flags.iterator f4),
      m7.trans (congrArg Flags.oldIterator f4),
      by rw [hcur]; exact f8,
      by rw [m4]; exact f9,
      ?_, Nat.le_of_lt m8x, ?_, fun _ => m8x, ?_, ?_, ?_, ?_, ?_, ?_, fun _ _ => m8x⟩
    · intro hne ch hmem
      rw [hcur] at hmem
      exact f12 hne ch hmem
    · intro hne
      exact absurd (ho.trans f5) hne
    · intro hlt
      apply m9
      rw [f5]
      exact hlt
    · intro hg2
      by_cases hfin : (advanceEvacuationMark hm t h.noldbuckets).nevacuate = h.noldbuckets
      · have r1 := (m10 hfin).1
        have hg2x : (advanceEvacuationMark hm t h.noldbuckets).oldbuckets.isSome = true := hg2
        rw [r1] at hg2x
        exact Bool.noConfusion hg2x
      · obtain ⟨n1, n2, n3⟩ := m11 hfin
        have hold : oldBuckets (advanceEvacuationMark hm t h.noldbuckets) = oldBuckets hm := by
          unfold oldBuckets
          rw [n1]
        refine ⟨?_, n2.trans f4, by rw [hold]; exact f7, ?_, ?_⟩
        · have hg2x : (advanceEvacuationMark hm t h.noldbuckets).oldbuckets.isSome = true := hg2
          rw [n1, f6] at hg2x
          exact hg2x
        · intro hne ch hmem
          rw [hold] at hmem
          exact f11 hne ch hmem
        · intro o2 he
          have hoc : oldChainAt (advanceEvacuationMark hm t h.noldbuckets) o2
              = oldChainAt hm o2 := by
            unfold oldChainAt
            rw [hold]
          rw [hoc]
          exact f10 o2 he
    · intro hgf
      have hmh := hng hgf
      have hobn : hm.oldbuckets = none := by
        have hgf2 : h.oldbuckets.isSome = false := hgf
        have hobh : h.oldbuckets = none := by
          rcases hob2 : h.oldbuckets with _ | v
          · rfl
          · rw [hob2] at hgf2
            exact Bool.noConfusion hgf2
        rw [hmh, hobh]
      refine ⟨m4.trans (by rw [hmh]), ?_⟩
      by_cases hfin : (advanceEvacuationMark hm t h.noldbuckets).nevacuate = h.noldbuckets
      · have r1 := (m10 hfin).1
        show (advanceEvacuationMark hm t h.noldbuckets).oldbuckets.isSome = false
        rw [r1]
        rfl
      · have n1 := (m11 hfin).1
        show (advanceEvacuationMark hm t h.noldbuckets).oldbuckets.isSome = false
        rw [n1, hobn]
        rfl
    · intro hgt hlt
      by_cases hfin : (advanceEvacuationMark hm t h.noldbuckets).nevacuate = h.noldbuckets
      · refine ⟨fun _ => hfin, fun _ => ?_⟩
        have r1 := (m10 hfin).1
        show (advanceEvacuationMark hm t h.noldbuckets).oldbuckets.isSome = false
        rw [r1]
        rfl
      · refine ⟨fun hgf2 => ?_, fun heq => absurd heq hfin⟩
        exfalso
        have n1 := (m11 hfin).1
        have hgf2x : (advanceEvacuationMark hm t h.noldbuckets).oldbuckets.isSome = false := hgf2
        rw [n1, f6] at hgf2x
        have hgtx : h.oldbuckets.isSome = true := hgt
        rw [hgtx] at hgf2x
        exact Bool.noConfusion hgf2x
    · intro hgt hgf2
      by_cases hfin : (advanceEvacuationMark hm t h.noldbuckets).nevacuate = h.noldbuckets
      · exact (m10 hfin).2.2
      · exfalso
        have n1 := (m11 hfin).1
        have hgf2x : (advanceEvacuationMark hm t h.noldbuckets).oldbuckets.isSome = false := hgf2
        rw [n1, f6] at hgf2x
        have hgtx : h.oldbuckets.isSome = true := hgt
        rw [hgtx] at hgf2x
        exact Bool.noConfusion hgf2x
    · intro hgf2
      by_cases hfin : (advanceEvacuationMark hm t h.noldbuckets).nevacuate = h.noldbuckets
      · exact Or.inl (m10 hfin).2.1
      · obtain ⟨n1, n2, n3⟩ := m11 hfin
        have hgf2x : (advanceEvacuationMark hm t h.noldbuckets).oldbuckets.isSome = false := hgf2
        rw [n1, f6] at hgf2x
        exact Or.inr ⟨n2.trans f4, hgf2x⟩
  · rw [if_neg ho]
    refine ⟨f1, f2, f3, congrArg Flags.hashWriting f4, congrArg Flags.iterator f4,
      congrArg Flags.oldIterator f4, f8, f9, f12, Nat.le_of_eq f5.symm, fun _ => f5,
      ?_, ?_, ?_, ?_, ?_, ?_, ?_, ?_⟩
    · intro hoeq
      exact absurd (hoeq.trans f5.symm) ho
    · intro hlt
      rw [f5]
      exact Nat.le_of_lt hlt
    · intro hg2
      refine ⟨?_, f4, f7, f11, f10⟩
      rw [← hgrow]
      exact hg2
    · intro hgf
      have hmh := hng hgf
      rw [hmh]
      exact ⟨rfl, hgf⟩
    · intro hgt hlt
      refine ⟨fun hgf2 => ?_, fun heq => ?_⟩
      · exfalso
        rw [hgrow, hgt] at hgf2
        exact Bool.noConfusion hgf2
      · exfalso
        rw [f5] at heq
        omega
    · intro hgt hgf2
      exfalso
      rw [hgrow, hgt] at hgf2
      exact Bool.noConfusion hgf2
    · intro hgf2
      refine Or.inr ⟨f4, ?_⟩
      rw [← hgrow]
      exact hgf2
    · intro hgt hgf2
      exfalso
      rw [hgrow, hgt] at hgf2
      exact Bool.noConfusion hgf2

theorem evacuate_spec (t : Maptype) (h : Hmap) (o : Nat) (h2 : Hmap)
    (hok : evacuate t h o = .ok h2) : EvacSpec h o h2 := by
  rw [evacuate_eq] at hok
  by_cases hev : evacuated (oldChainAt h o) = true
  · rw [if_pos hev] at hok
    dsimp only at hok
    have hh2 : h2 = if o = h.nevacuate then advanceEvacuationMark h t h.noldbuckets else h :=
      (Except.ok.inj hok).symm
    rw [hh2]
    exact evacSpec_of_frame t h h o (EvacFrame.refl h) (fun _ => rfl)
  · rw [if_neg hev] at hok
    rcases hc : evacuateCells t o h.noldbuckets h ⟨o, 0, 0⟩ ⟨o + h.noldbuckets, 0, 0⟩ 0
        (oldChainAt h o).length with e | hw
    · rw [hc] at hok
      exact Except.noConfusion hok
    · rw [hc] at hok
      dsimp only at hok
      have hfr : EvacFrame h hw :=
        evacuateCells_frame t o h.noldbuckets (oldChainAt h o).length 0 h
          ⟨o, 0, 0⟩ ⟨o + h.noldbuckets, 0, 0⟩ hw hc
      have hkey : h.growing = false → hw = h ∧ oldChainAt h o = [] := by
        intro hgf
        have hgf2 : h.oldbuckets.isSome = false := hgf
        have hobn : h.oldbuckets = none := by
          rcases hob2 : h.oldbuckets with _ | v
          · rfl
          · rw [hob2] at hgf2
            exact Bool.noConfusion hgf2
        have hchain : oldChainAt h o = [] := by
          unfold oldChainAt oldBuckets
          rw [hobn]
          rfl
        rw [hchain] at hc
        simp only [List.length_nil, evacuateCells] at hc
        exact ⟨(Except.ok.inj hc).symm, hchain⟩
      by_cases hmc : (!hw.flags.oldIterator && t.bucketPtrdata) = true
      · rw [if_pos hmc] at hok
        have hh2 : h2 = if o = (clearOldDataAt hw o).nevacuate
            then advanceEvacuationMark (clearOldDataAt hw o) t h.noldbuckets
            else clearOldDataAt hw o := (Except.ok.inj hok).symm
        rw [hh2]
        refine evacSpec_of_frame t h (clearOldDataAt hw o) o
          (hfr.trans (evacFrame_clearOldDataAt hw o)) ?_
        intro hgf
        obtain ⟨hwh, hchain⟩ := hkey hgf
        rw [hwh]
        unfold clearOldDataAt
        rw [hchain]
      · rw [if_neg hmc] at hok
        have hh2 : h2 = if o = hw.nevacuate
            then advanceEvacuationMark hw t h.noldbuckets else hw :=
          (Except.ok.inj hok).symm
        rw [hh2]
        refine evacSpec_of_frame t h hw o hfr ?_
        intro hgf
        exact (hkey hgf).1

theorem noldbuckets_congr (a b : Hmap) (hB : a.B = b.B) (hf : a.flags = b.flags) :
    a.noldbuckets = b.noldbuckets := by
  unfold Hmap.noldbuckets Hmap.sameSizeGrow
  rw [hB, hf]

theorem growing_false_oldbuckets_none (a : Hmap) (hg : a.growing = false) :
    a.oldbuckets = none := by
  have hg2 : a.oldbuckets.isSome = false := hg
  rcases hob : a.oldbuckets with _ | v
  · rfl
  · rw [hob] at hg2
    exact Bool.noConfusion hg2

theorem growWork_spec (t : Maptype) (h : Hmap) (bucket : Nat) (h2 : Hmap)
    (hok : growWork t h bucket = .ok h2) :
    h.nevacuate ≤ h2.nevacuate ∧
    (h.growing = true → h.nevacuate < h2.nevacuate) ∧
    (h.nevacuate < h.noldbuckets → h2.nevacuate ≤ h.noldbuckets) ∧
    (h.growing = true → h.nevacuate < h.noldbuckets →
      (h2.growing = false ↔ h2.nevacuate = h.noldbuckets)) ∧
    (h2.growing = false → h2.oldbuckets = none) ∧
    (h.growing = true → h2.growing = false →
      (h2.extra = none ∨ ∃ e, h2.extra = some e ∧ e.oldoverflow = none)) ∧
    h2.count = h.count ∧ h2.B = h.B ∧ h2.hash0 = h.hash0 ∧
    h2.flags.hashWriting = h.flags.hashWriting ∧
    (h.growing = false → h2.buckets = h.buckets ∧ h2.growing = false) := by
  unfold growWork at hok
  rcases hc1 : evacuate t h (bucket &&& h.oldbucketmask) with e | hm
  · rw [hc1] at hok
    exact Except.noConfusion hok
  · rw [hc1] at hok
    dsimp only at hok
    obtain ⟨e1, e2, e3, e4, e5, e6, e7, e8, e9, e10, e11, e12, e13, e14, e15, e16, e17, e18,
      e19⟩ := evacuate_spec t h (bucket &&& h.oldbucketmask) hm hc1
    by_cases hgm : hm.growing = true
    · rw [if_pos hgm] at hok
      obtain ⟨g1, g2, g3, g4, g5, g6, g7, g8, g9, g10, g11, g12, g13, g14, g15, g16, g17, g18,
        g19⟩ := evacuate_spec t hm hm.nevacuate h2 hok
      obtain ⟨w1, w2, w3, w4, w5⟩ := e14 hgm
      have hnold : hm.noldbuckets = h.noldbuckets := noldbuckets_congr hm h e2 w2
      have hstrict : h.nevacuate < h2.nevacuate :=
        Nat.lt_of_le_of_lt e10 (g12 rfl)
      refine ⟨Nat.le_trans e10 g10, fun _ => hstrict, ?_, ?_,
        fun hgf => growing_false_oldbuckets_none h2 hgf,
        fun _ hgf => g17 hgm hgf, g1.trans e1, g2.trans e2, g3.trans e3, g4.trans e4, ?_⟩
      · intro hlt
        have hne : hm.nevacuate ≠ h.noldbuckets := by
          intro heq
          rw [(e16 w1 hlt).mpr heq] at hgm
          exact Bool.noConfusion hgm
        have hmlt : hm.nevacuate < h.noldbuckets := Nat.lt_of_le_of_ne (e13 hlt) hne
        have hb := g13 (by rw [hnold]; exact hmlt)
        rw [hnold] at hb
        exact hb
      · intro hgt hlt
        have hne : hm.nevacuate ≠ h.noldbuckets := by
          intro heq
          rw [(e16 w1 hlt).mpr heq] at hgm
          exact Bool.noConfusion hgm
        have hmlt : hm.nevacuate < h.noldbuckets := Nat.lt_of_le_of_ne (e13 hlt) hne
        have hi := g16 hgm (by rw [hnold]; exact hmlt)
        rw [hnold] at hi
        exact hi
      · intro hgf
        rw [w1] at hgf
        exact Bool.noConfusion hgf
    · rw [if_neg hgm] at hok
      have hmh2 : hm = h2 := Except.ok.inj hok
      subst hmh2
      have hgmf : hm.growing = false := by simpa using hgm
      exact ⟨e10, fun hgt => e19 hgt hgmf, e13, e16,
        fun hgf => growing_false_oldbuckets_none hm hgf,
        fun hgt hgf => e17 hgt hgf, e1, e2, e3, e4, fun hgf => e15 hgf⟩

@[simp] theorem mapdeleteAt_nevacuate (t : Maptype) (h : Hmap) (bucket c i : Nat) :
    (mapdeleteAt t h bucket c i).nevacuate = h.nevacuate := by
  simp only [mapdeleteAt]
  repeat' split
  all_goals rfl

theorem mapdelete_strict_advance (t : Maptype) (h : Hmap) (key : Nat) (h2 : Hmap)
    (hg : h.growing = true) (hc : ¬h.count = 0)
    (hok : mapdelete t (some h) key = .ok (some h2)) :
    h.nevacuate < h2.nevacuate := by
  have hg1 : ({ h with flags := h.flags.xorWriting } : Hmap).growing = true := hg
  simp only [mapdelete] at hok
  rw [if_neg hc] at hok
  split at hok
  · exact Except.noConfusion hok
  split at hok
  · exact Except.noConfusion hok
  split at hok
  · exact Except.noConfusion hok
  next h3 hgw =>
    obtain ⟨_, a2, _, _, _, _, _, _, _, _, _⟩ :=
      growWork_spec t { h with flags := h.flags.xorWriting } _ h3 hgw
    have hstrict : h.nevacuate < h3.nevacuate := a2 hg1
    split at hok
    · exact Except.noConfusion hok
    · split at hok
      · rw [← Option.some.inj (Except.ok.inj hok)]
        dsimp only
        exact hstrict
      · rw [← Option.some.inj (Except.ok.inj hok)]
        dsimp only
        rw [mapdeleteAt_nevacuate]
        exact hstrict

theorem listModify_listModify {α : Type} (f g : α → α) :
    ∀ (c : Nat) (l : List α),
      listModify f c (listModify g c l) = listModify (fun x => f (g x)) c l := by
  intro c l
  induction l generalizing c with
  | nil => simp
  | cons a as ih =>
    cases c with
    | zero => rfl
    | succ c2 =>
      show a :: listModify f c2 (listModify g c2 as) = a :: listModify _ c2 as
      rw [ih c2]

theorem mapassignSlots_next_findSlot (t : Maptype) (top key : Nat) (cell : Bmap) :
    ∀ (l : List Nat) (ins ins2 : Option Nat),
      mapassignSlots t top key cell ins l = .cnext ins2 →
      findSlot t top key cell l = .fnext := by
  intro l
  induction l with
  | nil =>
    intro ins ins2 _
    rfl
  | cons j rest ih =>
    intro ins ins2 hs
    unfold mapassignSlots at hs
    unfold findSlot
    by_cases hj : cell.tops j ≠ top
    · rw [if_pos hj] at hs
      rw [if_pos hj]
      by_cases hr : cell.tops j = emptyRest
      · rw [if_pos hr] at hs
        exact CellScan.noConfusion hs
      · rw [if_neg hr] at hs
        rw [if_neg hr]
        exact ih _ _ hs
    · rw [if_neg hj] at hs
      rw [if_neg hj]
      by_cases hk : t.keyEqual key (cell.keys j) = true
      · rw [if_pos hk] at hs
        exact CellScan.noConfusion hs
      · rw [if_neg hk] at hs
        rw [if_neg hk]
        exact ih _ _ hs

theorem mapassignSlots_found_facts (t : Maptype) (top key : Nat) (cell : Bmap) :
    ∀ (l : List Nat) (ins : Option Nat) (i : Nat),
      mapassignSlots t top key cell ins l = .cfound i →
      cell.tops i = top ∧ t.keyEqual key (cell.keys i) = true := by
  intro l
  induction l with
  | nil =>
    intro ins i hs
    exact CellScan.noConfusion hs
  | cons j rest ih =>
    intro ins i hs
    unfold mapassignSlots at hs
    by_cases hj : cell.tops j ≠ top
    · rw [if_pos hj] at hs
      by_cases hr : cell.tops j = emptyRest
      · rw [if_pos hr] at hs
        exact CellScan.noConfusion hs
      · rw [if_neg hr] at hs
        exact ih _ _ hs
    · rw [if_neg hj] at hs
      by_cases hk : t.keyEqual key (cell.keys j) = true
      · rw [if_pos hk] at hs
        have hij : j = i := CellScan.cfound.inj hs
        subst hij
        exact ⟨by omega, hk⟩
      · rw [if_neg hk] at hs
        exact ih _ _ hs

theorem mapassignSlots_stop_isSome (t : Maptype) (top key : Nat) (cell : Bmap) :
    ∀ (l : List Nat) (ins s : Option Nat),
      mapassignSlots t top key cell ins l = .cstop s →
      s.isSome = true := by
  intro l
  induction l with
  | nil =>
    intro ins s hs
    exact CellScan.noConfusion hs
  | cons j rest ih =>
    intro ins s hs
    unfold mapassignSlots at hs
    by_cases hj : cell.tops j ≠ top
    · rw [if_pos hj] at hs
      by_cases hr : cell.tops j = emptyRest
      · rw [if_pos hr] at hs
        have hse := CellScan.cstop.inj hs
        rw [← hse]
        have hie : isEmpty (cell.tops j) = true := by
          rw [hr]
          rfl
        rw [hie]
        cases hin : ins with
        | none => rfl
        | some v => rfl
      · rw [if_neg hr] at hs
        exact ih _ _ hs
    · rw [if_neg hj] at hs
      by_cases hk : t.keyEqual key (cell.keys j) = true
      · rw [if_pos hk] at hs
        exact CellScan.noConfusion hs
      · rw [if_neg hk] at hs
        exact ih _ _ hs

theorem mapassignSlots_ins_stable (t : Maptype) (top key : Nat) (cell : Bmap) :
    ∀ (l : List Nat) (v : Nat) (s : Option Nat),
      (mapassignSlots t top key cell (some v) l = .cstop s ∨
       mapassignSlots t top key cell (some v) l = .cnext s) →
      s = some v := by
  intro l
  induction l with
  | nil =>
    intro v s hs
    rcases hs with hs | hs
    · exact CellScan.noConfusion hs
    · exact (CellScan.cnext.inj hs).symm
  | cons j rest ih =>
    intro v s hs
    have hins2 : (if isEmpty (cell.tops j) && (some v : Option Nat).isNone
        then some j else some v) = some v := by
      simp
    unfold mapassignSlots at hs
    rw [hins2] at hs
    by_cases hj : cell.tops j ≠ top
    · rw [if_pos hj] at hs
      by_cases hr : cell.tops j = emptyRest
      · rw [if_pos hr] at hs
        rcases hs with hs | hs
        · exact (CellScan.cstop.inj hs).symm
        · exact CellScan.noConfusion hs
      · rw [if_neg hr] at hs
        exact ih _ _ hs
    · rw [if_neg hj] at hs
      by_cases hk : t.keyEqual key (cell.keys j) = true
      · rw [if_pos hk] at hs
        rcases hs with hs | hs
        · exact CellScan.noConfusion hs
        · exact CellScan.noConfusion hs
      · rw [if_neg hk] at hs
        exact ih _ _ hs

theorem mapassignSlots_ins_isEmpty (t : Maptype) (top key : Nat) (cell : Bmap) :
    ∀ (l : List Nat) (i : Nat),
      (mapassignSlots t top key cell none l = .cstop (some i) ∨
       mapassignSlots t top key cell none l = .cnext (some i)) →
      isEmpty (cell.tops i) = true := by
  intro l
  induction l with
  | nil =>
    intro i hs
    rcases hs with hs | hs
    · exact CellScan.noConfusion hs
    · exact Option.noConfusion (CellScan.cnext.inj hs)
  | cons j rest ih =>
    intro i hs
    unfold mapassignSlots at hs
    by_cases hie : isEmpty (cell.tops j) = true
    · have hins2 : (if isEmpty (cell.tops j) && (none : Option Nat).isNone
          then some j else none) = some j := by
        rw [hie]
        rfl
      rw [hins2] at hs
      by_cases hj : cell.tops j ≠ top
      · rw [if_pos hj] at hs
        by_cases hr : cell.tops j = emptyRest
        · rw [if_pos hr] at hs
          rcases hs with hs | hs
          · have := CellScan.cstop.inj hs
            have hji : j = i := Option.some.inj this
            rw [← hji]
            exact hie
          · exact CellScan.noConfusion hs
        · rw [if_neg hr] at hs
          have := mapassignSlots_ins_stable t top key cell rest j _ hs
          have hji : j = i := Option.some.inj this.symm
          rw [← hji]
          exact hie
      · rw [if_neg hj] at hs
        by_cases hk : t.keyEqual key (cell.keys j) = true
        · rw [if_pos hk] at hs
          rcases hs with hs | hs
          · exact CellScan.noConfusion hs
          · exact CellScan.noConfusion hs
        · rw [if_neg hk] at hs
          exact ih _ hs
    · have hins2 : (if isEmpty (cell.tops j) && (none : Option Nat).isNone
          then some j else none) = none := by
        have : isEmpty (cell.tops j) = false := by
          cases hx : isEmpty (cell.tops j)
          · rfl
          · exact absurd hx hie
        rw [this]
        rfl
      rw [hins2] at hs
      by_cases hj : cell.tops j ≠ top
      · rw [if_pos hj] at hs
        by_cases hr : cell.tops j = emptyRest
        · exfalso
          apply hie
          rw [hr]
          rfl
        · rw [if_neg hr] at hs
          exact ih _ hs
      · rw [if_neg hj] at hs
        by_cases hk : t.keyEqual key (cell.keys j) = true
        · rw [if_pos hk] at hs
          rcases hs with hs | hs
          · exact CellScan.noConfusion hs
          · exact CellScan.noConfusion hs
        · rw [if_neg hk] at hs
          exact ih _ hs

theorem findSlot_found_after_update (t : Maptype) (top key val : Nat) (cell : Bmap)
    (hrefl : t.keyEqual key key = true) (doKey : Bool) :
    ∀ (l : List Nat) (ins : Option Nat) (i : Nat),
      mapassignSlots t top key cell ins l = .cfound i →
      findSlot t top key ((if doKey then cell.setKey i key else cell).setElem i val) l
        = .ffound i := by
  intro l
  induction l with
  | nil =>
    intro ins i hs
    exact CellScan.noConfusion hs
  | cons j rest ih =>
    intro ins i hs
    obtain ⟨hti, hki⟩ := mapassignSlots_found_facts t top key cell (j :: rest) ins i hs
    have htops : ∀ m, ((if doKey then cell.setKey i key else cell).setElem i val).tops m
        = cell.tops m := by
      intro m
      cases doKey <;> simp
    have hkeys : ∀ m, m ≠ i →
        ((if doKey then cell.setKey i key else cell).setElem i val).keys m = cell.keys m := by
      intro m hm
      cases doKey <;> simp [hm]
    have hkeyi : t.keyEqual key
        (((if doKey then cell.setKey i key else cell).setElem i val).keys i) = true := by
      cases doKey <;> simp [hrefl, hki]
    unfold mapassignSlots at hs
    unfold findSlot
    by_cases hj : cell.tops j ≠ top
    · rw [if_pos hj] at hs
      by_cases hr : cell.tops j = emptyRest
      · rw [if_pos hr] at hs
        exact CellScan.noConfusion hs
      · rw [if_neg hr] at hs
        rw [if_pos (by rw [htops j]; exact hj)]
        rw [if_neg (by rw [htops j]; exact hr)]
        exact ih _ _ hs
    · rw [if_neg hj] at hs
      by_cases hk : t.keyEqual key (cell.keys j) = true
      · rw [if_pos hk] at hs
        have hji : j = i := CellScan.cfound.inj hs
        subst hji
        rw [if_neg (by rw [htops j]; exact hj)]
        rw [if_pos hkeyi]
      · rw [if_neg hk] at hs
        have hij : j ≠ i := by
          intro he
          rw [he] at hk
          exact hk hki
        rw [if_neg (by rw [htops j]; exact hj)]
        rw [if_neg (by rw [hkeys j hij]; exact hk)]
        exact ih _ _ hs

theorem findSlot_found_after_insert (t : Maptype) (top key val : Nat) (cell : Bmap)
    (hrefl : t.keyEqual key key = true) (htop : minTopHash ≤ top) :
    ∀ (l : List Nat) (i : Nat),
      (mapassignSlots t top key cell none l = .cstop (some i) ∨
       mapassignSlots t top key cell none l = .cnext (some i)) →
      findSlot t top key (((cell.setKey i key).setTop i top).setElem i val) l
        = .ffound i := by
  intro l
  induction l with
  | nil =>
    intro i hs
    rcases hs with hs | hs
    · exact CellScan.noConfusion hs
    · exact Option.noConfusion (CellScan.cnext.inj hs)
  | cons j rest ih =>
    intro i hs
    have hse : isEmpty (cell.tops i) = true := mapassignSlots_ins_isEmpty t top key cell _ i hs
    have htopsi : (((cell.setKey i key).setTop i top).setElem i val).tops i = top := by
      simp
    have htopsm : ∀ m, m ≠ i →
        (((cell.setKey i key).setTop i top).setElem i val).tops m = cell.tops m := by
      intro m hm
      simp [hm]
    have hkeyi : t.keyEqual key ((((cell.setKey i key).setTop i top).setElem i val).keys i)
        = true := by
      simpa using hrefl
    have hkeysm : ∀ m, m ≠ i →
        (((cell.setKey i key).setTop i top).setElem i val).keys m = cell.keys m := by
      intro m hm
      simp [hm]
    unfold mapassignSlots at hs
    unfold findSlot
    by_cases hie : isEmpty (cell.tops j) = true
    · have hins2 : (if isEmpty (cell.tops j) && (none : Option Nat).isNone
          then some j else none) = some j := by
        rw [hie]
        rfl
      rw [hins2] at hs
      by_cases hj : cell.tops j ≠ top
      · rw [if_pos hj] at hs
        by_cases hr : cell.tops j = emptyRest
        · rw [if_pos hr] at hs
          have hji : j = i := by
            rcases hs with hs | hs
            · exact Option.some.inj (CellScan.cstop.inj hs)
            · exact CellScan.noConfusion hs
          subst hji
          rw [if_neg (by rw [htopsi]; omega)]
          rw [if_pos hkeyi]
        · rw [if_neg hr] at hs
          have hji : j = i := by
            have := mapassignSlots_ins_stable t top key cell rest j _ hs
            exact Option.some.inj this.symm
          subst hji
          rw [if_neg (by rw [htopsi]; omega)]
          rw [if_pos hkeyi]
      · rw [if_neg hj] at hs
        exfalso
        have htj : cell.tops j = top := by omega
        have : isEmpty top = true := by
          rw [← htj]
          exact hie
        unfold isEmpty at this
        have h5 : minTopHash = 5 := rfl
        have h1 : emptyOne = 1 := rfl
        simp at this
        omega
    · have hins2 : (if isEmpty (cell.tops j) && (none : Option Nat).isNone
          then some j else none) = none := by
        have hx : isEmpty (cell.tops j) = false := by
          cases hy : isEmpty (cell.tops j)
          · rfl
          · exact absurd hy hie
        rw [hx]
        rfl
      rw [hins2] at hs
      have hji : j ≠ i := by
        intro he
        rw [he] at hie
        exact hie hse
      by_cases hj : cell.tops j ≠ top
      · rw [if_pos hj] at hs
        by_cases hr : cell.tops j = emptyRest
        · exfalso
          apply hie
          rw [hr]
          rfl
        · rw [if_neg hr] at hs
          rw [if_pos (by rw [htopsm j hji]; exact hj)]
          rw [if_neg (by rw [htopsm j hji]; exact hr)]
          exact ih _ hs
      · rw [if_neg hj] at hs
        by_cases hk : t.keyEqual key (cell.keys j) = true
        · rw [if_pos hk] at hs
          rcases hs with hs | hs
          · exact CellScan.noConfusion hs
          · exact CellScan.noConfusion hs
        · rw [if_neg hk] at hs
          rw [if_neg (by rw [htopsm j hji]; exact hj)]
          rw [if_neg (by rw [hkeysm j hji]; exact hk)]
          exact ih _ hs

theorem mapassignScan_found_lt (t : Maptype) (top key : Nat) :
    ∀ (b : Chain) (c i : Nat),
      mapassignScan t top key b = .found c i → c < b.length := by
  intro b
  induction b with
  | nil =>
    intro c i hs
    exact AssignScan.noConfusion hs
  | cons cell rest ih =>
    intro c i hs
    unfold mapassignScan at hs
    rcases hslots : mapassignSlots t top key cell none (List.range 8) with i0 | insL | insL <;>
      rw [hslots] at hs <;> dsimp only at hs
    · have := (AssignScan.found.inj hs).1
      simp [← this]
    · exact AssignScan.noConfusion hs
    · rcases insL with _ | i1 <;> dsimp only at hs <;>
        rcases hrest : mapassignScan t top key rest with ⟨c2, i2⟩ | ins2 <;>
          rw [hrest] at hs <;> dsimp only at hs
      · have := (AssignScan.found.inj hs).1
        have hlt := ih c2 i2 hrest
        simp [← this]
        omega
      · exact AssignScan.noConfusion hs
      · have := (AssignScan.found.inj hs).1
        have hlt := ih c2 i2 hrest
        simp [← this]
        omega
      · exact AssignScan.noConfusion hs

theorem mapassignScan_ins_lt (t : Maptype) (top key : Nat) :
    ∀ (b : Chain) (c i : Nat),
      mapassignScan t top key b = .noMatch (some (c, i)) → c < b.length := by
  intro b
  induction b with
  | nil =>
    intro c i hs
    exact Option.noConfusion (AssignScan.noMatch.inj hs)
  | cons cell rest ih =>
    intro c i hs
    unfold mapassignScan at hs
    rcases hslots : mapassignSlots t top key cell none (List.range 8) with i0 | insL | insL <;>
      rw [hslots] at hs <;> dsimp only at hs
    · exact AssignScan.noConfusion hs
    · rcases insL with _ | i1 <;> try dsimp only at hs
      · exact Option.noConfusion (AssignScan.noMatch.inj hs)
      · have := Prod.mk.inj (Option.some.inj (AssignScan.noMatch.inj hs))
        simp [← this.1]
    · rcases insL with _ | i1 <;> dsimp only at hs <;>
        rcases hrest : mapassignScan t top key rest with ⟨c2, i2⟩ | ins2 <;>
          rw [hrest] at hs <;> dsimp only at hs
      · exact AssignScan.noConfusion hs
      · rcases ins2 with _ | ⟨c3, i3⟩ <;> try dsimp only at hs
        · exact Option.noConfusion (AssignScan.noMatch.inj hs)
        · have := Prod.mk.inj (Option.some.inj (AssignScan.noMatch.inj hs))
          have hlt := ih c3 i3 (by rw [hrest])
          simp [← this.1]
          omega
      · exact AssignScan.noConfusion hs
      · have := Prod.mk.inj (Option.some.inj (AssignScan.noMatch.inj hs))
        simp [← this.1]

theorem findChain_after_update (t : Maptype) (top key val : Nat)
    (hrefl : t.keyEqual key key = true) (doKey : Bool) :
    ∀ (b : Chain) (c i : Nat),
      mapassignScan t top key b = .found c i →
      findChain t top key
        (listModify (fun cell => (if doKey then cell.setKey i key else cell).setElem i val) c b)
        = some (c, i) := by
  intro b
  induction b with
  | nil =>
    intro c i hs
    exact AssignScan.noConfusion hs
  | cons cell rest ih =>
    intro c i hs
    unfold mapassignScan at hs
    rcases hslots : mapassignSlots t top key cell none (List.range 8) with i0 | insL | insL <;>
      rw [hslots] at hs <;> dsimp only at hs
    · obtain ⟨hc0, hi0⟩ := AssignScan.found.inj hs
      subst hc0
      subst hi0
      show findChain t top key
        ((if doKey then cell.setKey i0 key else cell).setElem i0 val :: rest) = some (0, i0)
      unfold findChain
      rw [findSlot_found_after_update t top key val cell hrefl doKey _ _ _ hslots]
    · exact AssignScan.noConfusion hs
    · rcases insL with _ | i1 <;> dsimp only at hs <;>
        rcases hrest : mapassignScan t top key rest with ⟨c2, i2⟩ | ins2 <;>
          rw [hrest] at hs <;> dsimp only at hs
      · obtain ⟨hc0, hi0⟩ := AssignScan.found.inj hs
        subst hc0
        subst hi0
        show findChain t top key
          (cell :: listModify _ c2 rest) = some (c2 + 1, i2)
        unfold findChain
        rw [mapassignSlots_next_findSlot t top key cell _ _ _ hslots]
        rw [ih c2 i2 hrest]
        rfl
      · exact AssignScan.noConfusion hs
      · obtain ⟨hc0, hi0⟩ := AssignScan.found.inj hs
        subst hc0
        subst hi0
        show findChain t top key
          (cell :: listModify _ c2 rest) = some (c2 + 1, i2)
        unfold findChain
        rw [mapassignSlots_next_findSlot t top key cell _ _ _ hslots]
        rw [ih c2 i2 hrest]
        rfl
      · exact AssignScan.noConfusion hs

theorem findChain_after_insert (t : Maptype) (top key val : Nat)
    (hrefl : t.keyEqual key key = true) (htop : minTopHash ≤ top) :
    ∀ (b : Chain) (c i : Nat),
      mapassignScan t top key b = .noMatch (some (c, i)) →
      findChain t top key
        (listModify (fun cell => ((cell.setKey i key).setTop i top).setElem i val) c b)
        = some (c, i) := by
  intro b
  induction b with
  | nil =>
    intro c i hs
    exact Option.noConfusion (AssignScan.noMatch.inj hs)
  | cons cell rest ih =>
    intro c i hs
    unfold mapassignScan at hs
    rcases hslots : mapassignSlots t top key cell none (List.range 8) with i0 | insL | insL <;>
      rw [hslots] at hs <;> dsimp only at hs
    · exact AssignScan.noConfusion hs
    · rcases insL with _ | i1 <;> try dsimp only at hs
      · exact Option.noConfusion (AssignScan.noMatch.inj hs)
      · obtain ⟨hc0, hi0⟩ := Prod.mk.inj (Option.some.inj (AssignScan.noMatch.inj hs))
        subst hc0
        subst hi0
        show findChain t top key
          (((cell.setKey i1 key).setTop i1 top).setElem i1 val :: rest) = some (0, i1)
        unfold findChain
        rw [findSlot_found_after_insert t top key val cell hrefl htop _ _ (Or.inl hslots)]
    · rcases insL with _ | i1 <;> dsimp only at hs <;>
        rcases hrest : mapassignScan t top key rest with ⟨c2, i2⟩ | ins2 <;>
          rw [hrest] at hs <;> dsimp only at hs
      · exact AssignScan.noConfusion hs
      · rcases ins2 with _ | ⟨c3, i3⟩ <;> try dsimp only at hs
        · exact Option.noConfusion (AssignScan.noMatch.inj hs)
        · obtain ⟨hc0, hi0⟩ := Prod.mk.inj (Option.some.inj (AssignScan.noMatch.inj hs))
          subst hc0
          subst hi0
          show findChain t top key
            (cell :: listModify _ c3 rest) = some (c3 + 1, i3)
          unfold findChain
          rw [mapassignSlots_next_findSlot t top key cell _ _ _ hslots]
          rw [ih c3 i3 (by rw [hrest])]
          rfl
      · exact AssignScan.noConfusion hs
      · obtain ⟨hc0, hi0⟩ := Prod.mk.inj (Option.some.inj (AssignScan.noMatch.inj hs))
        subst hc0
        subst hi0
        show findChain t top key
          (((cell.setKey i1 key).setTop i1 top).setElem i1 val :: rest) = some (0, i1)
        unfold findChain
        rw [findSlot_found_after_insert t top key val cell hrefl htop _ _ (Or.inr hslots)]

theorem findChain_after_append (t : Maptype) (top key val : Nat)
    (hrefl : t.keyEqual key key = true) :
    ∀ (b : Chain),
      mapassignScan t top key b = .noMatch none →
      findChain t top key
        (b ++ [((emptyBmap.setKey 0 key).setTop 0 top).setElem 0 val]) = some (b.length, 0) := by
  intro b
  induction b with
  | nil =>
    intro _
    show findChain t top key [((emptyBmap.setKey 0 key).setTop 0 top).setElem 0 val] = some (0, 0)
    unfold findChain
    have hr8 : List.range 8 = 0 :: [1, 2, 3, 4, 5, 6, 7] := rfl
    rw [hr8]
    unfold findSlot
    rw [if_neg (by simp)]
    rw [if_pos (by simpa using hrefl)]
  | cons cell rest ih =>
    intro hs
    unfold mapassignScan at hs
    rcases hslots : mapassignSlots t top key cell none (List.range 8) with i0 | insL | insL <;>
      rw [hslots] at hs <;> dsimp only at hs
    · exact AssignScan.noConfusion hs
    · exfalso
      have hsome := mapassignSlots_stop_isSome t top key cell _ _ _ hslots
      have hmap := AssignScan.noMatch.inj hs
      rcases insL with _ | i1
      · exact Bool.noConfusion hsome
      · exact Option.noConfusion hmap
    · rcases insL with _ | i1 <;> dsimp only at hs <;>
        rcases hrest : mapassignScan t top key rest with ⟨c2, i2⟩ | ins2 <;>
          rw [hrest] at hs <;> dsimp only at hs
      · exact AssignScan.noConfusion hs
      · have hins2 : ins2 = none := by
          rcases ins2 with _ | p
          · rfl
          · exact Option.noConfusion (AssignScan.noMatch.inj hs)
        subst hins2
        show findChain t top key
          (cell :: (rest ++ [((emptyBmap.setKey 0 key).setTop 0 top).setElem 0 val]))
          = some (rest.length + 1, 0)
        unfold findChain
        rw [mapassignSlots_next_findSlot t top key cell _ _ _ hslots]
        rw [ih (by rw [hrest])]
        rfl
      · exact AssignScan.noConfusion hs
      · exact Option.noConfusion (AssignScan.noMatch.inj hs)

theorem noLiveChain_nil : noLiveChain [] := by
  intro cell hmem
  exact absurd hmem (List.not_mem_nil cell)

theorem noLiveChain_setTop_low (ch : Chain) (c i v : Nat) (hv : v < minTopHash)
    (hch : noLiveChain ch) :
    noLiveChain (listModify (fun cell => cell.setTop i v) c ch) := by
  intro cell hmem j hj
  rcases mem_of_mem_listModify _ _ _ _ hmem with hin | ⟨b, hb, hab⟩
  · exact hch cell hin j hj
  · rw [hab]
    simp only [Bmap.setTop_tops]
    split
    · exact hv
    · exact hch b hb j hj

theorem oldChain_noLive (h : Hmap) (ob : Nat)
    (hold : ∀ ch ∈ oldBuckets h, noLiveChain ch) :
    noLiveChain (oldChainAt h ob) := by
  by_cases hr : ob < (oldBuckets h).length
  · exact hold _ (getD_mem _ _ hr)
  · rw [oldChainAt_eq, List.getD_eq_default _ _ (by omega)]
    exact noLiveChain_nil

theorem oldCell_dead (h : Hmap) (ob ci i : Nat)
    (hold : ∀ ch ∈ oldBuckets h, noLiveChain ch) (hi : i < bucketCnt) :
    (cellAt (oldChainAt h ob) ci).tops i < minTopHash := by
  rcases cellAt_mem_or_empty (oldChainAt h ob) ci with hm | he
  · exact oldChain_noLive h ob hold _ hm i hi
  · rw [he]
    show (0 : Nat) < minTopHash
    decide

theorem setOldTop_noLive (h : Hmap) (ob ci i v : Nat) (hv : v < minTopHash)
    (hold : ∀ ch ∈ oldBuckets h, noLiveChain ch) :
    ∀ ch ∈ oldBuckets (setOldTop h ob ci i v), noLiveChain ch := by
  intro ch hch
  rw [setOldTop, oldBuckets_setOldChain] at hch
  rcases List.mem_or_eq_of_mem_set hch with hin | heq
  · exact hold ch hin
  · subst heq
    exact noLiveChain_setTop_low _ _ _ _ hv (oldChain_noLive h ob hold)

theorem evacuateSlots_noLive (t : Maptype) (ob nb : Nat) :
    ∀ (l : List Nat) (ci : Nat) (h : Hmap) (x y : EvacDst) (r : Hmap × EvacDst × EvacDst),
      (∀ j ∈ l, j < bucketCnt) →
      evacuateSlots t ob nb ci h x y l = .ok r →
      (∀ ch ∈ oldBuckets h, noLiveChain ch) →
      r.1.buckets = h.buckets ∧ (∀ ch ∈ oldBuckets r.1, noLiveChain ch) := by
  intro l
  induction l with
  | nil =>
    intro ci h x y r _ hok hold
    simp only [evacuateSlots] at hok
    cases hok
    exact ⟨rfl, hold⟩
  | cons i rest ih =>
    intro ci h x y r hj hok hold
    unfold evacuateSlots at hok
    by_cases hie : isEmpty ((cellAt (oldChainAt h ob) ci).tops i) = true
    · rw [if_pos hie] at hok
      have hold2 := setOldTop_noLive h ob ci i evacuatedEmpty (by decide) hold
      obtain ⟨hB, hO⟩ := ih ci _ x y r (fun j hjm => hj j (List.mem_cons_of_mem i hjm)) hok hold2
      exact ⟨hB, hO⟩
    · rw [if_neg hie] at hok
      have hdead : (cellAt (oldChainAt h ob) ci).tops i < minTopHash :=
        oldCell_dead h ob ci i hold (hj i (List.mem_cons_self i rest))
      rw [if_pos hdead] at hok
      exact Except.noConfusion hok

theorem evacuateCells_noLive (t : Maptype) (ob nb : Nat) :
    ∀ (rem ci : Nat) (h : Hmap) (x y : EvacDst) (h2 : Hmap),
      evacuateCells t ob nb h x y ci rem = .ok h2 →
      (∀ ch ∈ oldBuckets h, noLiveChain ch) →
      h2.buckets = h.buckets ∧ (∀ ch ∈ oldBuckets h2, noLiveChain ch) := by
  intro rem
  induction rem with
  | zero =>
    intro ci h x y h2 hok hold
    simp only [evacuateCells] at hok
    cases hok
    exact ⟨rfl, hold⟩
  | succ n ih =>
    intro ci h x y h2 hok hold
    simp only [evacuateCells] at hok
    rcases hs : evacuateSlots t ob nb ci h x y (List.range 8) with e | ⟨h3, x3, y3⟩ <;>
      rw [hs] at hok <;> dsimp only at hok
    · exact Except.noConfusion hok
    · obtain ⟨hB1, hO1⟩ := evacuateSlots_noLive t ob nb (List.range 8) ci h x y (h3, x3, y3)
        (by intro j hjm; have := List.mem_range.mp hjm; exact this) hs hold
      obtain ⟨hB2, hO2⟩ := ih _ _ _ _ _ hok hO1
      exact ⟨hB2.trans hB1, hO2⟩

theorem clearOldDataAt_noLive (h : Hmap) (j : Nat)
    (hold : ∀ ch ∈ oldBuckets h, noLiveChain ch) :
    ∀ ch ∈ oldBuckets (clearOldDataAt h j), noLiveChain ch := by
  unfold clearOldDataAt
  rcases hch : oldChainAt h j with _ | ⟨c0, rest⟩
  · exact hold
  · intro ch hchm
    rw [oldBuckets_setOldChain] at hchm
    rcases List.mem_or_eq_of_mem_set hchm with hin | heq
    · exact hold ch hin
    · subst heq
      intro cell hcm i hi
      have hcell : cell = ⟨c0.tops, fun _ => 0, fun _ => 0⟩ := by
        rcases List.mem_cons.mp hcm with hx | hx
        · exact hx
        · exact absurd hx (List.not_mem_nil cell)
      rw [hcell]
      show c0.tops i < minTopHash
      have hc0 : c0 ∈ oldChainAt h j := by
        rw [hch]
        exact List.mem_cons_self c0 rest
      exact oldChain_noLive h j hold c0 hc0 i hi

theorem advMark_noLive (t : Maptype) (hw : Hmap) (newbit : Nat)
    (hold : ∀ ch ∈ oldBuckets hw, noLiveChain ch) :
    (advanceEvacuationMark hw t newbit).buckets = hw.buckets ∧
    (∀ ch ∈ oldBuckets (advanceEvacuationMark hw t newbit), noLiveChain ch) := by
  obtain ⟨_, _, _, m4, _, _, _, _, _, m10, m11⟩ := advanceEvacuationMark_spec hw t newbit
  refine ⟨m4, ?_⟩
  by_cases hfin : (advanceEvacuationMark hw t newbit).nevacuate = newbit
  · have r1 := (m10 hfin).1
    intro ch hch
    rw [oldBuckets, r1] at hch
    exact absurd hch (List.not_mem_nil ch)
  · have n1 := (m11 hfin).1
    intro ch hch
    rw [oldBuckets, n1] at hch
    exact hold ch hch

theorem evacuate_noLive (t : Maptype) (h : Hmap) (o : Nat) (hm : Hmap)
    (hok : evacuate t h o = .ok hm)
    (hold : ∀ ch ∈ oldBuckets h, noLiveChain ch) :
    hm.buckets = h.buckets ∧ (∀ ch ∈ oldBuckets hm, noLiveChain ch) := by
  rw [evacuate_eq] at hok
  by_cases hev : evacuated (oldChainAt h o) = true
  · rw [if_pos hev] at hok
    dsimp only at hok
    have hh2 : hm = if o = h.nevacuate then advanceEvacuationMark h t h.noldbuckets else h :=
      (Except.ok.inj hok).symm
    rw [hh2]
    split
    · exact advMark_noLive t h h.noldbuckets hold
    · exact ⟨rfl, hold⟩
  · rw [if_neg hev] at hok
    rcases hc : evacuateCells t o h.noldbuckets h ⟨o, 0, 0⟩ ⟨o + h.noldbuckets, 0, 0⟩ 0
        (oldChainAt h o).length with e | hw
    · rw [hc] at hok
      exact Except.noConfusion hok
    · rw [hc] at hok
      dsimp only at hok
      obtain ⟨hB1, hO1⟩ := evacuateCells_noLive t o h.noldbuckets _ _ _ _ _ _ hc hold
      by_cases hmc : (!hw.flags.oldIterator && t.bucketPtrdata) = true
      · rw [if_pos hmc] at hok
        have hh2 : hm = if o = (clearOldDataAt hw o).nevacuate
            then advanceEvacuationMark (clearOldDataAt hw o) t h.noldbuckets
            else clearOldDataAt hw o := (Except.ok.inj hok).symm
        have hO2 := clearOldDataAt_noLive hw o hO1
        have hB2 : (clearOldDataAt hw o).buckets = h.buckets := by
          rw [clearOldDataAt_buckets, hB1]
        rw [hh2]
        split
        · obtain ⟨a1, a2⟩ := advMark_noLive t (clearOldDataAt hw o) h.noldbuckets hO2
          exact ⟨a1.trans hB2, a2⟩
        · exact ⟨hB2, hO2⟩
      · rw [if_neg hmc] at hok
        have hh2 : hm = if o = hw.nevacuate
            then advanceEvacuationMark hw t h.noldbuckets else hw :=
          (Except.ok.inj hok).symm
        rw [hh2]
        split
        · obtain ⟨a1, a2⟩ := advMark_noLive t hw h.noldbuckets hO1
          exact ⟨a1.trans hB1, a2⟩
        · exact ⟨hB1, hO1⟩

theorem growWork_noLive (t : Maptype) (h : Hmap) (bucket : Nat) (h2 : Hmap)
    (hok : growWork t h bucket = .ok h2)
    (hold : ∀ ch ∈ oldBuckets h, noLiveChain ch) :
    h2.buckets = h.buckets ∧ (∀ ch ∈ oldBuckets h2, noLiveChain ch) := by
  unfold growWork at hok
  rcases hc1 : evacuate t h (bucket &&& h.oldbucketmask) with e | hmid
  · rw [hc1] at hok
    exact Except.noConfusion hok
  · rw [hc1] at hok
    dsimp only at hok
    obtain ⟨hB1, hO1⟩ := evacuate_noLive t h _ hmid hc1 hold
    by_cases hgm : hmid.growing = true
    · rw [if_pos hgm] at hok
      obtain ⟨hB2, hO2⟩ := evacuate_noLive t hmid _ h2 hok hO1
      exact ⟨hB2.trans hB1, hO2⟩
    · rw [if_neg hgm] at hok
      have heq := Except.ok.inj hok
      rw [← heq]
      exact ⟨hB1, hO1⟩

theorem evacuateSlots_marks (t : Maptype) (ob nb : Nat) (rest : List Nat) (h : Hmap)
    (x y : EvacDst) (r : Hmap × EvacDst × EvacDst)
    (hok : evacuateSlots t ob nb 0 h x y (0 :: rest) = .ok r)
    (hne : oldChainAt h ob ≠ []) :
    evacuated (oldChainAt r.1 ob) = true := by
  have hlen : ob < (oldBuckets h).length := by
    by_contra hcon
    apply hne
    rw [oldChainAt_eq]
    exact List.getD_eq_default _ _ (by omega)
  have hmark : ∀ v, 2 ≤ v → v < 5 →
      evacuated (oldChainAt (setOldTop h ob 0 0 v) ob) = true := by
    intro v hv2 hv5
    rw [setOldTop, oldChainAt_setOldChain]
    rw [if_pos ⟨rfl, hlen⟩]
    rcases hch : oldChainAt h ob with _ | ⟨c0, rest2⟩
    · exact absurd hch hne
    · show evacuated ((c0.setTop 0 v) :: rest2) = true
      have he1 : emptyOne = 1 := rfl
      have hm5 : minTopHash = 5 := rfl
      simp [evacuated, he1, hm5]
      omega
  unfold evacuateSlots at hok
  by_cases hie : isEmpty ((cellAt (oldChainAt h ob) 0).tops 0) = true
  · rw [if_pos hie] at hok
    obtain ⟨_, _, _, _, _, _, _, _, _, f10, _, _⟩ :=
      evacuateSlots_frame t ob nb 0 rest _ x y r hok
    exact f10 ob (hmark evacuatedEmpty (by decide) (by decide))
  · rw [if_neg hie] at hok
    by_cases hlt : (cellAt (oldChainAt h ob) 0).tops 0 < minTopHash
    · rw [if_pos hlt] at hok
      exact Except.noConfusion hok
    · rw [if_neg hlt] at hok
      rcases huy : evacUseY t h ((cellAt (oldChainAt h ob) 0).keys 0)
          ((cellAt (oldChainAt h ob) 0).tops 0) nb with e | ⟨useY, top2⟩ <;>
        rw [huy] at hok <;> dsimp only at hok
      · exact Except.noConfusion hok
      · rw [if_neg (by decide)] at hok
        have huy1 := evacUseY_le t h _ _ nb useY top2 huy
        have hxv : evacuatedX = 2 := rfl
        have hev2 : evacuated (oldChainAt (setOldTop h ob 0 0 (evacuatedX + useY)) ob)
            = true := by
          apply hmark
          · omega
          · omega
        by_cases hu1 : useY = 1
        · rw [if_pos hu1] at hok
          obtain ⟨_, _, _, _, _, _, _, _, _, w10, _, _⟩ :=
            evacFrame_evacWriteDst t (setOldTop h ob 0 0 (evacuatedX + useY)) y top2
              ((cellAt (oldChainAt h ob) 0).keys 0) ((cellAt (oldChainAt h ob) 0).elems 0)
          obtain ⟨_, _, _, _, _, _, _, _, _, f10, _, _⟩ :=
            evacuateSlots_frame t ob nb 0 rest _ _ _ r hok
          exact f10 ob (w10 ob hev2)
        · rw [if_neg hu1] at hok
          obtain ⟨_, _, _, _, _, _, _, _, _, w10, _, _⟩ :=
            evacFrame_evacWriteDst t (setOldTop h ob 0 0 (evacuatedX + useY)) x top2
              ((cellAt (oldChainAt h ob) 0).keys 0) ((cellAt (oldChainAt h ob) 0).elems 0)
          obtain ⟨_, _, _, _, _, _, _, _, _, f10, _, _⟩ :=
            evacuateSlots_frame t ob nb 0 rest _ _ _ r hok
          exact f10 ob (w10 ob hev2)

theorem advMark_keeps_evacuated (t : Maptype) (hw : Hmap) (newbit o2 : Nat)
    (hg : (advanceEvacuationMark hw t newbit).oldbuckets.isSome = true)
    (he : evacuated (oldChainAt hw o2) = true) :
    evacuated (oldChainAt (advanceEvacuationMark hw t newbit) o2) = true := by
  obtain ⟨_, _, _, _, _, _, _, _, _, m10, m11⟩ := advanceEvacuationMark_spec hw t newbit
  by_cases hfin : (advanceEvacuationMark hw t newbit).nevacuate = newbit
  · have r1 := (m10 hfin).1
    rw [r1] at hg
    exact Bool.noConfusion hg
  · have n1 := (m11 hfin).1
    have hoc : oldChainAt (advanceEvacuationMark hw t newbit) o2 = oldChainAt hw o2 := by
      rw [oldChainAt_eq, oldChainAt_eq, oldBuckets, oldBuckets, n1]
    rw [hoc]
    exact he

theorem evacuate_marks_target (t : Maptype) (h : Hmap) (o : Nat) (hm : Hmap)
    (hok : evacuate t h o = .ok hm)
    (hne : oldChainAt h o ≠ [])
    (hgm : hm.growing = true) :
    evacuated (oldChainAt hm o) = true := by
  rw [evacuate_eq] at hok
  by_cases hev : evacuated (oldChainAt h o) = true
  · rw [if_pos hev] at hok
    dsimp only at hok
    have hh2 : hm = if o = h.nevacuate then advanceEvacuationMark h t h.noldbuckets else h :=
      (Except.ok.inj hok).symm
    rw [hh2]
    rw [hh2] at hgm
    split
    · next hoeq =>
      rw [if_pos hoeq] at hgm
      exact advMark_keeps_evacuated t h h.noldbuckets o hgm hev
    · exact hev
  · rw [if_neg hev] at hok
    rcases hl : (oldChainAt h o).length with _ | n
    · exact absurd (List.length_eq_zero.mp hl) hne
    rw [hl] at hok
    simp only [evacuateCells] at hok
    have hr8 : List.range 8 = 0 :: [1, 2, 3, 4, 5, 6, 7] := rfl
    rw [hr8] at hok
    rcases hslots : evacuateSlots t o h.noldbuckets 0 h ⟨o, 0, 0⟩ ⟨o + h.noldbuckets, 0, 0⟩
        (0 :: [1, 2, 3, 4, 5, 6, 7]) with e2 | trip <;> rw [hslots] at hok <;> dsimp only at hok
    · exact Except.noConfusion hok
    · obtain ⟨h3, x3, y3⟩ := trip
      have hmark := evacuateSlots_marks t o h.noldbuckets [1, 2, 3, 4, 5, 6, 7] h
        ⟨o, 0, 0⟩ ⟨o + h.noldbuckets, 0, 0⟩ (h3, x3, y3) hslots hne
      dsimp only at hok
      rcases hcells : evacuateCells t o h.noldbuckets h3 x3 y3 1 n with e | hw <;>
        rw [hcells] at hok <;> dsimp only at hok
      · exact Except.noConfusion hok
      · obtain ⟨_, _, _, _, _, _, _, _, _, c10, _, _⟩ :=
          evacuateCells_frame t o h.noldbuckets n 1 h3 x3 y3 hw hcells
        have hevw : evacuated (oldChainAt hw o) = true := c10 o hmark
        by_cases hmc : (!hw.flags.oldIterator && t.bucketPtrdata) = true
        · rw [if_pos hmc] at hok
          obtain ⟨_, _, _, _, _, _, _, _, _, d10, _, _⟩ := evacFrame_clearOldDataAt hw o
          have hevc := d10 o hevw
          have hh2 : hm = if o = (clearOldDataAt hw o).nevacuate
              then advanceEvacuationMark (clearOldDataAt hw o) t h.noldbuckets
              else clearOldDataAt hw o := (Except.ok.inj hok).symm
          rw [hh2]
          rw [hh2] at hgm
          split
          · next hoeq =>
            rw [if_pos hoeq] at hgm
            exact advMark_keeps_evacuated t (clearOldDataAt hw o) h.noldbuckets o hgm hevc
          · exact hevc
        · rw [if_neg hmc] at hok
          have hh2 : hm = if o = hw.nevacuate
              then advanceEvacuationMark hw t h.noldbuckets else hw :=
            (Except.ok.inj hok).symm
          rw [hh2]
          rw [hh2] at hgm
          split
          · next hoeq =>
            rw [if_pos hoeq] at hgm
            exact advMark_keeps_evacuated t hw h.noldbuckets o hgm hevw
          · exact hevw

theorem bucketMask_mod64 (b : Nat) : bucketMask b = bucketMask (b % 64) := by
  unfold bucketMask bucketShift
  rw [show b % 64 % 64 = b % 64 by omega]

theorem bucketShift_mod64 (b : Nat) : bucketShift b = bucketShift (b % 64) := by
  unfold bucketShift
  rw [show b % 64 % 64 = b % 64 by omega]

theorem land_bucketMask_lt_all (b x : Nat) : x &&& bucketMask b < bucketShift b := by
  rw [bucketMask_mod64, bucketShift_mod64]
  exact land_bucketMask_lt (by omega) x

theorem listModify_append_last {α : Type} (f : α → α) :
    ∀ (l : List α) (a : α), listModify f l.length (l ++ [a]) = l ++ [f a] := by
  intro l
  induction l with
  | nil =>
    intro a
    rfl
  | cons x xs ih =>
    intro a
    show x :: listModify f xs.length (xs ++ [a]) = x :: (xs ++ [f a])
    rw [ih a]

theorem getD_append_length {α : Type} (d : α) :
    ∀ (l : List α) (a : α), (l ++ [a]).getD l.length d = a := by
  intro l
  induction l with
  | nil =>
    intro a
    rfl
  | cons x xs ih =>
    intro a
    show (xs ++ [a]).getD xs.length d = a
    exact ih a

theorem mapassignSlots_found_mem (t : Maptype) (top key : Nat) (cell : Bmap) :
    ∀ (l : List Nat) (ins : Option Nat) (i : Nat),
      mapassignSlots t top key cell ins l = .cfound i → i ∈ l := by
  intro l
  induction l with
  | nil =>
    intro ins i hs
    exact CellScan.noConfusion hs
  | cons j rest ih =>
    intro ins i hs
    unfold mapassignSlots at hs
    by_cases hj : cell.tops j ≠ top
    · rw [if_pos hj] at hs
      by_cases hr : cell.tops j = emptyRest
      · rw [if_pos hr] at hs
        exact CellScan.noConfusion hs
      · rw [if_neg hr] at hs
        exact List.mem_cons_of_mem j (ih _ _ hs)
    · rw [if_neg hj] at hs
      by_cases hk : t.keyEqual key (cell.keys j) = true
      · rw [if_pos hk] at hs
        rw [← CellScan.cfound.inj hs]
        exact List.mem_cons_self j rest
      · rw [if_neg hk] at hs
        exact List.mem_cons_of_mem j (ih _ _ hs)

theorem mapassignScan_found_live (t : Maptype) (top key : Nat) :
    ∀ (b : Chain) (c i : Nat),
      mapassignScan t top key b = .found c i →
      ∃ cell ∈ b, cell.tops i = top ∧ i < bucketCnt := by
  intro b
  induction b with
  | nil =>
    intro c i hs
    exact AssignScan.noConfusion hs
  | cons cell rest ih =>
    intro c i hs
    unfold mapassignScan at hs
    rcases hslots : mapassignSlots t top key cell none (List.range 8) with i0 | insL | insL <;>
      rw [hslots] at hs <;> dsimp only at hs
    · obtain ⟨_, hi0⟩ := AssignScan.found.inj hs
      subst hi0
      obtain ⟨ht, _⟩ := mapassignSlots_found_facts t top key cell _ _ _ hslots
      have hmem := mapassignSlots_found_mem t top key cell _ _ _ hslots
      exact ⟨cell, List.mem_cons_self cell rest, ht, List.mem_range.mp hmem⟩
    · exact AssignScan.noConfusion hs
    · rcases insL with _ | i1 <;> try dsimp only at hs
      all_goals
        rcases hrest : mapassignScan t top key rest with ⟨c2, i2⟩ | ins2 <;>
          rw [hrest] at hs <;> try dsimp only at hs
      · obtain ⟨_, hi0⟩ := AssignScan.found.inj hs
        subst hi0
        obtain ⟨cell2, hmem, hfacts⟩ := ih c2 i2 hrest
        exact ⟨cell2, List.mem_cons_of_mem cell hmem, hfacts⟩
      · exact AssignScan.noConfusion hs
      · obtain ⟨_, hi0⟩ := AssignScan.found.inj hs
        subst hi0
        obtain ⟨cell2, hmem, hfacts⟩ := ih c2 i2 hrest
        exact ⟨cell2, List.mem_cons_of_mem cell hmem, hfacts⟩
      · exact AssignScan.noConfusion hs

theorem mapassignDone_ok (t : Maptype) (key val : Nat) (h : Hmap) (bucket c i : Nat)
    (h2 : Hmap) (hok : mapassignDone t key val h bucket c i = .ok h2) :
    h2 = modifyCurCell { h with flags := h.flags.clearWriting } bucket c
      (fun cell => cell.setElem i val) := by
  unfold mapassignDone at hok
  split at hok
  · exact Except.noConfusion hok
  · exact (Except.ok.inj hok).symm

theorem access_old_index (B : Nat) (hB : B < 52) (ss : Bool) (hash : Nat) :
    (hash &&& bucketMask B) &&& (bucketShift (if ss then B else B - 1) - 1)
      = hash &&& (if ss then bucketMask B else bucketMask B >>> 1) := by
  cases ss
  · by_cases hB1 : 1 ≤ B
    · show (hash &&& bucketMask B) &&& (bucketShift (B - 1) - 1)
        = hash &&& (bucketMask B >>> 1)
      rw [bucketMask_shiftRight hB1 (by omega)]
      show (hash &&& bucketMask B) &&& bucketMask (B - 1) = hash &&& bucketMask (B - 1)
      exact land_land_bucketMask (by omega) (by omega) hash
    · have hB0 : B = 0 := by omega
      subst hB0
      show (hash &&& bucketMask 0) &&& (bucketShift (0 - 1) - 1)
        = hash &&& (bucketMask 0 >>> 1)
      have hm0 : bucketMask 0 = 0 := rfl
      have hs0 : bucketShift (0 - 1) - 1 = 0 := rfl
      rw [hm0, hs0]
      simp
  · show (hash &&& bucketMask B) &&& bucketMask B = hash &&& bucketMask B
    exact land_land_bucketMask (Nat.le_refl B) (by omega) hash

theorem curChainAt_modifyCurCell_self (h : Hmap) (j : Nat) (c : Nat) (f : Bmap → Bmap)
    (hj : j < (curBuckets h).length) :
    curChainAt (modifyCurCell h j c f) j = listModify f c (curChainAt h j) := by
  unfold modifyCurCell
  rw [curChainAt_setCurChain, if_pos ⟨rfl, hj⟩]

theorem access_assemble (t : Maptype) (key val hash : Nat) (h1 h2 : Hmap)
    (hblt : h1.B < 52)
    (hev : h1.growing = true →
      evacuated (oldChainAt h1 ((hash &&& bucketMask h1.B) &&& h1.oldbucketmask)) = true)
    (hB2 : h2.B = h1.B)
    (hss2 : h2.sameSizeGrow = h1.sameSizeGrow)
    (hob2 : h2.oldbuckets = h1.oldbuckets)
    (c2 i2 : Nat)
    (hfind : findChain t (tophash hash) key (curChainAt h2 (hash &&& bucketMask h1.B))
      = some (c2, i2))
    (helems : ((curChainAt h2 (hash &&& bucketMask h1.B)).getD c2 emptyBmap).elems i2 = val) :
    ∃ c3 i3, findChain t (tophash hash) key (accessChainFor h2 hash) = some (c3, i3) ∧
      ((accessChainFor h2 hash).getD c3 emptyBmap).elems i3 = val := by
  have holdch : ∀ o, oldChainAt h2 o = oldChainAt h1 o := by
    intro o
    rw [oldChainAt_eq, oldChainAt_eq, oldBuckets, oldBuckets, hob2]
  have hacc : accessChainFor h2 hash = curChainAt h2 (hash &&& bucketMask h2.B) := by
    unfold accessChainFor
    rcases hob : h2.oldbuckets with _ | obs
    · rfl
    · dsimp only
      have hg1 : h1.growing = true := by
        show h1.oldbuckets.isSome = true
        rw [← hob2, hob]
        rfl
      have he1 := hev hg1
      have hcond : evacuated (oldChainAt h2
          (hash &&& (if h2.sameSizeGrow then bucketMask h2.B
            else bucketMask h2.B >>> 1))) = true := by
        rw [hss2, hB2, holdch]
        rw [← access_old_index h1.B hblt h1.sameSizeGrow hash]
        exact he1
      rw [if_pos hcond]
  rw [hacc, hB2]
  exact ⟨c2, i2, hfind, helems⟩

@[simp] theorem modifyCurCell_count (h : Hmap) (j c : Nat) (f : Bmap → Bmap) :
    (modifyCurCell h j c f).count = h.count := rfl

@[simp] theorem modifyCurCell_B (h : Hmap) (j c : Nat) (f : Bmap → Bmap) :
    (modifyCurCell h j c f).B = h.B := rfl

theorem hashGrow_count_B (t : Maptype) (h h2 : Hmap) (hEq : hashGrow t h = .ok h2) :
    h2.count = h.count ∧
    h2.B = h.B + (if overLoadFactor (h.count + 1) h.B then 1 else 0) := by
  unfold hashGrow at hEq
  cases hov : overLoadFactor (h.count + 1) h.B <;>
    simp only [hov, Bool.false_eq_true, if_false, if_true, ite_true, ite_false] at hEq <;>
    rcases hextra : h.extra with _ | e <;>
    simp only [hextra] at hEq
  · cases hEq
    exact ⟨rfl, by simp [hov]⟩
  · split at hEq
    · split at hEq
      · cases hEq
      · cases hEq
        exact ⟨rfl, by simp [hov]⟩
    · cases hEq
      exact ⟨rfl, by simp [hov]⟩
  · cases hEq
    exact ⟨rfl, by simp [hov]⟩
  · split at hEq
    · split at hEq
      · cases hEq
      · cases hEq
        exact ⟨rfl, by simp [hov]⟩
    · cases hEq
      exact ⟨rfl, by simp [hov]⟩

theorem mapassignDone_spec (t : Maptype) (key val : Nat) (h : Hmap) (bucket c i : Nat)
    (h2 : Hmap) (hok : mapassignDone t key val h bucket c i = .ok h2) :
    h2.count = h.count ∧ h2.B = h.B := by
  unfold mapassignDone at hok
  split at hok
  · exact Except.noConfusion hok
  · rw [← Except.ok.inj hok]
    exact ⟨rfl, rfl⟩

theorem mapassignLoop_B_count (t : Maptype) (key val hash : Nat) :
    ∀ (fuel : Nat) (h h2 : Hmap),
      mapassignLoop t key val hash fuel h = .ok h2 →
      h.B ≤ h2.B ∧
      (h2.count = h.count ∨ h2.count = h.count + 1) ∧
      (h.growing = false → overLoadFactor (h.count + 1) h.B = true →
        h2.count = h.count + 1 → h.B < h2.B) := by
  intro fuel
  induction fuel with
  | zero =>
    intro h h2 hok
    exact Except.noConfusion hok
  | succ n ih =>
    intro h h2 hok
    simp only [mapassignLoop] at hok
    split at hok
    · exact Except.noConfusion hok
    next h1 hres =>
      have hfacts : h1.count = h.count ∧ h1.B = h.B ∧
          (h.growing = false → h1 = h) := by
        by_cases hg : h.growing = true
        · rw [if_pos hg] at hres
          obtain ⟨_, _, _, _, _, _, a7, a8, _, _, _⟩ := growWork_spec t h _ h1 hres
          refine ⟨a7, a8, fun hgf => ?_⟩
          rw [hgf] at hg
          exact Bool.noConfusion hg
        · rw [if_neg hg] at hres
          have heq := Except.ok.inj hres
          exact ⟨by rw [← heq], by rw [← heq], fun _ => heq.symm⟩
      obtain ⟨hc1, hb1, heq1⟩ := hfacts
      split at hok
      · -- existing key found: the slot is updated, count unchanged
        split at hok
        · obtain ⟨hdc, hdb⟩ := mapassignDone_spec _ _ _ _ _ _ _ _ hok
          simp only [modifyCurCell_count, modifyCurCell_B] at hdc hdb
          refine ⟨Nat.le_of_eq (hdb.trans hb1).symm, Or.inl (hdc.trans hc1), ?_⟩
          intro _ _ hcnt
          rw [hdc.trans hc1] at hcnt
          omega
        · obtain ⟨hdc, hdb⟩ := mapassignDone_spec _ _ _ _ _ _ _ _ hok
          refine ⟨Nat.le_of_eq (hdb.trans hb1).symm, Or.inl (hdc.trans hc1), ?_⟩
          intro _ _ hcnt
          rw [hdc.trans hc1] at hcnt
          omega
      · -- no match: either grow and retry, or insert into a free slot
        split at hok
        · next hcond =>
          split at hok
          · exact Except.noConfusion hok
          next h3 hgrow3 =>
            obtain ⟨hc3, hb3⟩ := hashGrow_count_B t h1 h3 hgrow3
            obtain ⟨ihB, ihC, _⟩ := ih h3 h2 hok
            refine ⟨?_, ?_, ?_⟩
            · have : h3.B = h1.B + _ := hb3
              omega
            · rcases ihC with hc | hc
              · exact Or.inl (by rw [hc, hc3, hc1])
              · exact Or.inr (by rw [hc, hc3, hc1])
            · intro hgf hov _
              have heq := heq1 hgf
              have hb3x : h3.B = h.B + 1 := by
                rw [hb3, heq, if_pos hov]
              omega
        · next hcond =>
          split at hok
          · -- insert at the recorded free slot
            obtain ⟨hdc, hdb⟩ := mapassignDone_spec _ _ _ _ _ _ _ _ hok
            simp only [modifyCurCell_count, modifyCurCell_B] at hdc hdb
            refine ⟨?_, Or.inr (by rw [hdc]; rw [hc1]), ?_⟩
            · have : h2.B = h1.B := hdb
              omega
            · intro hgf hov _
              exfalso
              apply hcond
              rw [heq1 hgf, hgf, hov]
              rfl
          · -- all buckets full: hang a fresh overflow bucket and insert there
            obtain ⟨hdc, hdb⟩ := mapassignDone_spec _ _ _ _ _ _ _ _ hok
            simp only [modifyCurCell_count, modifyCurCell_B, newoverflow_count,
              newoverflow_B] at hdc hdb
            refine ⟨?_, Or.inr (by rw [hdc]; rw [hc1]), ?_⟩
            · have : h2.B = h1.B := hdb
              omega
            · intro hgf hov _
              exfalso
              apply hcond
              rw [heq1 hgf, hgf, hov]
              rfl

theorem mapassign_B_count (t : Maptype) (h : Hmap) (key val : Nat) (h2 : Hmap)
    (hok : mapassign t (some h) key val = .ok h2) :
    h.B ≤ h2.B ∧
    (h2.count = h.count ∨ h2.count = h.count + 1) ∧
    (h.growing = false → overLoadFactor (h.count + 1) h.B = true →
      h2.count = h.count + 1 → h.B < h2.B) := by
  unfold mapassign at hok
  split at hok
  · exact Except.noConfusion hok
  next hx heq =>
    have hxe : h = hx := Option.some.inj heq
    subst hxe
    split at hok
    · exact Except.noConfusion hok
    · split at hok
      · exact Except.noConfusion hok
      · dsimp only at hok
        by_cases hbn : h.buckets.isNone = true
        · rw [if_pos hbn] at hok
          obtain ⟨a, b, c⟩ := mapassignLoop_B_count t key val _ _ _ h2 hok
          exact ⟨a, b, c⟩
        · rw [if_neg hbn] at hok
          obtain ⟨a, b, c⟩ := mapassignLoop_B_count t key val _ _ _ h2 hok
          exact ⟨a, b, c⟩

theorem curBuckets_of_some {h : Hmap} {bs : BucketArr} (hbs : h.buckets = some bs) :
    curBuckets h = bs := by
  unfold curBuckets
  rw [hbs]
  rfl

theorem oldBuckets_of_some {h : Hmap} {obs : BucketArr} (hob : h.oldbuckets = some obs) :
    oldBuckets h = obs := by
  unfold oldBuckets
  rw [hob]
  rfl

theorem oldBuckets_of_none {h : Hmap} (hob : h.oldbuckets = none) :
    oldBuckets h = [] := by
  unfold oldBuckets
  rw [hob]
  rfl

theorem land_oldbucketmask_lt (h : Hmap) (x : Nat) :
    x &&& h.oldbucketmask < h.noldbuckets := by
  show x &&& (bucketShift (if h.sameSizeGrow then h.B else h.B - 1) - 1)
    < bucketShift (if h.sameSizeGrow then h.B else h.B - 1)
  exact land_bucketMask_lt_all _ x

theorem overLoadFactor_false_high (c : Nat) (hc : c < 2 ^ 49) :
    overLoadFactor (c + 1) 51 = false := by
  have hK : (loadFactorNum * (bucketShift 51 / loadFactorDen)) % (1 <<< 64)
      = 14636698788954112 := by decide
  have hc2 : c < 562949953421312 := by
    have h49 : (2 : Nat) ^ 49 = 562949953421312 := by norm_num
    rw [h49] at hc
    exact hc
  have hnot : ¬ ((loadFactorNum * (bucketShift 51 / loadFactorDen)) % (1 <<< 64) < c + 1) := by
    rw [hK]
    omega
  unfold overLoadFactor
  rw [decide_eq_false hnot, Bool.and_false]

theorem hashGrow_fields (t : Maptype) (h h3 : Hmap) (hEq : hashGrow t h = .ok h3) :
    h3.count = h.count ∧ h3.hash0 = h.hash0 ∧
    h3.B = h.B + (if overLoadFactor (h.count + 1) h.B then 1 else 0) ∧
    h3.buckets = some (makeBucketArray t
      (h.B + (if overLoadFactor (h.count + 1) h.B then 1 else 0))) ∧
    h3.oldbuckets = h.buckets ∧
    h3.flags.hashWriting = h.flags.hashWriting ∧
    h3.flags.sameSizeGrow
      = (if overLoadFactor (h.count + 1) h.B then h.flags.sameSizeGrow else true) ∧
    h3.nevacuate = 0 := by
  unfold hashGrow at hEq
  cases hov : overLoadFactor (h.count + 1) h.B <;>
    simp only [hov, Bool.false_eq_true, if_false, if_true, ite_true, ite_false] at hEq <;>
    rcases hextra : h.extra with _ | e <;>
    simp only [hextra] at hEq
  · cases hEq
    refine ⟨rfl, rfl, by simp, by simp, rfl, ?_, ?_, rfl⟩
    · first
      | (split <;> rfl)
      | rfl
    · simp
      try (split <;> rfl)
  · split at hEq
    · split at hEq
      · cases hEq
      · cases hEq
        refine ⟨rfl, rfl, by simp, by simp, rfl, ?_, ?_, rfl⟩
        · first
          | (split <;> rfl)
          | rfl
        · simp
          try (split <;> rfl)
    · cases hEq
      refine ⟨rfl, rfl, by simp, by simp, rfl, ?_, ?_, rfl⟩
      · first
        | (split <;> rfl)
        | rfl
      · simp
        try (split <;> rfl)
  · cases hEq
    refine ⟨rfl, rfl, by simp, by simp, rfl, ?_, ?_, rfl⟩
    · first
      | (split <;> rfl)
      | rfl
    · simp
      try (split <;> rfl)
  · split at hEq
    · split at hEq
      · cases hEq
      · cases hEq
        refine ⟨rfl, rfl, by simp, by simp, rfl, ?_, ?_, rfl⟩
        · first
          | (split <;> rfl)
          | rfl
        · simp
          try (split <;> rfl)
    · cases hEq
      refine ⟨rfl, rfl, by simp, by simp, rfl, ?_, ?_, rfl⟩
      · first
        | (split <;> rfl)
        | rfl
      · simp
        try (split <;> rfl)

theorem hashGrow_AInv (t : Maptype) (h h3 : Hmap)
    (hA : AInv h) (hg : h.growing = false) (hbs : h.buckets.isSome = true)
    (hok : hashGrow t h = .ok h3) :
    AInv h3 ∧ h3.buckets.isSome = true ∧
    h3.count = h.count ∧ h3.hash0 = h.hash0 ∧
    h3.flags.hashWriting = h.flags.hashWriting := by
  obtain ⟨f1, f2, f3, f4, f5, f6, f7, f8⟩ := hashGrow_fields t h h3 hok
  obtain ⟨bs0, hbs0⟩ := Option.isSome_iff_exists.mp hbs
  have hcb0 : curBuckets h = bs0 := curBuckets_of_some hbs0
  have hlen0 : bs0.length = bucketShift h.B := hA.curlen bs0 hbs0
  have hssgh : h.flags.sameSizeGrow = false := hA.ssg hg
  have hg3 : h3.growing = true := by
    show h3.oldbuckets.isSome = true
    rw [f5, hbs0]
    rfl
  have hcb3 : curBuckets h3
      = makeBucketArray t (h.B + (if overLoadFactor (h.count + 1) h.B then 1 else 0)) := by
    unfold curBuckets
    rw [f4]
    rfl
  have hob3 : oldBuckets h3 = bs0 := oldBuckets_of_some (f5.trans hbs0)
  have hBle : h.B + (if overLoadFactor (h.count + 1) h.B then 1 else 0) < 52 := by
    by_cases hov : overLoadFactor (h.count + 1) h.B = true
    · rw [if_pos hov]
      by_cases hB51 : h.B = 51
      · exfalso
        rw [hB51] at hov
        rw [overLoadFactor_false_high h.count hA.clt] at hov
        exact Bool.noConfusion hov
      · have := hA.blt
        omega
    · rw [if_neg hov]
      have := hA.blt
      omega
  have hnold3 : h3.noldbuckets = bucketShift h.B := by
    show bucketShift (if h3.sameSizeGrow then h3.B else h3.B - 1) = bucketShift h.B
    have hss3 : h3.sameSizeGrow
        = (if overLoadFactor (h.count + 1) h.B then h.flags.sameSizeGrow else true) := f7
    rw [hss3]
    by_cases hov : overLoadFactor (h.count + 1) h.B = true
    · rw [if_pos hov, hssgh]
      rw [if_neg Bool.false_ne_true]
      rw [f3, if_pos hov, Nat.add_sub_cancel]
    · rw [if_neg hov]
      rw [if_pos rfl]
      rw [f3, if_neg hov, Nat.add_zero]
  refine ⟨⟨?_, ?_, ?_, ?_, ?_, ?_, ?_, ?_, ?_, ?_⟩, by rw [f4]; rfl, f1, f2, f6⟩
  · intro bs hbs3
    have hbs3' : bs = makeBucketArray t
        (h.B + (if overLoadFactor (h.count + 1) h.B then 1 else 0)) :=
      Option.some.inj (hbs3.symm.trans f4)
    rw [hbs3', f3]
    simp [makeBucketArray]
  · intro ch hch
    rw [hcb3] at hch
    rw [makeBucketArray] at hch
    have := List.eq_of_mem_replicate hch
    subst this
    simp
  · intro hn
    rw [hn] at f4
    exact Option.noConfusion f4
  · intro _
    rw [hob3, hnold3]
    exact hlen0
  · intro ch hch
    rw [hob3, ← hcb0] at hch
    exact hA.curne ch hch
  · intro hg3f
    exfalso
    rw [hg3f] at hg3
    exact Bool.noConfusion hg3
  · intro _ ch hch
    rw [hcb3, makeBucketArray] at hch
    have := List.eq_of_mem_replicate hch
    subst this
    intro cell hcm j _
    rw [List.mem_singleton] at hcm
    subst hcm
    show (0 : Nat) < minTopHash
    decide
  · intro hc3 ch hch
    have hc0 : h.count = 0 := f1.symm.trans hc3
    rw [hob3, ← hcb0] at hch
    exact hA.cnt0cur hc0 ch hch
  · rw [f3]
    exact hBle
  · rw [f1]
    exact hA.clt

theorem growWork_full (t : Maptype) (h : Hmap) (bucket : Nat) (h1 : Hmap)
    (hA : AInv h) (hg : h.growing = true) (hbs : h.buckets.isSome = true)
    (hok : growWork t h bucket = .ok h1) :
    AInv h1 ∧ h1.buckets.isSome = true ∧
    h1.count = h.count ∧ h1.B = h.B ∧ h1.hash0 = h.hash0 ∧
    h1.flags.hashWriting = h.flags.hashWriting ∧
    (h1.growing = true →
      evacuated (oldChainAt h1 (bucket &&& h.oldbucketmask)) = true ∧
      h1.oldbucketmask = h.oldbucketmask) := by
  have hok0 := hok
  have holt : bucket &&& h.oldbucketmask < h.noldbuckets := land_oldbucketmask_lt h bucket
  have hlen : bucket &&& h.oldbucketmask < (oldBuckets h).length := by
    rw [hA.oldlen hg]
    exact holt
  have hne : oldChainAt h (bucket &&& h.oldbucketmask) ≠ [] := by
    rw [oldChainAt_eq]
    exact hA.oldne _ (getD_mem _ _ hlen)
  unfold growWork at hok
  rcases hc1 : evacuate t h (bucket &&& h.oldbucketmask) with e | hm
  · rw [hc1] at hok
    exact Except.noConfusion hok
  · rw [hc1] at hok
    dsimp only at hok
    obtain ⟨e1, e2, e3, e4, e5, e6, e7, e8, e9, e10, e11, e12, e13, e14, e15, e16, e17, e18,
      e19⟩ := evacuate_spec t h (bucket &&& h.oldbucketmask) hm hc1
    by_cases hgm : hm.growing = true
    · rw [if_pos hgm] at hok
      obtain ⟨g1, g2, g3, g4, g5, g6, g7, g8, g9, g10, g11, g12, g13, g14, g15, g16, g17, g18,
        g19⟩ := evacuate_spec t hm hm.nevacuate h1 hok
      obtain ⟨_, w2, w3, w4, w5⟩ := e14 hgm
      have hmark := evacuate_marks_target t h _ hm hc1 hne hgm
      have hcnt : h1.count = h.count := g1.trans e1
      have hB : h1.B = h.B := g2.trans e2
      have hbs1 : h1.buckets.isSome = true := by rw [g8, e8]; exact hbs
      have hclen : (curBuckets h1).length = (curBuckets h).length := g7.trans e7
      refine ⟨⟨?_, ?_, ?_, ?_, ?_, ?_, ?_, ?_, ?_, ?_⟩, hbs1, hcnt, hB, g3.trans e3,
        g4.trans e4, ?_⟩
      · intro bs hbs3
        obtain ⟨bs0, hbs0⟩ := Option.isSome_iff_exists.mp hbs
        have hx : curBuckets h1 = bs := curBuckets_of_some hbs3
        have hy : curBuckets h = bs0 := curBuckets_of_some hbs0
        rw [← hx, hclen, hy, hA.curlen bs0 hbs0, hB]
      · exact g9 (e9 hA.curne)
      · intro hn
        rw [hn] at hbs1
        exact Bool.noConfusion hbs1
      · intro hg1
        obtain ⟨_, v2, v3, v4, v5⟩ := g14 hg1
        have hfl : h1.flags = h.flags := v2.trans w2
        have hnold : h1.noldbuckets = h.noldbuckets := noldbuckets_congr h1 h hB hfl
        rw [v3, w3, hA.oldlen hg, hnold]
      · by_cases hg1 : h1.growing = true
        · obtain ⟨_, _, _, v4, _⟩ := g14 hg1
          exact v4 (w4 hA.oldne)
        · have hg1f : h1.growing = false := by
            cases hx : h1.growing
            · rfl
            · exact absurd hx hg1
          have hemp : oldBuckets h1 = [] :=
            oldBuckets_of_none (growing_false_oldbuckets_none h1 hg1f)
          intro ch hch
          rw [hemp] at hch
          exact absurd hch (List.not_mem_nil ch)
      · intro hg1f
        rcases g18 hg1f with hss | ⟨_, hgmf⟩
        · exact hss
        · exfalso
          rw [hgmf] at hgm
          exact Bool.noConfusion hgm
      · intro hc0
        have hc0' : h.count = 0 := hcnt.symm.trans hc0
        obtain ⟨hbeq, _⟩ := growWork_noLive t h bucket h1 hok0 (hA.cnt0old hc0')
        have hcb : curBuckets h1 = curBuckets h := by
          unfold curBuckets
          rw [hbeq]
        intro ch hch
        rw [hcb] at hch
        exact hA.cnt0cur hc0' ch hch
      · intro hc0
        have hc0' : h.count = 0 := hcnt.symm.trans hc0
        exact (growWork_noLive t h bucket h1 hok0 (hA.cnt0old hc0')).2
      · rw [hB]
        exact hA.blt
      · rw [hcnt]
        exact hA.clt
      · intro hg1
        obtain ⟨_, v2, _, _, v5⟩ := g14 hg1
        have hfl : h1.flags = h.flags := v2.trans w2
        have hnold : h1.noldbuckets = h.noldbuckets := noldbuckets_congr h1 h hB hfl
        refine ⟨v5 _ hmark, ?_⟩
        show h1.noldbuckets - 1 = h.noldbuckets - 1
        rw [hnold]
    · rw [if_neg hgm] at hok
      have heq := Except.ok.inj hok
      subst heq
      have hgmf : hm.growing = false := by
        cases hx : hm.growing
        · rfl
        · exact absurd hx hgm
      have hbs1 : hm.buckets.isSome = true := by rw [e8]; exact hbs
      refine ⟨⟨?_, ?_, ?_, ?_, ?_, ?_, ?_, ?_, ?_, ?_⟩, hbs1, e1, e2, e3, e4, ?_⟩
      · intro bs hbs3
        obtain ⟨bs0, hbs0⟩ := Option.isSome_iff_exists.mp hbs
        have hx : curBuckets hm = bs := curBuckets_of_some hbs3
        have hy : curBuckets h = bs0 := curBuckets_of_some hbs0
        rw [← hx, e7, hy, hA.curlen bs0 hbs0, e2]
      · exact e9 hA.curne
      · intro hn
        rw [hn] at hbs1
        exact Bool.noConfusion hbs1
      · intro hg1
        exfalso
        rw [hgmf] at hg1
        exact Bool.noConfusion hg1
      · have hemp : oldBuckets hm = [] :=
          oldBuckets_of_none (growing_false_oldbuckets_none hm hgmf)
        intro ch hch
        rw [hemp] at hch
        exact absurd hch (List.not_mem_nil ch)
      · intro _
        rcases e18 hgmf with hss | ⟨_, hgf⟩
        · exact hss
        · exfalso
          rw [hgf] at hg
          exact Bool.noConfusion hg
      · intro hc0
        have hc0' : h.count = 0 := e1.symm.trans hc0
        obtain ⟨hbeq, _⟩ := growWork_noLive t h bucket hm hok0 (hA.cnt0old hc0')
        have hcb : curBuckets hm = curBuckets h := by
          unfold curBuckets
          rw [hbeq]
        intro ch hch
        rw [hcb] at hch
        exact hA.cnt0cur hc0' ch hch
      · intro hc0
        have hc0' : h.count = 0 := e1.symm.trans hc0
        exact (growWork_noLive t h bucket hm hok0 (hA.cnt0old hc0')).2
      · rw [e2]
        exact hA.blt
      · rw [e1]
        exact hA.clt
      · intro hg1
        exfalso
        rw [hgmf] at hg1
        exact Bool.noConfusion hg1

theorem assign_found_access (t : Maptype) (key val hash bucket : Nat) (h1 h2 : Hmap)
    (hA1 : AInv h1) (hbs1 : h1.buckets.isSome = true)
    (hrefl : t.keyEqual key key = true)
    (hbucket : bucket = hash &&& bucketMask h1.B)
    (hev : h1.growing = true →
      evacuated (oldChainAt h1 ((hash &&& bucketMask h1.B) &&& h1.oldbucketmask)) = true)
    (c i : Nat)
    (hscan : mapassignScan t (tophash hash) key (curChainAt h1 bucket) = .found c i)
    (hok : mapassignDone t key val
      (if t.needkeyupdate then modifyCurCell h1 bucket c (fun cell => cell.setKey i key)
       else h1) bucket c i = .ok h2) :
    h2.hash0 = h1.hash0 ∧ AccessGoal t key val hash h2 := by
  have hdone := mapassignDone_ok t key val _ bucket c i h2 hok
  obtain ⟨bs, hbsome⟩ := Option.isSome_iff_exists.mp hbs1
  have hcb : curBuckets h1 = bs := curBuckets_of_some hbsome
  have hblen : bucket < (curBuckets h1).length := by
    rw [hcb, hA1.curlen bs hbsome, hbucket]
    exact land_bucketMask_lt_all h1.B hash
  have hclt : c < (curChainAt h1 bucket).length :=
    mapassignScan_found_lt t (tophash hash) key _ c i hscan
  obtain ⟨cell, hcmem, hctop, hilt⟩ := mapassignScan_found_live t (tophash hash) key _ c i hscan
  have hcnt : h1.count ≠ 0 := by
    intro hc0
    have hbmem : curChainAt h1 bucket ∈ curBuckets h1 := by
      rw [curChainAt_eq]
      exact getD_mem _ _ hblen
    have hnl := hA1.cnt0cur hc0 _ hbmem cell hcmem i hilt
    have hge := tophash_ge hash
    rw [hctop] at hnl
    omega
  by_cases hku : t.needkeyupdate = true
  · rw [if_pos hku] at hdone
    have hblen2 : bucket <
        (curBuckets (modifyCurCell h1 bucket c (fun cell => cell.setKey i key))).length := by
      rw [modifyCurCell, curBuckets_setCurChain, List.length_set]
      exact hblen
    have e1 : curChainAt h2 bucket
        = listModify (fun cell => cell.setElem i val) c
          (curChainAt (modifyCurCell h1 bucket c (fun cell => cell.setKey i key)) bucket) := by
      rw [hdone]
      exact curChainAt_modifyCurCell_self _ bucket c _ hblen2
    have e2 : curChainAt (modifyCurCell h1 bucket c (fun cell => cell.setKey i key)) bucket
        = listModify (fun cell => cell.setKey i key) c (curChainAt h1 bucket) :=
      curChainAt_modifyCurCell_self h1 bucket c _ hblen
    have hchain : curChainAt h2 bucket
        = listModify (fun cell => (if true then cell.setKey i key else cell).setElem i val) c
          (curChainAt h1 bucket) := by
      rw [e1, e2]
      exact listModify_listModify _ _ c _
    have hfound := findChain_after_update t (tophash hash) key val hrefl true _ c i hscan
    refine ⟨by rw [hdone]; try rfl, by rw [hdone]; exact hcnt,
      by rw [hdone]; try rfl, ?_⟩
    refine access_assemble t key val hash h1 h2 hA1.blt hev (by rw [hdone]; try rfl)
      (by rw [hdone]; try rfl) (by rw [hdone]; try rfl) c i ?_ ?_
    · rw [← hbucket, hchain]
      exact hfound
    · rw [← hbucket, hchain, getD_listModify, if_pos ⟨rfl, hclt⟩]
      simp
  · rw [if_neg hku] at hdone
    have hchain : curChainAt h2 bucket
        = listModify (fun cell => (if false then cell.setKey i key else cell).setElem i val) c
          (curChainAt h1 bucket) := by
      rw [hdone]
      exact curChainAt_modifyCurCell_self _ bucket c _ hblen
    have hfound := findChain_after_update t (tophash hash) key val hrefl false _ c i hscan
    refine ⟨by rw [hdone]; try rfl, by rw [hdone]; exact hcnt,
      by rw [hdone]; try rfl, ?_⟩
    refine access_assemble t key val hash h1 h2 hA1.blt hev (by rw [hdone]; try rfl)
      (by rw [hdone]; try rfl) (by rw [hdone]; try rfl) c i ?_ ?_
    · rw [← hbucket, hchain]
      exact hfound
    · rw [← hbucket, hchain, getD_listModify, if_pos ⟨rfl, hclt⟩]
      simp

theorem assign_insert_access (t : Maptype) (key val hash bucket : Nat) (h1 h2 : Hmap)
    (hA1 : AInv h1) (hbs1 : h1.buckets.isSome = true)
    (hrefl : t.keyEqual key key = true)
    (hbucket : bucket = hash &&& bucketMask h1.B)
    (hev : h1.growing = true →
      evacuated (oldChainAt h1 ((hash &&& bucketMask h1.B) &&& h1.oldbucketmask)) = true)
    (c i : Nat)
    (hscan : mapassignScan t (tophash hash) key (curChainAt h1 bucket)
      = .noMatch (some (c, i)))
    (hok : mapassignDone t key val
      { modifyCurCell h1 bucket c
          (fun cell => (cell.setKey i key).setTop i (tophash hash)) with
        count := (modifyCurCell h1 bucket c
          (fun cell => (cell.setKey i key).setTop i (tophash hash))).count + 1 }
      bucket c i = .ok h2) :
    h2.hash0 = h1.hash0 ∧ AccessGoal t key val hash h2 := by
  have hdone := mapassignDone_ok t key val _ bucket c i h2 hok
  obtain ⟨bs, hbsome⟩ := Option.isSome_iff_exists.mp hbs1
  have hcb : curBuckets h1 = bs := curBuckets_of_some hbsome
  have hblen : bucket < (curBuckets h1).length := by
    rw [hcb, hA1.curlen bs hbsome, hbucket]
    exact land_bucketMask_lt_all h1.B hash
  have hclt : c < (curChainAt h1 bucket).length :=
    mapassignScan_ins_lt t (tophash hash) key _ c i hscan
  have hblen2 : bucket < (curBuckets (modifyCurCell h1 bucket c
      (fun cell => (cell.setKey i key).setTop i (tophash hash)))).length := by
    rw [modifyCurCell, curBuckets_setCurChain, List.length_set]
    exact hblen
  have e1 : curChainAt h2 bucket
      = listModify (fun cell => cell.setElem i val) c
        (curChainAt (modifyCurCell h1 bucket c
          (fun cell => (cell.setKey i key).setTop i (tophash hash))) bucket) := by
    rw [hdone]
    exact curChainAt_modifyCurCell_self _ bucket c _ hblen2
  have e2 : curChainAt (modifyCurCell h1 bucket c
      (fun cell => (cell.setKey i key).setTop i (tophash hash))) bucket
      = listModify (fun cell => (cell.setKey i key).setTop i (tophash hash)) c
        (curChainAt h1 bucket) :=
    curChainAt_modifyCurCell_self h1 bucket c _ hblen
  have hchain : curChainAt h2 bucket
      = listModify (fun cell => ((cell.setKey i key).setTop i (tophash hash)).setElem i val) c
        (curChainAt h1 bucket) := by
    rw [e1, e2]
    exact listModify_listModify _ _ c _
  have hfound := findChain_after_insert t (tophash hash) key val hrefl (tophash_ge hash)
    _ c i hscan
  refine ⟨by rw [hdone]; try rfl, ?_, by rw [hdone]; try rfl, ?_⟩
  · rw [hdone]
    show h1.count + 1 ≠ 0
    exact Nat.succ_ne_zero _
  · refine access_assemble t key val hash h1 h2 hA1.blt hev (by rw [hdone]; try rfl)
      (by rw [hdone]; try rfl) (by rw [hdone]; try rfl) c i ?_ ?_
    · rw [← hbucket, hchain]
      exact hfound
    · rw [← hbucket, hchain, getD_listModify, if_pos ⟨rfl, hclt⟩]
      simp

theorem assign_overflow_access (t : Maptype) (key val hash bucket : Nat) (h1 h2o h2 : Hmap)
    (cNew : Nat)
    (hA1 : AInv h1) (hbs1 : h1.buckets.isSome = true)
    (hrefl : t.keyEqual key key = true)
    (hbucket : bucket = hash &&& bucketMask h1.B)
    (hev : h1.growing = true →
      evacuated (oldChainAt h1 ((hash &&& bucketMask h1.B) &&& h1.oldbucketmask)) = true)
    (hscan : mapassignScan t (tophash hash) key (curChainAt h1 bucket) = .noMatch none)
    (h2odef : h2o = newoverflow t h1 bucket ((curChainAt h1 bucket).length - 1))
    (hcN : cNew = (curChainAt h2o bucket).length - 1)
    (hok : mapassignDone t key val
      { modifyCurCell h2o bucket cNew
          (fun cell => (cell.setKey 0 key).setTop 0 (tophash hash)) with
        count := (modifyCurCell h2o bucket cNew
          (fun cell => (cell.setKey 0 key).setTop 0 (tophash hash))).count + 1 }
      bucket cNew 0 = .ok h2) :
    h2.hash0 = h1.hash0 ∧ AccessGoal t key val hash h2 := by
  have hdone := mapassignDone_ok t key val _ bucket cNew 0 h2 hok
  obtain ⟨bs, hbsome⟩ := Option.isSome_iff_exists.mp hbs1
  have hcb : curBuckets h1 = bs := curBuckets_of_some hbsome
  have hblen : bucket < (curBuckets h1).length := by
    rw [hcb, hA1.curlen bs hbsome, hbucket]
    exact land_bucketMask_lt_all h1.B hash
  have hbne : curChainAt h1 bucket ≠ [] := by
    have hbmem : curChainAt h1 bucket ∈ curBuckets h1 := by
      rw [curChainAt_eq]
      exact getD_mem _ _ hblen
    exact hA1.curne _ hbmem
  have hpos : 0 < (curChainAt h1 bucket).length := List.length_pos.mpr hbne
  have hob : curChainAt h2o bucket = curChainAt h1 bucket ++ [emptyBmap] := by
    rw [h2odef, curChainAt_eq, newoverflow_curBuckets, getD_set_self _ hblen]
    rw [show (curChainAt h1 bucket).length - 1 + 1 = (curChainAt h1 bucket).length by omega]
    rw [List.take_length]
  have hcN2 : cNew = (curChainAt h1 bucket).length := by
    rw [hcN, hob, List.length_append]
    simp
  have hblen2 : bucket < (curBuckets h2o).length := by
    rw [h2odef, newoverflow_curBuckets, List.length_set]
    exact hblen
  have hblen3 : bucket < (curBuckets (modifyCurCell h2o bucket cNew
      (fun cell => (cell.setKey 0 key).setTop 0 (tophash hash)))).length := by
    rw [modifyCurCell, curBuckets_setCurChain, List.length_set]
    exact hblen2
  have e1 : curChainAt h2 bucket
      = listModify (fun cell => cell.setElem 0 val) cNew
        (curChainAt (modifyCurCell h2o bucket cNew
          (fun cell => (cell.setKey 0 key).setTop 0 (tophash hash))) bucket) := by
    rw [hdone]
    exact curChainAt_modifyCurCell_self _ bucket cNew _ hblen3
  have e2 : curChainAt (modifyCurCell h2o bucket cNew
      (fun cell => (cell.setKey 0 key).setTop 0 (tophash hash))) bucket
      = listModify (fun cell => (cell.setKey 0 key).setTop 0 (tophash hash)) cNew
        (curChainAt h2o bucket) :=
    curChainAt_modifyCurCell_self h2o bucket cNew _ hblen2
  have hchain : curChainAt h2 bucket
      = curChainAt h1 bucket
        ++ [((emptyBmap.setKey 0 key).setTop 0 (tophash hash)).setElem 0 val] := by
    rw [e1, e2, listModify_listModify, hob, hcN2]
    exact listModify_append_last _ _ _
  have hfound := findChain_after_append t (tophash hash) key val hrefl _ hscan
  have hBeq : h2.B = h1.B := by
    rw [hdone]
    show h2o.B = h1.B
    rw [h2odef, newoverflow_B]
  have hsseq : h2.sameSizeGrow = h1.sameSizeGrow := by
    show h2.flags.sameSizeGrow = h1.flags.sameSizeGrow
    rw [hdone]
    show h2o.flags.sameSizeGrow = h1.flags.sameSizeGrow
    rw [h2odef, newoverflow_flags]
  have hobq : h2.oldbuckets = h1.oldbuckets := by
    rw [hdone]
    show h2o.oldbuckets = h1.oldbuckets
    rw [h2odef, newoverflow_oldbuckets]
  have hh0 : h2.hash0 = h1.hash0 := by
    rw [hdone]
    show h2o.hash0 = h1.hash0
    rw [h2odef, newoverflow_hash0]
  refine ⟨hh0, ?_, by rw [hdone]; try rfl, ?_⟩
  · rw [hdone]
    show h2o.count + 1 ≠ 0
    exact Nat.succ_ne_zero _
  · refine access_assemble t key val hash h1 h2 hA1.blt hev hBeq hsseq hobq
      (curChainAt h1 bucket).length 0 ?_ ?_
    · rw [← hbucket, hchain]
      exact hfound
    · rw [← hbucket, hchain, getD_append_length]
      simp

theorem mapassignLoop_access (t : Maptype) (key val hash : Nat)
    (hrefl : t.keyEqual key key = true) :
    ∀ (fuel : Nat) (h h2 : Hmap),
      AInv h → h.buckets.isSome = true →
      mapassignLoop t key val hash fuel h = .ok h2 →
      h2.hash0 = h.hash0 ∧ AccessGoal t key val hash h2 := by
  intro fuel
  induction fuel with
  | zero =>
    intro h h2 _ _ hok
    exact Except.noConfusion hok
  | succ n ih =>
    intro h h2 hA hbs hok
    simp only [mapassignLoop] at hok
    split at hok
    · exact Except.noConfusion hok
    next h1 hres =>
      have hfacts : AInv h1 ∧ h1.buckets.isSome = true ∧ h1.B = h.B ∧
          h1.hash0 = h.hash0 ∧
          (h1.growing = true →
            evacuated (oldChainAt h1 ((hash &&& bucketMask h1.B) &&& h1.oldbucketmask))
              = true) := by
        by_cases hg : h.growing = true
        · rw [if_pos hg] at hres
          obtain ⟨a1, a2, a3, a4, a5, a6, a7⟩ := growWork_full t h _ h1 hA hg hbs hres
          refine ⟨a1, a2, a4, a5, ?_⟩
          intro hg1
          obtain ⟨hevt, hmask⟩ := a7 hg1
          rw [a4, hmask]
          exact hevt
        · rw [if_neg hg] at hres
          have heq := Except.ok.inj hres
          refine ⟨heq ▸ hA, heq ▸ hbs, by rw [← heq], by rw [← heq], ?_⟩
          intro hg1
          rw [← heq] at hg1
          exact absurd hg1 hg
      obtain ⟨hA1, hbs1, hb1, hh1, hev1⟩ := hfacts
      split at hok
      next c i hscan =>
        obtain ⟨r1, r2⟩ := assign_found_access t key val hash (hash &&& bucketMask h.B) h1 h2
          hA1 hbs1 hrefl (by rw [hb1]) hev1 c i hscan hok
        exact ⟨r1.trans hh1, r2⟩
      next ins hscan =>
        split at hok
        · next hcond =>
          split at hok
          · exact Except.noConfusion hok
          next h3 hgrow3 =>
            have hg1f : h1.growing = false := by
              cases hx : h1.growing
              · rfl
              · rw [hx] at hcond
                simp at hcond
            obtain ⟨gA, gbs, gc, gh0, ghw⟩ := hashGrow_AInv t h1 h3 hA1 hg1f hbs1 hgrow3
            obtain ⟨r1, r2⟩ := ih h3 h2 gA gbs hok
            exact ⟨r1.trans (gh0.trans hh1), r2⟩
        · next hcond =>
          rcases ins with _ | ⟨c, i⟩
          · dsimp only at hok
            obtain ⟨r1, r2⟩ := assign_overflow_access t key val hash
              (hash &&& bucketMask h.B) h1 _ h2 _ hA1 hbs1 hrefl (by rw [hb1]) hev1
              hscan rfl rfl hok
            exact ⟨r1.trans hh1, r2⟩
          · dsimp only at hok
            obtain ⟨r1, r2⟩ := assign_insert_access t key val hash
              (hash &&& bucketMask h.B) h1 h2 hA1 hbs1 hrefl (by rw [hb1]) hev1 c i
              hscan hok
            exact ⟨r1.trans hh1, r2⟩

/-- C1 (amended): on a well-formed table, for every key that is equal to
itself under the map type's key equality (which excludes NaN-like keys,
see the counterexample) and every value, a Put (mapassign plus the store
through the returned slot) followed by a Get (mapaccess2) of the same
key returns exactly the stored value together with found = true. -/
theorem c1_put_get_roundtrip (t : Maptype) (h : Hmap) (key val : Nat) (h2 : Hmap)
    (hA : AInv h) (hrefl : t.keyEqual key key = true)
    (hok : mapassign t (some h) key val = .ok h2) :
    mapaccess2 t (some h2) key = .ok (val, true) := by
  unfold mapassign at hok
  split at hok
  · exact Except.noConfusion hok
  next hx heq =>
    have hxe : h = hx := Option.some.inj heq
    subst hxe
    split at hok
    · exact Except.noConfusion hok
    · split at hok
      · exact Except.noConfusion hok
      next hash hh =>
        dsimp only at hok
        by_cases hbn : h.buckets.isNone = true
        · rw [if_pos hbn] at hok
          have hbnone : h.buckets = none := Option.isNone_iff_eq_none.mp hbn
          obtain ⟨hB0, hOld⟩ := hA.nilB hbnone
          have hAe : AInv { { h with flags := h.flags.xorWriting } with
              buckets := some [[emptyBmap]] } := by
            refine ⟨?_, ?_, ?_, ?_, ?_, ?_, ?_, ?_, ?_, ?_⟩
            · intro bs hbs
              have hbs' : bs = [[emptyBmap]] := (Option.some.inj hbs).symm
              subst hbs'
              show ([[emptyBmap]] : BucketArr).length = bucketShift h.B
              rw [hB0]
              rfl
            · intro ch hch
              have hch2 : ch ∈ ([[emptyBmap]] : BucketArr) := hch
              rw [List.mem_singleton] at hch2
              subst hch2
              simp
            · intro hn
              exact Option.noConfusion hn
            · intro hg1
              have hg2 : h.oldbuckets.isSome = true := hg1
              rw [hOld] at hg2
              exact Bool.noConfusion hg2
            · intro ch hch
              have hemp : oldBuckets { { h with flags := h.flags.xorWriting } with
                  buckets := some [[emptyBmap]] } = [] := oldBuckets_of_none hOld
              rw [hemp] at hch
              exact absurd hch (List.not_mem_nil ch)
            · intro _
              show h.flags.sameSizeGrow = false
              apply hA.ssg
              show h.oldbuckets.isSome = false
              rw [hOld]
              rfl
            · intro _ ch hch
              have hch2 : ch ∈ ([[emptyBmap]] : BucketArr) := hch
              rw [List.mem_singleton] at hch2
              subst hch2
              intro cell hcm j _
              rw [List.mem_singleton] at hcm
              subst hcm
              show (0 : Nat) < minTopHash
              decide
            · intro _ ch hch
              have hemp : oldBuckets { { h with flags := h.flags.xorWriting } with
                  buckets := some [[emptyBmap]] } = [] := oldBuckets_of_none hOld
              rw [hemp] at hch
              exact absurd hch (List.not_mem_nil ch)
            · show h.B < 52
              exact hA.blt
            · show h.count < 2 ^ 49
              exact hA.clt
          obtain ⟨r1, r2⟩ := mapassignLoop_access t key val hash hrefl _ _ h2 hAe rfl hok
          have hh0 : h2.hash0 = h.hash0 := r1
          obtain ⟨hcnt, hw, c, i, hfind, helems⟩ := r2
          unfold mapaccess2
          dsimp only
          rw [if_neg hcnt]
          rw [if_neg (show ¬h2.flags.hashWriting = true by rw [hw]; exact Bool.false_ne_true)]
          rw [hh0, hh]
          dsimp only
          rw [hfind]
          dsimp only
          rw [helems]
        · rw [if_neg hbn] at hok
          have hbsome : h.buckets.isSome = true := by
            rcases hb2 : h.buckets with _ | bs
            · exfalso
              apply hbn
              simp [hb2]
            · rfl
          have hAx : AInv { h with flags := h.flags.xorWriting } :=
            ⟨hA.curlen, hA.curne, hA.nilB, hA.oldlen, hA.oldne, hA.ssg, hA.cnt0cur,
             hA.cnt0old, hA.blt, hA.clt⟩
          obtain ⟨r1, r2⟩ := mapassignLoop_access t key val hash hrefl _ _ h2 hAx hbsome hok
          have hh0 : h2.hash0 = h.hash0 := r1
          obtain ⟨hcnt, hw, c, i, hfind, helems⟩ := r2
          unfold mapaccess2
          dsimp only
          rw [if_neg hcnt]
          rw [if_neg (show ¬h2.flags.hashWriting = true by rw [hw]; exact Bool.false_ne_true)]
          rw [hh0, hh]
          dsimp only
          rw [hfind]
          dsimp only
          rw [helems]

/-- C1 witness: inserting key 1 with value 42 into the concrete fresh
empty table and reading it back returns (42, true). -/
theorem c1_put_get_roundtrip_witness :
    ∃ h2, mapassign tNat (some hEmpty) 1 42 = .ok h2 ∧
      mapaccess2 tNat (some h2) 1 = .ok (42, true) := by
  have hA : AInv hEmpty := by
    refine ⟨?_, ?_, ?_, ?_, ?_, ?_, ?_, ?_, ?_, ?_⟩
    · intro bs hbs
      exact Option.noConfusion hbs
    · intro ch hch
      exact absurd hch (List.not_mem_nil ch)
    · intro _
      exact ⟨rfl, rfl⟩
    · intro hg
      exact Bool.noConfusion hg
    · intro ch hch
      exact absurd hch (List.not_mem_nil ch)
    · intro _
      rfl
    · intro _ ch hch
      exact absurd hch (List.not_mem_nil ch)
    · intro _ ch hch
      exact absurd hch (List.not_mem_nil ch)
    · decide
    · decide
  rcases hok : mapassign tNat (some hEmpty) 1 42 with e | h2
  · exfalso
    have hsome : (mapassign tNat (some hEmpty) 1 42).toOption.isSome = true := by decide
    rw [hok] at hsome
    exact Bool.noConfusion hsome
  · exact ⟨h2, rfl, c1_put_get_roundtrip tNat hEmpty 1 42 h2 hA (by decide) hok⟩

theorem chainTags_cons (cell : Bmap) (rest : Chain) :
    chainTags (cell :: rest) = (List.range 8).map cell.tops ++ chainTags rest := rfl

theorem chainTags_length : ∀ ch : Chain, (chainTags ch).length = 8 * ch.length := by
  intro ch
  induction ch with
  | nil => rfl
  | cons cell rest ih =>
    rw [chainTags_cons, List.length_append, List.length_map, List.length_range, ih,
      List.length_cons]
    omega

theorem rangeMap_getD (g : Nat → Nat) (q : Nat) :
    ((List.range 8).map g).getD q 0 = if q < 8 then g q else 0 := by
  have h8 : List.range 8 = [0, 1, 2, 3, 4, 5, 6, 7] := rfl
  rw [h8]
  rcases q with _ | _ | _ | _ | _ | _ | _ | _ | q
  · rfl
  · rfl
  · rfl
  · rfl
  · rfl
  · rfl
  · rfl
  · rfl
  · rw [if_neg (by omega)]
    rfl

theorem chainTags_getD : ∀ (ch : Chain) (c j : Nat), j < 8 →
    (chainTags ch).getD (8 * c + j) 0 = (cellAt ch c).tops j := by
  intro ch
  induction ch with
  | nil =>
    intro c j _
    rfl
  | cons cell rest ih =>
    intro c j hj
    cases c with
    | zero =>
      rw [chainTags_cons, Nat.mul_zero, Nat.zero_add]
      rw [List.getD_append _ _ _ _ (by simp [List.length_map, List.length_range]; omega)]
      rw [rangeMap_getD, if_pos hj]
      rfl
    | succ c2 =>
      rw [chainTags_cons]
      rw [List.getD_append_right _ _ _ _ (by simp [List.length_map, List.length_range]; omega)]
      rw [show 8 * (c2 + 1) + j - ((List.range 8).map cell.tops).length = 8 * c2 + j by
        simp [List.length_map, List.length_range]; omega]
      rw [ih c2 j hj]
      rfl

theorem chainTags_getD_listModify (f : Bmap → Bmap) (i v : Nat) (hi : i < 8)
    (hf : ∀ cell j, (f cell).tops j = if j = i then v else cell.tops j)
    (c : Nat) (ch : Chain) (r : Nat) :
    (chainTags (listModify f c ch)).getD r 0
      = if r = 8 * c + i ∧ c < ch.length then v else (chainTags ch).getD r 0 := by
  have hmod : r % 8 < 8 := Nat.mod_lt _ (by omega)
  have hdm : 8 * (r / 8) + r % 8 = r := Nat.div_add_mod r 8
  rw [← hdm]
  rw [chainTags_getD _ _ _ hmod, chainTags_getD _ _ _ hmod]
  have hcell : cellAt (listModify f c ch) (r / 8)
      = if c = r / 8 ∧ r / 8 < ch.length then f (ch.getD (r / 8) emptyBmap)
        else ch.getD (r / 8) emptyBmap := getD_listModify f emptyBmap c ch (r / 8)
  rw [hcell]
  by_cases hc : c = r / 8 ∧ r / 8 < ch.length
  · obtain ⟨hc1, hc2⟩ := hc
    rw [if_pos ⟨hc1, hc2⟩, hf]
    by_cases hji : r % 8 = i
    · rw [if_pos hji, if_pos ⟨by omega, by omega⟩]
    · rw [if_neg hji, if_neg (by rintro ⟨he, -⟩; exact hji (by omega))]
      rfl
  · rw [if_neg hc, if_neg (by rintro ⟨he, hlen⟩; exact hc ⟨by omega, by omega⟩)]
    rfl

theorem chainOk_of_B (ch : Chain) (hB : chainOkB ch = true) : chainOk ch := by
  intro p q hpq hq h0
  have h1 := List.all_eq_true.mp hB p (List.mem_range.mpr (Nat.lt_trans hpq hq))
  have h2 := List.all_eq_true.mp h1 q (List.mem_range.mpr hq)
  simp only [Bool.or_eq_true, Bool.not_eq_true', Bool.and_eq_true, decide_eq_true_eq,
    Bool.and_eq_false_iff, decide_eq_false_iff_not] at h2
  rcases h2 with h2 | h2
  · rcases h2 with h2 | h2
    · exact absurd hpq h2
    · exact absurd h0 h2
  · exact h2

theorem chainOk_write_nonRest (f : Bmap → Bmap) (c i v : Nat) (hi : i < 8)
    (hf : ∀ cell j, (f cell).tops j = if j = i then v else cell.tops j)
    (hv0 : v ≠ emptyRest) (hv5 : v < minTopHash) (ch : Chain)
    (hOk : chainOk ch) : chainOk (listModify f c ch) := by
  have hlen : (chainTags (listModify f c ch)).length = (chainTags ch).length := by
    rw [chainTags_length, chainTags_length, listModify_length]
  intro p q hpq hq h0
  rw [hlen] at hq
  rw [chainTags_getD_listModify f i v hi hf c ch p] at h0
  rw [chainTags_getD_listModify f i v hi hf c ch q]
  by_cases hqc : q = 8 * c + i ∧ c < ch.length
  · rw [if_pos hqc]
    exact hv5
  · rw [if_neg hqc]
    by_cases hpc : p = 8 * c + i ∧ c < ch.length
    · rw [if_pos hpc] at h0
      exact absurd h0 hv0
    · rw [if_neg hpc] at h0
      exact hOk p q hpq hq h0

theorem chainOk_write_rest (c i : Nat) (hi : i < 8) (ch : Chain)
    (hOk : chainOk ch) (hdead : deadAfter ch (8 * c + i)) :
    chainOk (listModify (fun cell => cell.setTop i emptyRest) c ch) ∧
    deadAfter (listModify (fun cell => cell.setTop i emptyRest) c ch) (8 * c + i - 1) := by
  have hf : ∀ (cell : Bmap) (j : Nat), (cell.setTop i emptyRest).tops j
      = if j = i then emptyRest else cell.tops j := fun cell j =>
    Bmap.setTop_tops cell i emptyRest j
  have hlen : (chainTags (listModify (fun cell => cell.setTop i emptyRest) c ch)).length
      = (chainTags ch).length := by
    rw [chainTags_length, chainTags_length, listModify_length]
  constructor
  · intro p q hpq hq h0
    rw [hlen] at hq
    rw [chainTags_getD_listModify _ i emptyRest hi hf c ch p] at h0
    rw [chainTags_getD_listModify _ i emptyRest hi hf c ch q]
    by_cases hqc : q = 8 * c + i ∧ c < ch.length
    · rw [if_pos hqc]
      decide
    · rw [if_neg hqc]
      by_cases hpc : p = 8 * c + i ∧ c < ch.length
      · exact hdead q (by omega) hq
      · rw [if_neg hpc] at h0
        exact hOk p q hpq hq h0
  · intro r hr hrlen
    rw [hlen] at hrlen
    rw [chainTags_getD_listModify _ i emptyRest hi hf c ch r]
    by_cases hrc : r = 8 * c + i ∧ c < ch.length
    · rw [if_pos hrc]
      decide
    · rw [if_neg hrc]
      by_cases hre : r = 8 * c + i
      · exfalso
        have hcge : ¬ c < ch.length := fun hcl => hrc ⟨hre, hcl⟩
        rw [chainTags_length] at hrlen
        omega
      · exact hdead r (by omega) hrlen

theorem deleteCompactGo_chainOk :
    ∀ (rem c i : Nat) (ch : Chain), i < 8 → chainOk ch → deadAfter ch (8 * c + i) →
      chainOk (deleteCompactGo ch c i rem) := by
  intro rem
  induction rem with
  | zero =>
    intro c i ch _ hOk _
    exact hOk
  | succ n ih =>
    intro c i ch hi hOk hdead
    obtain ⟨hOk2, hdead2⟩ := chainOk_write_rest c i hi ch hOk hdead
    have hbc : bucketCnt = 8 := rfl
    simp only [deleteCompactGo]
    split
    · next hi0 =>
      split
      · exact hOk2
      · next hc0 =>
        split
        · exact hOk2
        · apply ih (c - 1) (bucketCnt - 1) _ (by omega) hOk2
          intro r hr hrlen
          exact hdead2 r (by omega) hrlen
    · next hi0 =>
      split
      · exact hOk2
      · apply ih c (i - 1) _ (by omega) hOk2
        intro r hr hrlen
        exact hdead2 r (by omega) hrlen

theorem guard_deadAfter (c i : Nat) (hi : i < 8) (ch1 : Chain) (hOk1 : chainOk ch1)
    (hg : (if i = bucketCnt - 1 then
        !(decide (c + 1 < ch1.length) && (cellAt ch1 (c + 1)).tops 0 ≠ emptyRest)
      else
        !((cellAt ch1 c).tops (i + 1) ≠ emptyRest)) = true) :
    deadAfter ch1 (8 * c + i) := by
  have hbc : bucketCnt = 8 := rfl
  by_cases hib : i = bucketCnt - 1
  · rw [if_pos hib] at hg
    simp at hg
    intro r hr hrlen
    rcases hg with hle | htop
    · exfalso
      rw [chainTags_length] at hrlen
      omega
    · have hpos : (chainTags ch1).getD (8 * (c + 1) + 0) 0 = emptyRest := by
        rw [chainTags_getD _ _ _ (by omega)]
        exact htop
      rcases Nat.lt_or_ge (8 * (c + 1) + 0) r with hlt | hge
      · exact hOk1 (8 * (c + 1) + 0) r hlt hrlen hpos
      · have hreq : r = 8 * (c + 1) + 0 := by omega
        rw [hreq, chainTags_getD _ _ _ (by omega), htop]
        decide
  · rw [if_neg hib] at hg
    simp at hg
    intro r hr hrlen
    have hpos : (chainTags ch1).getD (8 * c + (i + 1)) 0 = emptyRest := by
      rw [chainTags_getD _ _ _ (by omega)]
      exact hg
    rcases Nat.lt_or_ge (8 * c + (i + 1)) r with hlt | hge
    · exact hOk1 (8 * c + (i + 1)) r hlt hrlen hpos
    · have hreq : r = 8 * c + (i + 1) := by omega
      rw [hreq, chainTags_getD _ _ _ (by omega), hg]
      decide

theorem chainOk_compactStep (c i : Nat) (hi : i < 8) (ch1 : Chain)
    (hOk1 : chainOk ch1) :
    chainOk (if (if i = bucketCnt - 1 then
        !(decide (c + 1 < ch1.length) && (cellAt ch1 (c + 1)).tops 0 ≠ emptyRest)
      else
        !((cellAt ch1 c).tops (i + 1) ≠ emptyRest)) = true
      then deleteCompact ch1 c i else ch1) := by
  by_cases hc : (if i = bucketCnt - 1 then
      !(decide (c + 1 < ch1.length) && (cellAt ch1 (c + 1)).tops 0 ≠ emptyRest)
    else
      !((cellAt ch1 c).tops (i + 1) ≠ emptyRest)) = true
  · rw [if_pos hc]
    exact deleteCompactGo_chainOk (8 * c + i + 1) c i ch1 hi hOk1
      (guard_deadAfter c i hi ch1 hOk1 hc)
  · rw [if_neg hc]
    exact hOk1

theorem chainOk_deleteStep (t : Maptype) (ch : Chain) (c i : Nat) (hi : i < 8)
    (hOk : chainOk ch) :
    chainOk (
      let ch1 := listModify (fun cell =>
          let cell1 := if t.indirectkey || t.keyPtrdata then cell.setKey i 0 else cell
          (cell1.setElem i 0).setTop i emptyOne) c ch
      let compact :=
        if i = bucketCnt - 1 then
          !(decide (c + 1 < ch1.length) && (cellAt ch1 (c + 1)).tops 0 ≠ emptyRest)
        else
          !((cellAt ch1 c).tops (i + 1) ≠ emptyRest)
      if compact then deleteCompact ch1 c i else ch1) := by
  dsimp only
  have hf : ∀ (cell : Bmap) (j : Nat),
      ((((if t.indirectkey || t.keyPtrdata then cell.setKey i 0 else cell).setElem
        i 0)).setTop i emptyOne).tops j = if j = i then emptyOne else cell.tops j := by
    intro cell j
    by_cases hk : (t.indirectkey || t.keyPtrdata) = true <;> simp [hk]
  have hOk1 := chainOk_write_nonRest _ c i emptyOne hi hf (by decide) (by decide) ch hOk
  exact chainOk_compactStep c i hi _ hOk1

theorem mem_setCurChain_chainOk (h : Hmap) (bucket : Nat) (ch2 : Chain)
    (hOk : ∀ ch ∈ curBuckets h, chainOk ch)
    (hch2 : chainOk (curChainAt h bucket) → chainOk ch2) :
    ∀ ch ∈ curBuckets (setCurChain h bucket ch2), chainOk ch := by
  intro ch hch
  rw [curBuckets_setCurChain] at hch
  by_cases hblen : bucket < (curBuckets h).length
  · rcases List.mem_or_eq_of_mem_set hch with hin | heq
    · exact hOk ch hin
    · subst heq
      apply hch2
      apply hOk
      rw [curChainAt_eq]
      exact getD_mem _ _ hblen
  · rw [List.set_eq_of_length_le (by omega)] at hch
    exact hOk ch hch

theorem curBuckets_countReset (P : Prop) [inst : Decidable P] (x : Hmap) :
    curBuckets (if P then
      { (fastrandStep x).2 with hash0 := (fastrandStep x).1 } else x) = curBuckets x := by
  split
  · rfl
  · rfl

theorem mapdeleteAt_chains (t : Maptype) (h : Hmap) (bucket c i : Nat) (hi : i < 8)
    (hOk : ∀ ch ∈ curBuckets h, chainOk ch) :
    ∀ ch ∈ curBuckets (mapdeleteAt t h bucket c i), chainOk ch := by
  intro ch hch
  simp only [mapdeleteAt] at hch
  rw [curBuckets_countReset] at hch
  exact mem_setCurChain_chainOk h bucket _ hOk
    (fun hOkc => chainOk_deleteStep t (curChainAt h bucket) c i hi hOkc) ch hch

theorem findSlot_found_mem (t : Maptype) (top key : Nat) (cell : Bmap) :
    ∀ (l : List Nat) (i : Nat), findSlot t top key cell l = .ffound i → i ∈ l := by
  intro l
  induction l with
  | nil =>
    intro i hs
    exact CellFind.noConfusion hs
  | cons j rest ih =>
    intro i hs
    unfold findSlot at hs
    by_cases hj : cell.tops j ≠ top
    · rw [if_pos hj] at hs
      by_cases hr : cell.tops j = emptyRest
      · rw [if_pos hr] at hs
        exact CellFind.noConfusion hs
      · rw [if_neg hr] at hs
        exact List.mem_cons_of_mem j (ih _ hs)
    · rw [if_neg hj] at hs
      by_cases hk : t.keyEqual key (cell.keys j) = true
      · rw [if_pos hk] at hs
        rw [← CellFind.ffound.inj hs]
        exact List.mem_cons_self j rest
      · rw [if_neg hk] at hs
        exact List.mem_cons_of_mem j (ih _ hs)

theorem findChain_slot_lt (t : Maptype) (top key : Nat) :
    ∀ (ch : Chain) (c i : Nat), findChain t top key ch = some (c, i) → i < 8 := by
  intro ch
  induction ch with
  | nil =>
    intro c i hs
    exact Option.noConfusion hs
  | cons cell rest ih =>
    intro c i hs
    unfold findChain at hs
    rcases hslot : findSlot t top key cell (List.range 8) with j | _ | _ <;>
      rw [hslot] at hs <;> dsimp only at hs
    · have hin := Prod.mk.inj (Option.some.inj hs)
      rw [← hin.2]
      exact List.mem_range.mp (findSlot_found_mem t top key cell _ j hslot)
    · exact Option.noConfusion hs
    · rcases hrest : findChain t top key rest with _ | ⟨c2, i2⟩ <;> rw [hrest] at hs <;>
        dsimp only [Option.map] at hs
      · exact Option.noConfusion hs
      · have hin := Prod.mk.inj (Option.some.inj hs)
        rw [← hin.2]
        exact ih c2 i2 hrest

/-- C7: mapdeleteAt (delete of a found slot: the emptyOne write followed by
the guarded backward compaction to emptyRest) preserves the early-exit
invariant chainOk of every bucket chain, on any table; and a full Delete
on a table with no resize in flight preserves chainOk of every chain. -/
theorem c7_delete_compaction_emptyRest_invariant :
    (∀ (t : Maptype) (h : Hmap) (bucket c i : Nat), i < 8 →
      (∀ ch ∈ curBuckets h, chainOk ch) →
      ∀ ch ∈ curBuckets (mapdeleteAt t h bucket c i), chainOk ch) ∧
    (∀ (t : Maptype) (h : Hmap) (key : Nat) (h2 : Hmap),
      h.growing = false →
      mapdelete t (some h) key = .ok (some h2) →
      (∀ ch ∈ curBuckets h, chainOk ch) →
      ∀ ch ∈ curBuckets h2, chainOk ch) := by
  constructor
  · exact fun t h bucket c i hi hOk => mapdeleteAt_chains t h bucket c i hi hOk
  · intro t h key h2 hg hok hOk
    simp only [mapdelete] at hok
    by_cases hcnt : h.count = 0
    · rw [if_pos hcnt] at hok
      split at hok
      · split at hok
        · exact Except.noConfusion hok
        · have heq2 := Option.some.inj (Except.ok.inj hok)
          rw [← heq2]
          exact hOk
      · have heq2 := Option.some.inj (Except.ok.inj hok)
        rw [← heq2]
        exact hOk
    · rw [if_neg hcnt] at hok
      split at hok
      · exact Except.noConfusion hok
      · split at hok
        · exact Except.noConfusion hok
        next hash hh =>
          split at hok
          · exact Except.noConfusion hok
          next h2s hgw =>
            have hcondf : ({ h with flags := h.flags.xorWriting } : Hmap).growing = false := hg
            rw [if_neg (by rw [hcondf]; exact Bool.false_ne_true)] at hgw
            have hseq : ({ h with flags := h.flags.xorWriting } : Hmap) = h2s :=
              Except.ok.inj hgw
            split at hok
            · exact Except.noConfusion hok
            · split at hok
              · have h2eq := Option.some.inj (Except.ok.inj hok)
                rw [← h2eq]
                intro ch hch
                apply hOk
                rw [← hseq] at hch
                exact hch
              next c i hfc =>
                have h2eq := Option.some.inj (Except.ok.inj hok)
                rw [← h2eq]
                intro ch hch
                have hi : i < 8 := findChain_slot_lt t _ key _ c i hfc
                have hOk2 : ∀ ch3 ∈ curBuckets h2s, chainOk ch3 := by
                  intro ch3 hch3
                  apply hOk
                  rw [← hseq] at hch3
                  exact hch3
                exact mapdeleteAt_chains t h2s _ c i hi hOk2 ch hch

/-- C2 (amended): on every successful Put the bucket exponent B never
decreases and count changes by at most one; and a Put that actually
inserts a new key (count increments) into a non-growing table whose next
count overshoots the code's integer load threshold (overLoadFactor,
that is 8 < count + 1 and 13 * (2^B / 2) < count + 1) completes only
after a doubling resize has strictly increased B.  At B = 0 the
real-number bound 6.5 x 2^B of the original claim differs from the
integer threshold the code computes, see the counterexample. -/
theorem c2_load_factor_doubling_trigger (t : Maptype) (h : Hmap) (key val : Nat) (h2 : Hmap)
    (hok : mapassign t (some h) key val = .ok h2) :
    h.B ≤ h2.B ∧
    (h2.count = h.count ∨ h2.count = h.count + 1) ∧
    (h.growing = false → overLoadFactor (h.count + 1) h.B = true →
      h2.count = h.count + 1 → h.B < h2.B) :=
  mapassign_B_count t h key val h2 hok

/-- C2 witness: the 9th insert into a full single-bucket table (8 live
entries, B = 0, no resize in flight, count + 1 = 9 over the threshold)
goes through and strictly increases B. -/
theorem c2_load_factor_doubling_trigger_witness :
    ∃ h2, mapassign tNat (some hEight) 8 80 = .ok h2 ∧ hEight.B < h2.B := by
  rcases hok : mapassign tNat (some hEight) 8 80 with e | h2
  · exfalso
    have hsome : (mapassign tNat (some hEight) 8 80).toOption.isSome = true := by decide
    rw [hok] at hsome
    exact Bool.noConfusion hsome
  · refine ⟨h2, rfl, ?_⟩
    obtain ⟨-, -, c⟩ := c2_load_factor_doubling_trigger tNat hEight 8 80 h2 hok
    apply c
    · decide
    · decide
    · have hcnt : (mapassign tNat (some hEight) 8 80).toOption.map Hmap.count = some 9 := by
        decide
      rw [hok] at hcnt
      have h9 : h2.count = 9 := Option.some.inj hcnt
      rw [h9]
      decide

/-- C5 (amended): while a resize is in flight the evacuation cursor is
monotone and, from below the old bucket count, stays bounded by it;
every growWork step taken on a growing table (the work every Put does,
and every Delete on a non-empty table does, while growing) strictly
advances the cursor; the resize is complete exactly when the cursor
reaches the old bucket count, and then the old array and the old
overflow registry are released; and a Delete of a non-empty growing
table strictly advances the cursor.  (The original claim's "every
mutating call strictly advances" fails for Delete on an emptied growing
table, which returns through the count == 0 early exit.) -/
theorem c5_evacuation_cursor_monotone_strict_bounded_complete :
    (∀ (t : Maptype) (h : Hmap) (bucket : Nat) (h2 : Hmap),
      growWork t h bucket = .ok h2 →
        h.nevacuate ≤ h2.nevacuate ∧
        (h.growing = true → h.nevacuate < h2.nevacuate) ∧
        (h.nevacuate < h.noldbuckets → h2.nevacuate ≤ h.noldbuckets) ∧
        (h.growing = true → h.nevacuate < h.noldbuckets →
          (h2.growing = false ↔ h2.nevacuate = h.noldbuckets)) ∧
        (h.growing = true → h2.growing = false →
          h2.oldbuckets = none ∧
          (h2.extra = none ∨ ∃ e, h2.extra = some e ∧ e.oldoverflow = none))) ∧
    (∀ (t : Maptype) (h : Hmap) (key : Nat) (h2 : Hmap),
      h.growing = true → ¬h.count = 0 → mapdelete t (some h) key = .ok (some h2) →
        h.nevacuate < h2.nevacuate) := by
  constructor
  · intro t h bucket h2 hok
    obtain ⟨a1, a2, a3, a4, a5, a6, _, _, _, _, _⟩ := growWork_spec t h bucket h2 hok
    exact ⟨a1, a2, a3, a4, fun hgt hgf => ⟨a5 hgf, a6 hgt hgf⟩⟩
  · intro t h key h2 hg hc hok
    exact mapdelete_strict_advance t h key h2 hg hc hok

/-- C5 counterexample to the original claim: on a growing table that has
been emptied (count = 0, a same-size grow over 16 buckets in flight,
cursor at 1), Delete returns through the count == 0 early exit without
touching the map, so this mutating call made during the resize does not
advance the evacuation cursor. -/
theorem c5_counterexample_delete_during_grow_no_advance :
    hGE.growing = true ∧ hGE.nevacuate < hGE.noldbuckets ∧
    mapdelete tNat (some hGE) 5 = .ok (some hGE) := by
  refine ⟨rfl, by decide, rfl⟩

/-- C10: tophash always returns a tag at least minTopHash = 5, so a live
slot never collides with the five reserved sentinel tags 0..4; and
evacuation throws bad map state when it meets a non-empty tag below 5
(here: tag 3 at slot 1 of a non-evacuated old bucket). -/
theorem c10_tophash_min_and_evacuate_guard :
    (∀ hash : Nat, minTopHash ≤ tophash hash) ∧
    errCode (evacuate tNat hC10 0) = some .badMapState := by
  constructor
  · intro hash
    show minTopHash ≤
      if (hash >>> 56) % 256 < minTopHash then (hash >>> 56) % 256 + minTopHash
      else (hash >>> 56) % 256
    have h5 : minTopHash = 5 := rfl
    split <;> omega
  · decide

/-- C9: on a nil map handle, Get returns the zero value and found = false,
Delete returns with the handle untouched, and len returns 0, none of
them aborting; only Put fails, with the assignment-to-nil-map panic
raised before the hasher ever runs. -/
theorem c9_nil_handle_ops (t : Maptype) (k v : Nat)
    (hh : t.hashMightPanic = false ∨ (t.hasher k 0).isSome = true) :
    mapaccess1 t none k = .ok 0 ∧
    mapaccess2 t none k = .ok (0, false) ∧
    mapdelete t none k = .ok none ∧
    reflect_maplen none = 0 ∧
    mapassign t none k v = .error (.nilMapAssign, none) := by
  have h2 : mapaccess2 t none k = .ok (0, false) := by
    rcases hh with hf | hs
    · simp [mapaccess2, hf]
    · obtain ⟨y, hy⟩ := Option.isSome_iff_exists.mp hs
      cases hp : t.hashMightPanic <;> simp [mapaccess2, hp, hy]
  refine ⟨?_, h2, ?_, rfl, rfl⟩
  · simp [mapaccess1, h2, Except.map]
  · rcases hh with hf | hs
    · simp [mapdelete, hf]
    · obtain ⟨y, hy⟩ := Option.isSome_iff_exists.mp hs
      cases hp : t.hashMightPanic <;> simp [mapdelete, hp, hy]

/-- C9 witness: the nil-handle behaviours at the concrete map type tNat
and key 3. -/
theorem c9_nil_handle_ops_witness :
    mapaccess2 tNat none 3 = .ok (0, false) ∧
    mapdelete tNat none 3 = .ok none ∧
    mapassign tNat none 3 5 = .error (.nilMapAssign, none) :=
  ⟨(c9_nil_handle_ops tNat 3 5 (Or.inl rfl)).2.1,
   (c9_nil_handle_ops tNat 3 5 (Or.inl rfl)).2.2.1,
   (c9_nil_handle_ops tNat 3 5 (Or.inl rfl)).2.2.2.2⟩

/-- C8: when the hash function fails on the key, Put and Delete propagate
the failure and return the table exactly as it was: the hasher runs
before the write flag is set and before any slot, count or bucket array
is touched, so the error state is the unmodified input state. -/
theorem c8_hasher_panic_leaves_table_unmodified (t : Maptype) (h : Hmap) (k v : Nat)
    (hfail : ∀ s, t.hasher k s = none)
    (hmp : t.hashMightPanic = true)
    (hw : h.flags.hashWriting = false) :
    mapassign t (some h) k v = .error (.hashPanic, some h) ∧
    mapdelete t (some h) k = .error (.hashPanic, some h) := by
  constructor
  · simp [mapassign, hw, hfail]
  · by_cases hc : h.count = 0 <;> simp [mapdelete, hc, hw, hmp, hfail]

/-- C8 witness: the always-failing hasher at a concrete populated table. -/
theorem c8_hasher_panic_witness :
    mapassign tFail (some hOne) 1 2 = .error (.hashPanic, some hOne) ∧
    mapdelete tFail (some hOne) 1 = .error (.hashPanic, some hOne) :=
  c8_hasher_panic_leaves_table_unmodified tFail hOne 1 2 (fun _ => rfl) rfl (by decide)

/-- C6: starting a grow only swaps buckets to oldbuckets, installs a
newly allocated all-empty bucket array of the new size, and resets the
evacuation cursor; it moves no data (the old chains are the previous
buckets value, untouched) and leaves count unchanged. -/
theorem c6_hashGrow_frame (t : Maptype) (h h2 : Hmap)
    (hEq : hashGrow t h = .ok h2) :
    h2.oldbuckets = h.buckets ∧
    h2.buckets = some (List.replicate
      (bucketShift (h.B + (if overLoadFactor (h.count + 1) h.B then 1 else 0)))
      [emptyBmap]) ∧
    h2.nevacuate = 0 ∧
    h2.count = h.count ∧
    h2.B = h.B + (if overLoadFactor (h.count + 1) h.B then 1 else 0) := by
  unfold hashGrow at hEq
  cases hov : overLoadFactor (h.count + 1) h.B <;>
    simp only [hov, Bool.false_eq_true, if_false, if_true, ite_true, ite_false] at hEq <;>
    rcases hextra : h.extra with _ | e <;>
    simp only [hextra] at hEq
  · cases hEq
    exact ⟨rfl, by simp [makeBucketArray, hov], rfl, rfl, by simp [hov]⟩
  · split at hEq
    · split at hEq
      · cases hEq
      · cases hEq
        exact ⟨rfl, by simp [makeBucketArray, hov], rfl, rfl, by simp [hov]⟩
    · cases hEq
      exact ⟨rfl, by simp [makeBucketArray, hov], rfl, rfl, by simp [hov]⟩
  · cases hEq
    exact ⟨rfl, by simp [makeBucketArray, hov], rfl, rfl, by simp [hov]⟩
  · split at hEq
    · split at hEq
      · cases hEq
      · cases hEq
        exact ⟨rfl, by simp [makeBucketArray, hov], rfl, rfl, by simp [hov]⟩
    · cases hEq
      exact ⟨rfl, by simp [makeBucketArray, hov], rfl, rfl, by simp [hov]⟩

/-- C6 witness: hashGrow on a concrete two-entry table. -/
theorem c6_hashGrow_frame_witness :
    ∃ h2, hashGrow tNat hTwo = .ok h2 ∧
      h2.oldbuckets = hTwo.buckets ∧
      h2.count = hTwo.count ∧
      h2.nevacuate = 0 := by
  have hok2 : errCode (hashGrow tNat hTwo) = none := by decide
  rcases hok : hashGrow tNat hTwo with e | h2
  · rw [hok] at hok2
    rcases e with ⟨e1, e2⟩
    simp [errCode] at hok2
  · obtain ⟨f1, _, f3, f4, _⟩ := c6_hashGrow_frame tNat hTwo h2 hok
    exact ⟨h2, rfl, f1, f4, f3⟩

/-- C4: inserting 9 distinct keys one by one into a freshly created
single-bucket table leaves B at 0 through the first 8 inserts, the 9th
insert triggers exactly one doubling grow (B becomes 1, no same-size
grow is pending), and immediately afterwards all 9 keys are retrievable
with their values. -/
theorem c4_nine_inserts_trigger_one_doubling_grow :
    (c4h 8).map Hmap.B = some 0 ∧
    (c4h 9).map Hmap.B = some 1 ∧
    (c4h 9).map Hmap.count = some 9 ∧
    (c4h 9).map (fun h => h.flags.sameSizeGrow) = some false ∧
    ((List.range 9).map fun k => mapaccess2 tNat (c4h 9) k) =
      ((List.range 9).map fun k => .ok (10 * k, true)) := by
  decide

/-- C1 counterexample: with a NaN-like key (equality not reflexive on key
0, as for a float NaN), Put(0, 7) completes and returns a slot that 7 is
written into, yet Get(0) afterwards returns the zero value and found =
false, refuting the claim for every key. -/
theorem c1_counterexample_nan_key :
    c1nanRes.isSome = true ∧ mapaccess2 tNaN c1nanRes 0 = .ok (0, false) := by
  decide

/-- C2 counterexample: after inserting 7 distinct keys into a fresh
single-bucket table the insert has completed with count = 7 and B = 0 and
no resize in flight, yet 7 is greater than 6.5 times 2 to the 0 (that is,
2 * count is greater than 13 * 2^B), refuting the stated bound. -/
theorem c2_counterexample_seven_entries_one_bucket :
    (c4h 7).map (fun h => (h.count, h.B, h.oldbuckets.isSome)) = some (7, 0, false) ∧
    13 * bucketShift 0 < 2 * 7 := by
  decide

end GoMap
